import Mathlib

/-!
# xxHash (lz4_xxhash.c): a shallow embedding of the 32-bit and 64-bit hash functions

Machine words are natural numbers, reduced modulo `2^32` / `2^64` wherever the C
arithmetic wraps.  A pointer into caller memory is its numeric value together with the
bytes stored behind it; positions inside a buffer are byte offsets from its start, and
pointer comparisons are comparisons of offsets.  Reads are total: an offset past the end
of the modelled memory yields the byte `0`.  Loops are structurally recursive on a step
budget that the callers set to the number of bytes in the buffer they walk.
-/

namespace XXHash

/-! ## Basic types -/

/-- The type `BYTE` of the source (`uint8_t`). -/
abbrev BYTE := Fin 256

/-- A `const void*` argument: `addr` is the value of the pointer (`(size_t)input`, with
`NULL` being `0`), `mem` are the bytes stored at `addr`, `addr+1`, ... -/
structure ConstPtr where
  addr : Nat
  mem : List BYTE

/-- The enumeration `LZ4_XXH_errorcode` of the header: `LZ4_XXH_OK = 0`, `LZ4_XXH_ERROR`. -/
inductive LZ4_XXH_errorcode where
  | LZ4_XXH_OK
  | LZ4_XXH_ERROR
  deriving DecidableEq, Repr

/-- The enumeration `LZ4_XXH_endianess`. -/
inductive LZ4_XXH_endianess where
  | LZ4_XXH_bigEndian
  | LZ4_XXH_littleEndian
  deriving DecidableEq, Repr

/-- The enumeration `LZ4_XXH_alignment`. -/
inductive LZ4_XXH_alignment where
  | LZ4_XXH_aligned
  | LZ4_XXH_unaligned
  deriving DecidableEq, Repr

export LZ4_XXH_errorcode (LZ4_XXH_OK LZ4_XXH_ERROR)
export LZ4_XXH_endianess (LZ4_XXH_bigEndian LZ4_XXH_littleEndian)
export LZ4_XXH_alignment (LZ4_XXH_aligned LZ4_XXH_unaligned)

/-- What the source leaves to the target and to the command line: the byte order of the
host (`LZ4_XXH_CPU_LITTLE_ENDIAN`, the first byte of the `int` 1), the value of
`LZ4_XXH_FORCE_ALIGN_CHECK` (0 on x86, 1 elsewhere), and whether
`LZ4_XXH_ACCEPT_NULL_INPUT_POINTER` is defined (it is not by default). -/
structure Target where
  cpu_little_endian : Bool
  force_align_check : Bool
  accept_null_input_pointer : Bool
  deriving DecidableEq, Repr

/-- The switch `LZ4_XXH_FORCE_NATIVE_FORMAT`, which the source defines as 0. -/
def LZ4_XXH_FORCE_NATIVE_FORMAT : Bool := false

/-- The value of the macro `LZ4_XXH_CPU_LITTLE_ENDIAN` as an `LZ4_XXH_endianess`. -/
def endian_detected (t : Target) : LZ4_XXH_endianess :=
  if t.cpu_little_endian then LZ4_XXH_littleEndian else LZ4_XXH_bigEndian

/-! ## Memory access -/

/-- The byte `p[0]` of a buffer at offset `p`, zero-extended (`*p` for a `const BYTE* p`). -/
def byteAt (mem : List BYTE) (p : Nat) : Nat := (mem.getD p 0).val

/-- A native 4-byte load at offset `p`: the host's byte order decides the value. -/
def load32 (t : Target) (mem : List BYTE) (p : Nat) : Nat :=
  if t.cpu_little_endian then
    byteAt mem p + byteAt mem (p + 1) * 2 ^ 8 + byteAt mem (p + 2) * 2 ^ 16
      + byteAt mem (p + 3) * 2 ^ 24
  else
    byteAt mem p * 2 ^ 24 + byteAt mem (p + 1) * 2 ^ 16 + byteAt mem (p + 2) * 2 ^ 8
      + byteAt mem (p + 3)

/-- The source's `LZ4_XXH_read32`: `memcpy` of 4 bytes into a `U32` (the packed and the
direct variant load the same value). -/
def LZ4_XXH_read32 (t : Target) (mem : List BYTE) (p : Nat) : Nat := load32 t mem p

/-- The source's `LZ4_XXH_rotl32(x,r)`: `(x << r) | (x >> (32 - r))` on a `U32`. -/
def LZ4_XXH_rotl32 (x r : Nat) : Nat := ((x <<< r) % 2 ^ 32) ||| (x >>> (32 - r))

/-- The source's `LZ4_XXH_swap32` (the portable variant; the compiler builtins compute the
same byte swap). -/
def LZ4_XXH_swap32 (x : Nat) : Nat :=
  (((x <<< 24) % 2 ^ 32) &&& 0xff000000) |||
  (((x <<< 8) % 2 ^ 32) &&& 0x00ff0000) |||
  ((x >>> 8) &&& 0x0000ff00) |||
  ((x >>> 24) &&& 0x000000ff)

/-- The source's `LZ4_XXH_readLE32_align`. The aligned path dereferences a `const U32*`,
which is the same native load. -/
def LZ4_XXH_readLE32_align (t : Target) (mem : List BYTE) (p : Nat)
    (endian : LZ4_XXH_endianess) (align : LZ4_XXH_alignment) : Nat :=
  if align = LZ4_XXH_unaligned then
    (if endian = LZ4_XXH_littleEndian then LZ4_XXH_read32 t mem p
     else LZ4_XXH_swap32 (LZ4_XXH_read32 t mem p))
  else
    (if endian = LZ4_XXH_littleEndian then load32 t mem p
     else LZ4_XXH_swap32 (load32 t mem p))

/-- The source's `LZ4_XXH_readLE32`. -/
def LZ4_XXH_readLE32 (t : Target) (mem : List BYTE) (p : Nat)
    (endian : LZ4_XXH_endianess) : Nat :=
  LZ4_XXH_readLE32_align t mem p endian LZ4_XXH_unaligned

/-- The source's `LZ4_XXH_readBE32`. -/
def LZ4_XXH_readBE32 (t : Target) (mem : List BYTE) (p : Nat) : Nat :=
  if t.cpu_little_endian then LZ4_XXH_swap32 (LZ4_XXH_read32 t mem p)
  else LZ4_XXH_read32 t mem p

/-- Byte-wise `memcpy(dst + doff, src + soff, n)`; returns the new contents of `dst`. -/
def memcpy (dst : List BYTE) (doff : Nat) (src : List BYTE) (soff : Nat) : Nat → List BYTE
  | 0 => dst
  | n + 1 => memcpy (dst.set doff (src.getD soff 0)) (doff + 1) src (soff + 1) n

/-! ## 32-bit hash -/

def PRIME32_1 : Nat := 2654435761
def PRIME32_2 : Nat := 2246822519
def PRIME32_3 : Nat := 3266489917
def PRIME32_4 : Nat := 668265263
def PRIME32_5 : Nat := 374761393

/-- The source's `LZ4_XXH32_round`. -/
def LZ4_XXH32_round (seed input : Nat) : Nat :=
  let seed := (seed + (input * PRIME32_2) % 2 ^ 32) % 2 ^ 32
  let seed := LZ4_XXH_rotl32 seed 13
  (seed * PRIME32_1) % 2 ^ 32

/-- The locals `p`, `v1`, `v2`, `v3`, `v4` of a block loop. -/
structure Lanes where
  p : Nat
  v1 : Nat
  v2 : Nat
  v3 : Nat
  v4 : Nat
  deriving DecidableEq, Repr

/-- The loop `do { v1 = round(v1, get32bits(p)); p+=4; ... v4 ...; p+=4; } while (p<=limit)`
of `LZ4_XXH32_endian_align` and of `LZ4_XXH32_update_endian`; `get32bits` reads a word at an
offset. One unit of the budget is spent per iteration. -/
def LZ4_XXH32_blockLoop (get32bits : Nat → Nat) (limit : Nat) : Nat → Lanes → Lanes
  | 0, s => s
  | fuel + 1, s =>
    let v1 := LZ4_XXH32_round s.v1 (get32bits s.p)
    let p := s.p + 4
    let v2 := LZ4_XXH32_round s.v2 (get32bits p)
    let p := p + 4
    let v3 := LZ4_XXH32_round s.v3 (get32bits p)
    let p := p + 4
    let v4 := LZ4_XXH32_round s.v4 (get32bits p)
    let p := p + 4
    if p ≤ limit then LZ4_XXH32_blockLoop get32bits limit fuel ⟨p, v1, v2, v3, v4⟩
    else ⟨p, v1, v2, v3, v4⟩

/-- The loop `while (p+4<=bEnd) { h32 += get32bits(p) * PRIME32_3;
h32 = rotl32(h32, 17) * PRIME32_4; p+=4; }`; returns `(p, h32)`. -/
def LZ4_XXH32_tailWords (get32bits : Nat → Nat) (bEnd : Nat) : Nat → Nat → Nat → Nat × Nat
  | 0, p, h32 => (p, h32)
  | fuel + 1, p, h32 =>
    if p + 4 ≤ bEnd then
      let h32 := (h32 + (get32bits p * PRIME32_3) % 2 ^ 32) % 2 ^ 32
      let h32 := (LZ4_XXH_rotl32 h32 17 * PRIME32_4) % 2 ^ 32
      LZ4_XXH32_tailWords get32bits bEnd fuel (p + 4) h32
    else (p, h32)

/-- The loop `while (p<bEnd) { h32 += (*p) * PRIME32_5; h32 = rotl32(h32, 11) * PRIME32_1;
p++; }`; returns `(p, h32)`. -/
def LZ4_XXH32_tailBytes (mem : List BYTE) (bEnd : Nat) : Nat → Nat → Nat → Nat × Nat
  | 0, p, h32 => (p, h32)
  | fuel + 1, p, h32 =>
    if p < bEnd then
      let h32 := (h32 + (byteAt mem p * PRIME32_5) % 2 ^ 32) % 2 ^ 32
      let h32 := (LZ4_XXH_rotl32 h32 11 * PRIME32_1) % 2 ^ 32
      LZ4_XXH32_tailBytes mem bEnd fuel (p + 1) h32
    else (p, h32)

/-- The final mix of `LZ4_XXH32_endian_align` and `LZ4_XXH32_digest_endian`:
`h32 ^= h32 >> 15; h32 *= PRIME32_2; h32 ^= h32 >> 13; h32 *= PRIME32_3; h32 ^= h32 >> 16`. -/
def LZ4_XXH32_avalanche (h32 : Nat) : Nat :=
  let h32 := h32 ^^^ (h32 >>> 15)
  let h32 := (h32 * PRIME32_2) % 2 ^ 32
  let h32 := h32 ^^^ (h32 >>> 13)
  let h32 := (h32 * PRIME32_3) % 2 ^ 32
  h32 ^^^ (h32 >>> 16)

/-- The source's `LZ4_XXH32_endian_align`. With `LZ4_XXH_ACCEPT_NULL_INPUT_POINTER` a null
input is hashed as the empty input. -/
def LZ4_XXH32_endian_align (t : Target) (input : ConstPtr) (len seed : Nat)
    (endian : LZ4_XXH_endianess) (align : LZ4_XXH_alignment) : Nat :=
  let len := if t.accept_null_input_pointer && input.addr == 0 then 0 else len
  let bEnd := len
  let get32bits := fun p => LZ4_XXH_readLE32_align t input.mem p endian align
  let s : Nat × Nat :=
    if len ≥ 16 then
      let limit := bEnd - 16
      let v1 := (seed + PRIME32_1 + PRIME32_2) % 2 ^ 32
      let v2 := (seed + PRIME32_2) % 2 ^ 32
      let v3 := (seed + 0) % 2 ^ 32
      let v4 := (seed + 2 ^ 32 - PRIME32_1) % 2 ^ 32
      let l := LZ4_XXH32_blockLoop get32bits limit len ⟨0, v1, v2, v3, v4⟩
      (l.p, (LZ4_XXH_rotl32 l.v1 1 + LZ4_XXH_rotl32 l.v2 7 + LZ4_XXH_rotl32 l.v3 12
        + LZ4_XXH_rotl32 l.v4 18) % 2 ^ 32)
    else
      (0, (seed + PRIME32_5) % 2 ^ 32)
  let h32 := (s.2 + len % 2 ^ 32) % 2 ^ 32
  let s := LZ4_XXH32_tailWords get32bits bEnd len s.1 h32
  let s := LZ4_XXH32_tailBytes input.mem bEnd len s.1 s.2
  LZ4_XXH32_avalanche s.2

/-- The source's `LZ4_XXH32` (the `#else` branch that is compiled). -/
def LZ4_XXH32 (t : Target) (input : ConstPtr) (len seed : Nat) : Nat :=
  if t.force_align_check && (input.addr &&& 3 == 0) then
    if endian_detected t = LZ4_XXH_littleEndian || LZ4_XXH_FORCE_NATIVE_FORMAT then
      LZ4_XXH32_endian_align t input len seed LZ4_XXH_littleEndian LZ4_XXH_aligned
    else
      LZ4_XXH32_endian_align t input len seed LZ4_XXH_bigEndian LZ4_XXH_aligned
  else if endian_detected t = LZ4_XXH_littleEndian || LZ4_XXH_FORCE_NATIVE_FORMAT then
    LZ4_XXH32_endian_align t input len seed LZ4_XXH_littleEndian LZ4_XXH_unaligned
  else
    LZ4_XXH32_endian_align t input len seed LZ4_XXH_bigEndian LZ4_XXH_unaligned

/-! ### 32-bit streaming -/

/-- The source's `struct LZ4_XXH32_state_s`. The buffer `unsigned mem32[4]` is kept as its
16 bytes, which is how the code fills and reads it. The trailing field `reserved`, which the
header documents as never read nor written, is left out. -/
structure LZ4_XXH32_state_t where
  total_len_32 : Nat
  large_len : Nat
  v1 : Nat
  v2 : Nat
  v3 : Nat
  v4 : Nat
  mem32 : List BYTE
  memsize : Nat
  deriving DecidableEq, Repr

/-- The source's `LZ4_XXH32_copyState`: returns the new contents of `*dstState`. -/
def LZ4_XXH32_copyState (_dstState srcState : LZ4_XXH32_state_t) : LZ4_XXH32_state_t :=
  srcState

/-- The source's `LZ4_XXH32_reset`: returns the error code and the new contents of
`*statePtr`. -/
def LZ4_XXH32_reset (_statePtr : LZ4_XXH32_state_t) (seed : Nat) :
    LZ4_XXH_errorcode × LZ4_XXH32_state_t :=
  let state : LZ4_XXH32_state_t :=
    { total_len_32 := 0, large_len := 0, v1 := 0, v2 := 0, v3 := 0, v4 := 0,
      mem32 := List.replicate 16 0, memsize := 0 }
  let state := { state with v1 := (seed + PRIME32_1 + PRIME32_2) % 2 ^ 32 }
  let state := { state with v2 := (seed + PRIME32_2) % 2 ^ 32 }
  let state := { state with v3 := (seed + 0) % 2 ^ 32 }
  let state := { state with v4 := (seed + 2 ^ 32 - PRIME32_1) % 2 ^ 32 }
  (LZ4_XXH_OK, state)

/-- The source's `LZ4_XXH32_update_endian`: returns the error code and the new contents of
`*state`. `size_t` is 64 bits wide, `unsigned` 32 bits. -/
def LZ4_XXH32_update_endian (t : Target) (state : LZ4_XXH32_state_t) (input : ConstPtr)
    (len : Nat) (endian : LZ4_XXH_endianess) : LZ4_XXH_errorcode × LZ4_XXH32_state_t :=
  let bEnd := len
  if t.accept_null_input_pointer && input.addr == 0 then (LZ4_XXH_ERROR, state) else
  let state := { state with total_len_32 := (state.total_len_32 + len % 2 ^ 32) % 2 ^ 32 }
  let state := { state with
    large_len := state.large_len |||
      ((if len ≥ 16 then 1 else 0) ||| (if state.total_len_32 ≥ 16 then 1 else 0)) }
  if (state.memsize + len) % 2 ^ 64 < 16 then
    let state := { state with mem32 := memcpy state.mem32 state.memsize input.mem 0 len }
    let state := { state with memsize := (state.memsize + len % 2 ^ 32) % 2 ^ 32 }
    (LZ4_XXH_OK, state)
  else
  let ps : Nat × LZ4_XXH32_state_t :=
    if state.memsize ≠ 0 then
      let state := { state with
        mem32 := memcpy state.mem32 state.memsize input.mem 0
          ((2 ^ 32 + 16 - state.memsize) % 2 ^ 32) }
      let state := { state with
        v1 := LZ4_XXH32_round state.v1 (LZ4_XXH_readLE32 t state.mem32 0 endian) }
      let state := { state with
        v2 := LZ4_XXH32_round state.v2 (LZ4_XXH_readLE32 t state.mem32 4 endian) }
      let state := { state with
        v3 := LZ4_XXH32_round state.v3 (LZ4_XXH_readLE32 t state.mem32 8 endian) }
      let state := { state with
        v4 := LZ4_XXH32_round state.v4 (LZ4_XXH_readLE32 t state.mem32 12 endian) }
      let p := (2 ^ 32 + 16 - state.memsize) % 2 ^ 32
      (p, { state with memsize := 0 })
    else (0, state)
  let ps : Nat × LZ4_XXH32_state_t :=
    if ps.1 + 16 ≤ bEnd then
      let limit := bEnd - 16
      let l := LZ4_XXH32_blockLoop (fun p => LZ4_XXH_readLE32 t input.mem p endian) limit len
        ⟨ps.1, ps.2.v1, ps.2.v2, ps.2.v3, ps.2.v4⟩
      (l.p, { ps.2 with v1 := l.v1, v2 := l.v2, v3 := l.v3, v4 := l.v4 })
    else ps
  let state :=
    if ps.1 < bEnd then
      let state := { ps.2 with mem32 := memcpy ps.2.mem32 0 input.mem ps.1 (bEnd - ps.1) }
      { state with memsize := (bEnd - ps.1) % 2 ^ 32 }
    else ps.2
  (LZ4_XXH_OK, state)

/-- The source's `LZ4_XXH32_update`. -/
def LZ4_XXH32_update (t : Target) (state_in : LZ4_XXH32_state_t) (input : ConstPtr)
    (len : Nat) : LZ4_XXH_errorcode × LZ4_XXH32_state_t :=
  if endian_detected t = LZ4_XXH_littleEndian || LZ4_XXH_FORCE_NATIVE_FORMAT then
    LZ4_XXH32_update_endian t state_in input len LZ4_XXH_littleEndian
  else
    LZ4_XXH32_update_endian t state_in input len LZ4_XXH_bigEndian

/-- The source's `LZ4_XXH32_digest_endian`. -/
def LZ4_XXH32_digest_endian (t : Target) (state : LZ4_XXH32_state_t)
    (endian : LZ4_XXH_endianess) : Nat :=
  let bEnd := state.memsize
  let h32 :=
    if state.large_len ≠ 0 then
      (LZ4_XXH_rotl32 state.v1 1 + LZ4_XXH_rotl32 state.v2 7 + LZ4_XXH_rotl32 state.v3 12
        + LZ4_XXH_rotl32 state.v4 18) % 2 ^ 32
    else
      (state.v3 + PRIME32_5) % 2 ^ 32
  let h32 := (h32 + state.total_len_32) % 2 ^ 32
  let s := LZ4_XXH32_tailWords (fun p => LZ4_XXH_readLE32 t state.mem32 p endian) bEnd
    state.memsize 0 h32
  let s := LZ4_XXH32_tailBytes state.mem32 bEnd state.memsize s.1 s.2
  LZ4_XXH32_avalanche s.2

/-- The source's `LZ4_XXH32_digest`. -/
def LZ4_XXH32_digest (t : Target) (state_in : LZ4_XXH32_state_t) : Nat :=
  if endian_detected t = LZ4_XXH_littleEndian || LZ4_XXH_FORCE_NATIVE_FORMAT then
    LZ4_XXH32_digest_endian t state_in LZ4_XXH_littleEndian
  else
    LZ4_XXH32_digest_endian t state_in LZ4_XXH_bigEndian

/-! ## 64-bit hash -/

/-- A native 8-byte load at offset `p`: the host's byte order decides the value. -/
def load64 (t : Target) (mem : List BYTE) (p : Nat) : Nat :=
  if t.cpu_little_endian then
    byteAt mem p + byteAt mem (p + 1) * 2 ^ 8 + byteAt mem (p + 2) * 2 ^ 16
      + byteAt mem (p + 3) * 2 ^ 24 + byteAt mem (p + 4) * 2 ^ 32 + byteAt mem (p + 5) * 2 ^ 40
      + byteAt mem (p + 6) * 2 ^ 48 + byteAt mem (p + 7) * 2 ^ 56
  else
    byteAt mem p * 2 ^ 56 + byteAt mem (p + 1) * 2 ^ 48 + byteAt mem (p + 2) * 2 ^ 40
      + byteAt mem (p + 3) * 2 ^ 32 + byteAt mem (p + 4) * 2 ^ 24 + byteAt mem (p + 5) * 2 ^ 16
      + byteAt mem (p + 6) * 2 ^ 8 + byteAt mem (p + 7)

/-- The source's `LZ4_XXH_read64`: `memcpy` of 8 bytes into a `U64`. -/
def LZ4_XXH_read64 (t : Target) (mem : List BYTE) (p : Nat) : Nat := load64 t mem p

/-- The source's `LZ4_XXH_rotl64(x,r)`: `(x << r) | (x >> (64 - r))` on a `U64`. -/
def LZ4_XXH_rotl64 (x r : Nat) : Nat := ((x <<< r) % 2 ^ 64) ||| (x >>> (64 - r))

/-- The source's `LZ4_XXH_swap64` (the portable variant). -/
def LZ4_XXH_swap64 (x : Nat) : Nat :=
  (((x <<< 56) % 2 ^ 64) &&& 0xff00000000000000) |||
  (((x <<< 40) % 2 ^ 64) &&& 0x00ff000000000000) |||
  (((x <<< 24) % 2 ^ 64) &&& 0x0000ff0000000000) |||
  (((x <<< 8) % 2 ^ 64) &&& 0x000000ff00000000) |||
  ((x >>> 8) &&& 0x00000000ff000000) |||
  ((x >>> 24) &&& 0x0000000000ff0000) |||
  ((x >>> 40) &&& 0x000000000000ff00) |||
  ((x >>> 56) &&& 0x00000000000000ff)

/-- The source's `LZ4_XXH_readLE64_align`. -/
def LZ4_XXH_readLE64_align (t : Target) (mem : List BYTE) (p : Nat)
    (endian : LZ4_XXH_endianess) (align : LZ4_XXH_alignment) : Nat :=
  if align = LZ4_XXH_unaligned then
    (if endian = LZ4_XXH_littleEndian then LZ4_XXH_read64 t mem p
     else LZ4_XXH_swap64 (LZ4_XXH_read64 t mem p))
  else
    (if endian = LZ4_XXH_littleEndian then load64 t mem p
     else LZ4_XXH_swap64 (load64 t mem p))

/-- The source's `LZ4_XXH_readLE64`. -/
def LZ4_XXH_readLE64 (t : Target) (mem : List BYTE) (p : Nat)
    (endian : LZ4_XXH_endianess) : Nat :=
  LZ4_XXH_readLE64_align t mem p endian LZ4_XXH_unaligned

/-- The source's `LZ4_XXH_readBE64`. -/
def LZ4_XXH_readBE64 (t : Target) (mem : List BYTE) (p : Nat) : Nat :=
  if t.cpu_little_endian then LZ4_XXH_swap64 (LZ4_XXH_read64 t mem p)
  else LZ4_XXH_read64 t mem p

def PRIME64_1 : Nat := 11400714785074694791
def PRIME64_2 : Nat := 14029467366897019727
def PRIME64_3 : Nat := 1609587929392839161
def PRIME64_4 : Nat := 9650029242287828579
def PRIME64_5 : Nat := 2870177450012600261

/-- The source's `LZ4_XXH64_round`. -/
def LZ4_XXH64_round (acc input : Nat) : Nat :=
  let acc := (acc + (input * PRIME64_2) % 2 ^ 64) % 2 ^ 64
  let acc := LZ4_XXH_rotl64 acc 31
  (acc * PRIME64_1) % 2 ^ 64

/-- The source's `LZ4_XXH64_mergeRound`. -/
def LZ4_XXH64_mergeRound (acc val : Nat) : Nat :=
  let val := LZ4_XXH64_round 0 val
  let acc := acc ^^^ val
  ((acc * PRIME64_1) % 2 ^ 64 + PRIME64_4) % 2 ^ 64

/-- The loop `do { v1 = round(v1, get64bits(p)); p+=8; ... v4 ...; p+=8; } while (p<=limit)`
of `LZ4_XXH64_endian_align` and of `LZ4_XXH64_update_endian`. -/
def LZ4_XXH64_blockLoop (get64bits : Nat → Nat) (limit : Nat) : Nat → Lanes → Lanes
  | 0, s => s
  | fuel + 1, s =>
    let v1 := LZ4_XXH64_round s.v1 (get64bits s.p)
    let p := s.p + 8
    let v2 := LZ4_XXH64_round s.v2 (get64bits p)
    let p := p + 8
    let v3 := LZ4_XXH64_round s.v3 (get64bits p)
    let p := p + 8
    let v4 := LZ4_XXH64_round s.v4 (get64bits p)
    let p := p + 8
    if p ≤ limit then LZ4_XXH64_blockLoop get64bits limit fuel ⟨p, v1, v2, v3, v4⟩
    else ⟨p, v1, v2, v3, v4⟩

/-- The convergence of the four lanes in `LZ4_XXH64_endian_align` and
`LZ4_XXH64_digest_endian`: the sum of the rotated lanes followed by four merge rounds. -/
def LZ4_XXH64_converge (v1 v2 v3 v4 : Nat) : Nat :=
  let h64 := (LZ4_XXH_rotl64 v1 1 + LZ4_XXH_rotl64 v2 7 + LZ4_XXH_rotl64 v3 12
    + LZ4_XXH_rotl64 v4 18) % 2 ^ 64
  let h64 := LZ4_XXH64_mergeRound h64 v1
  let h64 := LZ4_XXH64_mergeRound h64 v2
  let h64 := LZ4_XXH64_mergeRound h64 v3
  LZ4_XXH64_mergeRound h64 v4

/-- The loop `while (p+8<=bEnd) { k1 = round(0, get64bits(p)); h64 ^= k1;
h64 = rotl64(h64,27) * PRIME64_1 + PRIME64_4; p+=8; }`; returns `(p, h64)`. -/
def LZ4_XXH64_tailWords (get64bits : Nat → Nat) (bEnd : Nat) : Nat → Nat → Nat → Nat × Nat
  | 0, p, h64 => (p, h64)
  | fuel + 1, p, h64 =>
    if p + 8 ≤ bEnd then
      let k1 := LZ4_XXH64_round 0 (get64bits p)
      let h64 := h64 ^^^ k1
      let h64 := ((LZ4_XXH_rotl64 h64 27 * PRIME64_1) % 2 ^ 64 + PRIME64_4) % 2 ^ 64
      LZ4_XXH64_tailWords get64bits bEnd fuel (p + 8) h64
    else (p, h64)

/-- The step `if (p+4<=bEnd) { h64 ^= (U64)(get32bits(p)) * PRIME64_1;
h64 = rotl64(h64, 23) * PRIME64_2 + PRIME64_3; p+=4; }`; returns `(p, h64)`. -/
def LZ4_XXH64_tailWord32 (get32bits : Nat → Nat) (bEnd : Nat) (p h64 : Nat) : Nat × Nat :=
  if p + 4 ≤ bEnd then
    let h64 := h64 ^^^ ((get32bits p * PRIME64_1) % 2 ^ 64)
    let h64 := ((LZ4_XXH_rotl64 h64 23 * PRIME64_2) % 2 ^ 64 + PRIME64_3) % 2 ^ 64
    (p + 4, h64)
  else (p, h64)

/-- The loop `while (p<bEnd) { h64 ^= (*p) * PRIME64_5; h64 = rotl64(h64, 11) * PRIME64_1;
p++; }`; returns `(p, h64)`. -/
def LZ4_XXH64_tailBytes (mem : List BYTE) (bEnd : Nat) : Nat → Nat → Nat → Nat × Nat
  | 0, p, h64 => (p, h64)
  | fuel + 1, p, h64 =>
    if p < bEnd then
      let h64 := h64 ^^^ ((byteAt mem p * PRIME64_5) % 2 ^ 64)
      let h64 := (LZ4_XXH_rotl64 h64 11 * PRIME64_1) % 2 ^ 64
      LZ4_XXH64_tailBytes mem bEnd fuel (p + 1) h64
    else (p, h64)

/-- The final mix of `LZ4_XXH64_endian_align` and `LZ4_XXH64_digest_endian`:
`h64 ^= h64 >> 33; h64 *= PRIME64_2; h64 ^= h64 >> 29; h64 *= PRIME64_3; h64 ^= h64 >> 32`. -/
def LZ4_XXH64_avalanche (h64 : Nat) : Nat :=
  let h64 := h64 ^^^ (h64 >>> 33)
  let h64 := (h64 * PRIME64_2) % 2 ^ 64
  let h64 := h64 ^^^ (h64 >>> 29)
  let h64 := (h64 * PRIME64_3) % 2 ^ 64
  h64 ^^^ (h64 >>> 32)

/-- The source's `LZ4_XXH64_endian_align`. -/
def LZ4_XXH64_endian_align (t : Target) (input : ConstPtr) (len seed : Nat)
    (endian : LZ4_XXH_endianess) (align : LZ4_XXH_alignment) : Nat :=
  let len := if t.accept_null_input_pointer && input.addr == 0 then 0 else len
  let bEnd := len
  let get64bits := fun p => LZ4_XXH_readLE64_align t input.mem p endian align
  let get32bits := fun p => LZ4_XXH_readLE32_align t input.mem p endian align
  let s : Nat × Nat :=
    if len ≥ 32 then
      let limit := bEnd - 32
      let v1 := (seed + PRIME64_1 + PRIME64_2) % 2 ^ 64
      let v2 := (seed + PRIME64_2) % 2 ^ 64
      let v3 := (seed + 0) % 2 ^ 64
      let v4 := (seed + 2 ^ 64 - PRIME64_1) % 2 ^ 64
      let l := LZ4_XXH64_blockLoop get64bits limit len ⟨0, v1, v2, v3, v4⟩
      (l.p, LZ4_XXH64_converge l.v1 l.v2 l.v3 l.v4)
    else
      (0, (seed + PRIME64_5) % 2 ^ 64)
  let h64 := (s.2 + len % 2 ^ 64) % 2 ^ 64
  let s := LZ4_XXH64_tailWords get64bits bEnd len s.1 h64
  let s := LZ4_XXH64_tailWord32 get32bits bEnd s.1 s.2
  let s := LZ4_XXH64_tailBytes input.mem bEnd len s.1 s.2
  LZ4_XXH64_avalanche s.2

/-- The source's `LZ4_XXH64` (the `#else` branch that is compiled). -/
def LZ4_XXH64 (t : Target) (input : ConstPtr) (len seed : Nat) : Nat :=
  if t.force_align_check && (input.addr &&& 7 == 0) then
    if endian_detected t = LZ4_XXH_littleEndian || LZ4_XXH_FORCE_NATIVE_FORMAT then
      LZ4_XXH64_endian_align t input len seed LZ4_XXH_littleEndian LZ4_XXH_aligned
    else
      LZ4_XXH64_endian_align t input len seed LZ4_XXH_bigEndian LZ4_XXH_aligned
  else if endian_detected t = LZ4_XXH_littleEndian || LZ4_XXH_FORCE_NATIVE_FORMAT then
    LZ4_XXH64_endian_align t input len seed LZ4_XXH_littleEndian LZ4_XXH_unaligned
  else
    LZ4_XXH64_endian_align t input len seed LZ4_XXH_bigEndian LZ4_XXH_unaligned

/-! ### 64-bit streaming -/

/-- The source's `struct LZ4_XXH64_state_s`. The buffer `unsigned long long mem64[4]` is
kept as its 32 bytes; the trailing `reserved` words are left out. -/
structure LZ4_XXH64_state_t where
  total_len : Nat
  v1 : Nat
  v2 : Nat
  v3 : Nat
  v4 : Nat
  mem64 : List BYTE
  memsize : Nat
  deriving DecidableEq, Repr

/-- The source's `LZ4_XXH64_copyState`: returns the new contents of `*dstState`. -/
def LZ4_XXH64_copyState (_dstState srcState : LZ4_XXH64_state_t) : LZ4_XXH64_state_t :=
  srcState

/-- The source's `LZ4_XXH64_reset`: returns the error code and the new contents of
`*statePtr`. -/
def LZ4_XXH64_reset (_statePtr : LZ4_XXH64_state_t) (seed : Nat) :
    LZ4_XXH_errorcode × LZ4_XXH64_state_t :=
  let state : LZ4_XXH64_state_t :=
    { total_len := 0, v1 := 0, v2 := 0, v3 := 0, v4 := 0,
      mem64 := List.replicate 32 0, memsize := 0 }
  let state := { state with v1 := (seed + PRIME64_1 + PRIME64_2) % 2 ^ 64 }
  let state := { state with v2 := (seed + PRIME64_2) % 2 ^ 64 }
  let state := { state with v3 := (seed + 0) % 2 ^ 64 }
  let state := { state with v4 := (seed + 2 ^ 64 - PRIME64_1) % 2 ^ 64 }
  (LZ4_XXH_OK, state)

/-- The source's `LZ4_XXH64_update_endian`: returns the error code and the new contents of
`*state`. -/
def LZ4_XXH64_update_endian (t : Target) (state : LZ4_XXH64_state_t) (input : ConstPtr)
    (len : Nat) (endian : LZ4_XXH_endianess) : LZ4_XXH_errorcode × LZ4_XXH64_state_t :=
  let bEnd := len
  if t.accept_null_input_pointer && input.addr == 0 then (LZ4_XXH_ERROR, state) else
  let state := { state with total_len := (state.total_len + len) % 2 ^ 64 }
  if (state.memsize + len) % 2 ^ 64 < 32 then
    let state := { state with mem64 := memcpy state.mem64 state.memsize input.mem 0 len }
    let state := { state with memsize := (state.memsize + len % 2 ^ 32) % 2 ^ 32 }
    (LZ4_XXH_OK, state)
  else
  let ps : Nat × LZ4_XXH64_state_t :=
    if state.memsize ≠ 0 then
      let state := { state with
        mem64 := memcpy state.mem64 state.memsize input.mem 0
          ((2 ^ 32 + 32 - state.memsize) % 2 ^ 32) }
      let state := { state with
        v1 := LZ4_XXH64_round state.v1 (LZ4_XXH_readLE64 t state.mem64 0 endian) }
      let state := { state with
        v2 := LZ4_XXH64_round state.v2 (LZ4_XXH_readLE64 t state.mem64 8 endian) }
      let state := { state with
        v3 := LZ4_XXH64_round state.v3 (LZ4_XXH_readLE64 t state.mem64 16 endian) }
      let state := { state with
        v4 := LZ4_XXH64_round state.v4 (LZ4_XXH_readLE64 t state.mem64 24 endian) }
      let p := (2 ^ 32 + 32 - state.memsize) % 2 ^ 32
      (p, { state with memsize := 0 })
    else (0, state)
  let ps : Nat × LZ4_XXH64_state_t :=
    if ps.1 + 32 ≤ bEnd then
      let limit := bEnd - 32
      let l := LZ4_XXH64_blockLoop (fun p => LZ4_XXH_readLE64 t input.mem p endian) limit len
        ⟨ps.1, ps.2.v1, ps.2.v2, ps.2.v3, ps.2.v4⟩
      (l.p, { ps.2 with v1 := l.v1, v2 := l.v2, v3 := l.v3, v4 := l.v4 })
    else ps
  let state :=
    if ps.1 < bEnd then
      let state := { ps.2 with mem64 := memcpy ps.2.mem64 0 input.mem ps.1 (bEnd - ps.1) }
      { state with memsize := (bEnd - ps.1) % 2 ^ 32 }
    else ps.2
  (LZ4_XXH_OK, state)

/-- The source's `LZ4_XXH64_update`. -/
def LZ4_XXH64_update (t : Target) (state_in : LZ4_XXH64_state_t) (input : ConstPtr)
    (len : Nat) : LZ4_XXH_errorcode × LZ4_XXH64_state_t :=
  if endian_detected t = LZ4_XXH_littleEndian || LZ4_XXH_FORCE_NATIVE_FORMAT then
    LZ4_XXH64_update_endian t state_in input len LZ4_XXH_littleEndian
  else
    LZ4_XXH64_update_endian t state_in input len LZ4_XXH_bigEndian

/-- The source's `LZ4_XXH64_digest_endian`. -/
def LZ4_XXH64_digest_endian (t : Target) (state : LZ4_XXH64_state_t)
    (endian : LZ4_XXH_endianess) : Nat :=
  let bEnd := state.memsize
  let h64 :=
    if state.total_len ≥ 32 then
      LZ4_XXH64_converge state.v1 state.v2 state.v3 state.v4
    else
      (state.v3 + PRIME64_5) % 2 ^ 64
  let h64 := (h64 + state.total_len) % 2 ^ 64
  let s := LZ4_XXH64_tailWords (fun p => LZ4_XXH_readLE64 t state.mem64 p endian) bEnd
    state.memsize 0 h64
  let s := LZ4_XXH64_tailWord32 (fun p => LZ4_XXH_readLE32 t state.mem64 p endian) bEnd
    s.1 s.2
  let s := LZ4_XXH64_tailBytes state.mem64 bEnd state.memsize s.1 s.2
  LZ4_XXH64_avalanche s.2

/-- The source's `LZ4_XXH64_digest`. -/
def LZ4_XXH64_digest (t : Target) (state_in : LZ4_XXH64_state_t) : Nat :=
  if endian_detected t = LZ4_XXH_littleEndian || LZ4_XXH_FORCE_NATIVE_FORMAT then
    LZ4_XXH64_digest_endian t state_in LZ4_XXH_littleEndian
  else
    LZ4_XXH64_digest_endian t state_in LZ4_XXH_bigEndian

/-! ## Test inputs and chunked feeding -/

/-- The 100-byte test input whose `i`-th byte is `i` (0x00..0x63). -/
def bytes_00_63 : List BYTE := (List.range 100).map (fun i => Fin.ofNat i)

/-- Feeding chunks in order: `LZ4_XXH32_update(state, c, |c|)` for each chunk `c`. -/
def LZ4_XXH32_feed (t : Target) (state : LZ4_XXH32_state_t) (chunks : List ConstPtr) :
    LZ4_XXH32_state_t :=
  chunks.foldl (fun s c => (LZ4_XXH32_update t s c c.mem.length).2) state

/-- Feeding chunks in order: `LZ4_XXH64_update(state, c, |c|)` for each chunk `c`. -/
def LZ4_XXH64_feed (t : Target) (state : LZ4_XXH64_state_t) (chunks : List ConstPtr) :
    LZ4_XXH64_state_t :=
  chunks.foldl (fun s c => (LZ4_XXH64_update t s c c.mem.length).2) state

/-! ## Little-endian words and unrolled loops -/

/-- The little-endian value of the 4 bytes at offsets `p .. p+3`. -/
def le32 (mem : List BYTE) (p : Nat) : Nat :=
  byteAt mem p + byteAt mem (p + 1) * 2 ^ 8 + byteAt mem (p + 2) * 2 ^ 16
    + byteAt mem (p + 3) * 2 ^ 24

/-- The little-endian value of the 8 bytes at offsets `p .. p+7`. -/
def le64 (mem : List BYTE) (p : Nat) : Nat :=
  byteAt mem p + byteAt mem (p + 1) * 2 ^ 8 + byteAt mem (p + 2) * 2 ^ 16
    + byteAt mem (p + 3) * 2 ^ 24 + byteAt mem (p + 4) * 2 ^ 32 + byteAt mem (p + 5) * 2 ^ 40
    + byteAt mem (p + 6) * 2 ^ 48 + byteAt mem (p + 7) * 2 ^ 56

/-- Exactly `k` runs of the body of a block loop with word size `w`, without the exit
test: what the `do ... while` loops compute when they leave after `k` iterations. -/
def iterBlocks (round : Nat → Nat → Nat) (w : Nat) (rd : Nat → Nat) : Nat → Lanes → Lanes
  | 0, s => s
  | k + 1, s => iterBlocks round w rd k
      ⟨s.p + 4 * w, round s.v1 (rd s.p), round s.v2 (rd (s.p + w)),
        round s.v3 (rd (s.p + 2 * w)), round s.v4 (rd (s.p + 3 * w))⟩

/-- Exactly `k` runs of the body `h = step(h, rd(p)); p += w` of a tail loop. -/
def iterTail (step : Nat → Nat → Nat) (w : Nat) (rd : Nat → Nat) : Nat → Nat → Nat → Nat
  | 0, _, h => h
  | k + 1, p, h => iterTail step w rd k (p + w) (step h (rd p))

/-- The body of the word loop of the 32-bit tail. -/
def XXH32_wordStep (h32 x : Nat) : Nat :=
  (LZ4_XXH_rotl32 ((h32 + (x * PRIME32_3) % 2 ^ 32) % 2 ^ 32) 17 * PRIME32_4) % 2 ^ 32

/-- The body of the byte loop of the 32-bit tail. -/
def XXH32_byteStep (h32 x : Nat) : Nat :=
  (LZ4_XXH_rotl32 ((h32 + (x * PRIME32_5) % 2 ^ 32) % 2 ^ 32) 11 * PRIME32_1) % 2 ^ 32

/-- The body of the 8-byte word loop of the 64-bit tail. -/
def XXH64_wordStep (h64 x : Nat) : Nat :=
  ((LZ4_XXH_rotl64 (h64 ^^^ LZ4_XXH64_round 0 x) 27 * PRIME64_1) % 2 ^ 64 + PRIME64_4) % 2 ^ 64

/-- The body of the 4-byte step of the 64-bit tail. -/
def XXH64_word32Step (h64 x : Nat) : Nat :=
  ((LZ4_XXH_rotl64 (h64 ^^^ ((x * PRIME64_1) % 2 ^ 64)) 23 * PRIME64_2) % 2 ^ 64 + PRIME64_3)
    % 2 ^ 64

/-- The body of the byte loop of the 64-bit tail. -/
def XXH64_byteStep (h64 x : Nat) : Nat :=
  (LZ4_XXH_rotl64 (h64 ^^^ ((x * PRIME64_5) % 2 ^ 64)) 11 * PRIME64_1) % 2 ^ 64

/-- The lanes with which both the one-shot function and `LZ4_XXH32_reset` start. -/
def XXH32_initLanes (seed : Nat) : Lanes :=
  ⟨0, (seed + PRIME32_1 + PRIME32_2) % 2 ^ 32, (seed + PRIME32_2) % 2 ^ 32,
    (seed + 0) % 2 ^ 32, (seed + 2 ^ 32 - PRIME32_1) % 2 ^ 32⟩

/-- The lanes with which both the one-shot function and `LZ4_XXH64_reset` start. -/
def XXH64_initLanes (seed : Nat) : Lanes :=
  ⟨0, (seed + PRIME64_1 + PRIME64_2) % 2 ^ 64, (seed + PRIME64_2) % 2 ^ 64,
    (seed + 0) % 2 ^ 64, (seed + 2 ^ 64 - PRIME64_1) % 2 ^ 64⟩

/-- The representation invariant of a 32-bit streaming state that has been reset with
`seed` and fed the bytes `b`. -/
structure Tracks32 (seed : Nat) (b : List BYTE) (st : LZ4_XXH32_state_t) : Prop where
  total : st.total_len_32 = b.length % 2 ^ 32
  large : st.large_len ≠ 0 ↔ 16 ≤ b.length
  memsize : st.memsize = b.length % 16
  buflen : st.mem32.length = 16
  buf : ∀ i, i < b.length % 16 → st.mem32.getD i 0 = b.getD (b.length - b.length % 16 + i) 0
  lanes : (⟨16 * (b.length / 16), st.v1, st.v2, st.v3, st.v4⟩ : Lanes)
    = iterBlocks LZ4_XXH32_round 4 (le32 b) (b.length / 16) (XXH32_initLanes seed)

/-- The representation invariant of a 64-bit streaming state that has been reset with
`seed` and fed the bytes `b`. -/
structure Tracks64 (seed : Nat) (b : List BYTE) (st : LZ4_XXH64_state_t) : Prop where
  total : st.total_len = b.length % 2 ^ 64
  memsize : st.memsize = b.length % 32
  buflen : st.mem64.length = 32
  buf : ∀ i, i < b.length % 32 → st.mem64.getD i 0 = b.getD (b.length - b.length % 32 + i) 0
  lanes : (⟨32 * (b.length / 32), st.v1, st.v2, st.v3, st.v4⟩ : Lanes)
    = iterBlocks LZ4_XXH64_round 8 (le64 b) (b.length / 32) (XXH64_initLanes seed)

/-- The one-shot 32-bit hash of the bytes `b` with every loop replaced by its unrolled
form over little-endian reads. -/
def XXH32_unrolled (b : List BYTE) (seed : Nat) : Nat :=
  let n := b.length
  let l := iterBlocks LZ4_XXH32_round 4 (le32 b) (n / 16) (XXH32_initLanes seed)
  let h32 :=
    if 16 ≤ n then
      (LZ4_XXH_rotl32 l.v1 1 + LZ4_XXH_rotl32 l.v2 7 + LZ4_XXH_rotl32 l.v3 12
        + LZ4_XXH_rotl32 l.v4 18) % 2 ^ 32
    else (seed + PRIME32_5) % 2 ^ 32
  let h32 := (h32 + n % 2 ^ 32) % 2 ^ 32
  let h32 := iterTail XXH32_wordStep 4 (le32 b) (n % 16 / 4) (16 * (n / 16)) h32
  let h32 := iterTail XXH32_byteStep 1 (byteAt b) (n % 4) (n - n % 4) h32
  LZ4_XXH32_avalanche h32

/-- The one-shot 64-bit hash of the bytes `b` with every loop replaced by its unrolled
form over little-endian reads. -/
def XXH64_unrolled (b : List BYTE) (seed : Nat) : Nat :=
  let n := b.length
  let l := iterBlocks LZ4_XXH64_round 8 (le64 b) (n / 32) (XXH64_initLanes seed)
  let h64 :=
    if 32 ≤ n then LZ4_XXH64_converge l.v1 l.v2 l.v3 l.v4
    else (seed + PRIME64_5) % 2 ^ 64
  let h64 := (h64 + n % 2 ^ 64) % 2 ^ 64
  let h64 := iterTail XXH64_wordStep 8 (le64 b) (n % 32 / 8) (32 * (n / 32)) h64
  let h64 := iterTail XXH64_word32Step 4 (le32 b) (if 4 ≤ n % 8 then 1 else 0) (n - n % 8) h64
  let h64 := iterTail XXH64_byteStep 1 (byteAt b) (n % 4) (n - n % 4) h64
  LZ4_XXH64_avalanche h64

/-- The bytes behind a list of chunks, in order. -/
def chunkBytes (chunks : List ConstPtr) : List BYTE :=
  (chunks.map ConstPtr.mem).flatten

/-- A pointer the caller may pass together with the length of `mem`: a null pointer comes
with no bytes. -/
def ConstPtr.wellFormed (c : ConstPtr) : Prop := c.addr = 0 → c.mem = []

/-- A chunk that is an object of the caller, passed beside a state whose buffer holds `buf`
bytes (the header: "input must be allocated and read accessible"): a null pointer comes
with no bytes; the bytes lie at the addresses `addr .. addr + len - 1` and the address one
past the last byte is still a 64-bit value; and the chunk and the buffer of the state, two
objects of one 64-bit address space, hold at most `2^64` bytes together. -/
def ConstPtr.isObject (c : ConstPtr) (buf : Nat) : Prop :=
  c.wellFormed ∧ c.addr + c.mem.length < 2 ^ 64 ∧ c.mem.length + buf ≤ 2 ^ 64

instance (c : ConstPtr) : Decidable c.wellFormed := by
  unfold ConstPtr.wellFormed
  infer_instance

instance (c : ConstPtr) (buf : Nat) : Decidable (c.isObject buf) := by
  unfold ConstPtr.isObject
  infer_instance

/-! ## The blocks of `update`, one by one

The next definitions repeat, block by block, the body of `LZ4_XXH32_update_endian` /
`LZ4_XXH64_update_endian` after the null check, with little-endian reads. The theorems `LZ4_XXH32_update_endian_stages` and
`LZ4_XXH64_update_endian_stages` show that the update functions are their composition. -/

/-- The statements `state->total_len_32 += (unsigned)len;
state->large_len |= (len>=16) | (state->total_len_32>=16);`. -/
def XXH32_count (state : LZ4_XXH32_state_t) (len : Nat) : LZ4_XXH32_state_t :=
  let state := { state with total_len_32 := (state.total_len_32 + len % 2 ^ 32) % 2 ^ 32 }
  { state with
    large_len := state.large_len |||
      ((if len ≥ 16 then 1 else 0) ||| (if state.total_len_32 ≥ 16 then 1 else 0)) }

/-- The statement `state->total_len += len;`. -/
def XXH64_count (state : LZ4_XXH64_state_t) (len : Nat) : LZ4_XXH64_state_t :=
  { state with total_len := (state.total_len + len) % 2 ^ 64 }

/-- The block `if (state->memsize + len < 16) { ... }`: the chunk is appended to the
buffer. -/
def XXH32_small (state : LZ4_XXH32_state_t) (m : List BYTE) : LZ4_XXH32_state_t :=
  let state := { state with mem32 := memcpy state.mem32 state.memsize m 0 m.length }
  { state with memsize := (state.memsize + m.length % 2 ^ 32) % 2 ^ 32 }

/-- The 64-bit block `if (state->memsize + len < 32) { ... }`. -/
def XXH64_small (state : LZ4_XXH64_state_t) (m : List BYTE) : LZ4_XXH64_state_t :=
  let state := { state with mem64 := memcpy state.mem64 state.memsize m 0 m.length }
  { state with memsize := (state.memsize + m.length % 2 ^ 32) % 2 ^ 32 }

/-- The block `if (state->memsize) { ... }`: completes the buffered block from the chunk
`m` and consumes it; returns the offset `p` into the chunk and the state. -/
def XXH32_fill (state : LZ4_XXH32_state_t) (m : List BYTE) : Nat × LZ4_XXH32_state_t :=
  if state.memsize ≠ 0 then
    let state := { state with
      mem32 := memcpy state.mem32 state.memsize m 0 ((2 ^ 32 + 16 - state.memsize) % 2 ^ 32) }
    let state := { state with v1 := LZ4_XXH32_round state.v1 (le32 state.mem32 0) }
    let state := { state with v2 := LZ4_XXH32_round state.v2 (le32 state.mem32 4) }
    let state := { state with v3 := LZ4_XXH32_round state.v3 (le32 state.mem32 8) }
    let state := { state with v4 := LZ4_XXH32_round state.v4 (le32 state.mem32 12) }
    let p := (2 ^ 32 + 16 - state.memsize) % 2 ^ 32
    (p, { state with memsize := 0 })
  else (0, state)

/-- The block `if (p <= bEnd-16) { ... }`: the block loop over the chunk. -/
def XXH32_loop (m : List BYTE) (ps : Nat × LZ4_XXH32_state_t) : Nat × LZ4_XXH32_state_t :=
  if ps.1 + 16 ≤ m.length then
    let limit := m.length - 16
    let l := LZ4_XXH32_blockLoop (fun p => le32 m p) limit m.length
      ⟨ps.1, ps.2.v1, ps.2.v2, ps.2.v3, ps.2.v4⟩
    (l.p, { ps.2 with v1 := l.v1, v2 := l.v2, v3 := l.v3, v4 := l.v4 })
  else ps

/-- The block `if (p < bEnd) { ... }`: buffers what is left of the chunk. -/
def XXH32_rest (m : List BYTE) (ps : Nat × LZ4_XXH32_state_t) : LZ4_XXH32_state_t :=
  if ps.1 < m.length then
    let state := { ps.2 with mem32 := memcpy ps.2.mem32 0 m ps.1 (m.length - ps.1) }
    { state with memsize := (m.length - ps.1) % 2 ^ 32 }
  else ps.2

/-- The 64-bit block `if (state->memsize) { ... }`. -/
def XXH64_fill (state : LZ4_XXH64_state_t) (m : List BYTE) : Nat × LZ4_XXH64_state_t :=
  if state.memsize ≠ 0 then
    let state := { state with
      mem64 := memcpy state.mem64 state.memsize m 0 ((2 ^ 32 + 32 - state.memsize) % 2 ^ 32) }
    let state := { state with v1 := LZ4_XXH64_round state.v1 (le64 state.mem64 0) }
    let state := { state with v2 := LZ4_XXH64_round state.v2 (le64 state.mem64 8) }
    let state := { state with v3 := LZ4_XXH64_round state.v3 (le64 state.mem64 16) }
    let state := { state with v4 := LZ4_XXH64_round state.v4 (le64 state.mem64 24) }
    let p := (2 ^ 32 + 32 - state.memsize) % 2 ^ 32
    (p, { state with memsize := 0 })
  else (0, state)

/-- The 64-bit block `if (p+32 <= bEnd) { ... }`. -/
def XXH64_loop (m : List BYTE) (ps : Nat × LZ4_XXH64_state_t) : Nat × LZ4_XXH64_state_t :=
  if ps.1 + 32 ≤ m.length then
    let limit := m.length - 32
    let l := LZ4_XXH64_blockLoop (fun p => le64 m p) limit m.length
      ⟨ps.1, ps.2.v1, ps.2.v2, ps.2.v3, ps.2.v4⟩
    (l.p, { ps.2 with v1 := l.v1, v2 := l.v2, v3 := l.v3, v4 := l.v4 })
  else ps

/-- The 64-bit block `if (p < bEnd) { ... }`. -/
def XXH64_rest (m : List BYTE) (ps : Nat × LZ4_XXH64_state_t) : LZ4_XXH64_state_t :=
  if ps.1 < m.length then
    let state := { ps.2 with mem64 := memcpy ps.2.mem64 0 m ps.1 (m.length - ps.1) }
    { state with memsize := (m.length - ps.1) % 2 ^ 32 }
  else ps.2

/-- The invariant between the blocks of the large-input path of the 32-bit update: the
state was reset with `seed` and fed `b`, the chunk `m` has been consumed up to the offset
`ps.1`, which ends a 16-byte block of `b ++ m`, and nothing is buffered. -/
structure Mid32 (seed : Nat) (b m : List BYTE) (ps : Nat × LZ4_XXH32_state_t) : Prop where
  le : ps.1 ≤ m.length
  aligned : (b.length + ps.1) % 16 = 0
  total : ps.2.total_len_32 = (b ++ m).length % 2 ^ 32
  large : ps.2.large_len ≠ 0 ↔ 16 ≤ (b ++ m).length
  memsize : ps.2.memsize = 0
  buflen : ps.2.mem32.length = 16
  lanes : (⟨b.length + ps.1, ps.2.v1, ps.2.v2, ps.2.v3, ps.2.v4⟩ : Lanes)
    = iterBlocks LZ4_XXH32_round 4 (le32 (b ++ m)) ((b.length + ps.1) / 16)
        (XXH32_initLanes seed)

/-- The invariant between the blocks of the large-input path of the 64-bit update. -/
structure Mid64 (seed : Nat) (b m : List BYTE) (ps : Nat × LZ4_XXH64_state_t) : Prop where
  le : ps.1 ≤ m.length
  aligned : (b.length + ps.1) % 32 = 0
  total : ps.2.total_len = (b ++ m).length % 2 ^ 64
  memsize : ps.2.memsize = 0
  buflen : ps.2.mem64.length = 32
  lanes : (⟨b.length + ps.1, ps.2.v1, ps.2.v2, ps.2.v3, ps.2.v4⟩ : Lanes)
    = iterBlocks LZ4_XXH64_round 8 (le64 (b ++ m)) ((b.length + ps.1) / 32)
        (XXH64_initLanes seed)

/-! ## The algorithm in the words of the specification

These definitions are written from the specification (sections 3, 4.1 and 4.2), over the
list of input bytes, and are compared with the functions of the source further down. The
rotations are the source's `LZ4_XXH_rotl32` and `LZ4_XXH_rotl64`. -/

def P32_1 : Nat := 2654435761
def P32_2 : Nat := 2246822519
def P32_3 : Nat := 3266489917
def P32_4 : Nat := 668265263
def P32_5 : Nat := 374761393
def P64_1 : Nat := 11400714785074694791
def P64_2 : Nat := 14029467366897019727
def P64_3 : Nat := 1609587929392839161
def P64_4 : Nat := 9650029242287828579
def P64_5 : Nat := 2870177450012600261

/-- The little-endian 32-bit word made of the next 4 bytes. -/
def word32 : List BYTE → Nat
  | b0 :: b1 :: b2 :: b3 :: _ => b0.val + b1.val * 2 ^ 8 + b2.val * 2 ^ 16 + b3.val * 2 ^ 24
  | _ => 0

/-- The little-endian 64-bit word made of the next 8 bytes. -/
def word64 : List BYTE → Nat
  | b0 :: b1 :: b2 :: b3 :: b4 :: b5 :: b6 :: b7 :: _ =>
    b0.val + b1.val * 2 ^ 8 + b2.val * 2 ^ 16 + b3.val * 2 ^ 24 + b4.val * 2 ^ 32
      + b5.val * 2 ^ 40 + b6.val * 2 ^ 48 + b7.val * 2 ^ 56
  | _ => 0

/-- The specification's `round32(acc, w)`: `rotl32(acc + w·P32_2, 13) · P32_1`. -/
def round32 (acc w : Nat) : Nat :=
  (LZ4_XXH_rotl32 ((acc + w * P32_2) % 2 ^ 32) 13 * P32_1) % 2 ^ 32

/-- The specification's avalanche: `h ^= h >> 15; h *= P32_2; h ^= h >> 13; h *= P32_3;
h ^= h >> 16`. -/
def avalanche32 (h : Nat) : Nat :=
  let h := h ^^^ (h >>> 15)
  let h := (h * P32_2) % 2 ^ 32
  let h := h ^^^ (h >>> 13)
  let h := (h * P32_3) % 2 ^ 32
  h ^^^ (h >>> 16)

/-- The four lanes. -/
structure Quad where
  v1 : Nat
  v2 : Nat
  v3 : Nat
  v4 : Nat
  deriving DecidableEq, Repr

/-- The seed-initialised lanes: `seed + P32_1 + P32_2`, `seed + P32_2`, `seed`,
`seed − P32_1`. -/
def initLanes32 (seed : Nat) : Quad :=
  ⟨(seed + P32_1 + P32_2) % 2 ^ 32, (seed + P32_2) % 2 ^ 32, seed % 2 ^ 32,
    (seed + 2 ^ 32 - P32_1) % 2 ^ 32⟩

/-- The block stage on the first `k` consecutive 16-byte blocks of `b`, in order: each lane
takes `round32` of its little-endian word of the block. -/
def blocks32 : Nat → Quad → List BYTE → Quad
  | 0, v, _ => v
  | k + 1, v, b =>
    blocks32 k ⟨round32 v.v1 (word32 b), round32 v.v2 (word32 (b.drop 4)),
      round32 v.v3 (word32 (b.drop 8)), round32 v.v4 (word32 (b.drop 12))⟩ (b.drop 16)

/-- The word part of the tail: `k` little-endian words,
`h = rotl32(h + w·P32_3, 17) · P32_4`. -/
def tail32_words : Nat → Nat → List BYTE → Nat
  | 0, h, _ => h
  | k + 1, h, r =>
    tail32_words k ((LZ4_XXH_rotl32 ((h + word32 r * P32_3) % 2 ^ 32) 17 * P32_4) % 2 ^ 32)
      (r.drop 4)

/-- The byte part of the tail: `h = rotl32(h + byte·P32_5, 11) · P32_1` for every byte. -/
def tail32_bytes (h : Nat) : List BYTE → Nat
  | [] => h
  | x :: r =>
    tail32_bytes ((LZ4_XXH_rotl32 ((h + x.val * P32_5) % 2 ^ 32) 11 * P32_1) % 2 ^ 32) r

/-- The tail stage over `r`: first `⌊|r|/4⌋` words, then single bytes. -/
def tail32 (h : Nat) (r : List BYTE) : Nat :=
  tail32_bytes (tail32_words (r.length / 4) h r) (r.drop (4 * (r.length / 4)))

/-- The 32-bit hash as the specification words it. -/
def hash32_spec (b : List BYTE) (seed : Nat) : Nat :=
  let h0 :=
    if b.length < 16 then (seed + P32_5) % 2 ^ 32
    else
      let v := blocks32 (b.length / 16) (initLanes32 seed) b
      (LZ4_XXH_rotl32 v.v1 1 + LZ4_XXH_rotl32 v.v2 7 + LZ4_XXH_rotl32 v.v3 12
        + LZ4_XXH_rotl32 v.v4 18) % 2 ^ 32
  let r := b.drop (b.length - b.length % 16)
  avalanche32 (tail32 ((h0 + b.length % 2 ^ 32) % 2 ^ 32) r)

/-- The specification's `round64(acc, w)`: `rotl64(acc + w·P64_2, 31) · P64_1`. -/
def round64 (acc w : Nat) : Nat :=
  (LZ4_XXH_rotl64 ((acc + w * P64_2) % 2 ^ 64) 31 * P64_1) % 2 ^ 64

/-- The specification's `merge64(acc, v)`: `v' = round64(0, v);
acc = (acc XOR v')·P64_1 + P64_4`. -/
def merge64 (acc v : Nat) : Nat :=
  ((acc ^^^ round64 0 v) * P64_1 + P64_4) % 2 ^ 64

/-- The specification's 64-bit avalanche: `h ^= h>>33; h *= P64_2; h ^= h>>29; h *= P64_3;
h ^= h>>32`. -/
def avalanche64 (h : Nat) : Nat :=
  let h := h ^^^ (h >>> 33)
  let h := (h * P64_2) % 2 ^ 64
  let h := h ^^^ (h >>> 29)
  let h := (h * P64_3) % 2 ^ 64
  h ^^^ (h >>> 32)

/-- The seed-initialised 64-bit lanes. -/
def initLanes64 (seed : Nat) : Quad :=
  ⟨(seed + P64_1 + P64_2) % 2 ^ 64, (seed + P64_2) % 2 ^ 64, seed % 2 ^ 64,
    (seed + 2 ^ 64 - P64_1) % 2 ^ 64⟩

/-- The block stage on the first `k` consecutive 32-byte blocks of `b`, in order. -/
def blocks64 : Nat → Quad → List BYTE → Quad
  | 0, v, _ => v
  | k + 1, v, b =>
    blocks64 k ⟨round64 v.v1 (word64 b), round64 v.v2 (word64 (b.drop 8)),
      round64 v.v3 (word64 (b.drop 16)), round64 v.v4 (word64 (b.drop 24))⟩ (b.drop 32)

/-- The 8-byte part of the tail: `k` little-endian 64-bit words,
`h ^= round64(0, w); h = rotl64(h, 27)·P64_1 + P64_4`. -/
def tail64_words : Nat → Nat → List BYTE → Nat
  | 0, h, _ => h
  | k + 1, h, r =>
    tail64_words k ((LZ4_XXH_rotl64 (h ^^^ round64 0 (word64 r)) 27 * P64_1 + P64_4) % 2 ^ 64)
      (r.drop 8)

/-- The byte part of the 64-bit tail: `h ^= byte·P64_5; h = rotl64(h, 11)·P64_1`. -/
def tail64_bytes (h : Nat) : List BYTE → Nat
  | [] => h
  | x :: r =>
    tail64_bytes ((LZ4_XXH_rotl64 (h ^^^ ((x.val * P64_5) % 2 ^ 64)) 11 * P64_1) % 2 ^ 64) r

/-- The 64-bit tail stage over `r`: 64-bit words while at least 8 bytes remain, then at most
one zero-extended 32-bit word (`h ^= w·P64_1; h = rotl64(h, 23)·P64_2 + P64_3`), then
single bytes. -/
def tail64 (h : Nat) (r : List BYTE) : Nat :=
  let h := tail64_words (r.length / 8) h r
  let r := r.drop (8 * (r.length / 8))
  if 4 ≤ r.length then
    tail64_bytes
      ((LZ4_XXH_rotl64 (h ^^^ ((word32 r * P64_1) % 2 ^ 64)) 23 * P64_2 + P64_3) % 2 ^ 64)
      (r.drop 4)
  else tail64_bytes h r

/-- The 64-bit hash as the specification words it. -/
def hash64_spec (b : List BYTE) (seed : Nat) : Nat :=
  let h0 :=
    if b.length < 32 then (seed + P64_5) % 2 ^ 64
    else
      let v := blocks64 (b.length / 32) (initLanes64 seed) b
      merge64 (merge64 (merge64 (merge64
        ((LZ4_XXH_rotl64 v.v1 1 + LZ4_XXH_rotl64 v.v2 7 + LZ4_XXH_rotl64 v.v3 12
          + LZ4_XXH_rotl64 v.v4 18) % 2 ^ 64) v.v1) v.v2) v.v3) v.v4
  let r := b.drop (b.length - b.length % 32)
  avalanche64 (tail64 ((h0 + b.length) % 2 ^ 64) r)

/-! ## Canonical representation -/

/-- The 4 bytes of a `U32` object in the memory of the host, lowest address first: what
`memcpy(dst, &hash, 4)` copies. -/
def bytes32 (t : Target) (x : Nat) : List BYTE :=
  if t.cpu_little_endian then
    [Fin.ofNat (x % 2 ^ 8), Fin.ofNat (x / 2 ^ 8 % 2 ^ 8), Fin.ofNat (x / 2 ^ 16 % 2 ^ 8),
      Fin.ofNat (x / 2 ^ 24 % 2 ^ 8)]
  else
    [Fin.ofNat (x / 2 ^ 24 % 2 ^ 8), Fin.ofNat (x / 2 ^ 16 % 2 ^ 8), Fin.ofNat (x / 2 ^ 8 % 2 ^ 8),
      Fin.ofNat (x % 2 ^ 8)]

/-- The 8 bytes of a `U64` object in the memory of the host, lowest address first. -/
def bytes64 (t : Target) (x : Nat) : List BYTE :=
  if t.cpu_little_endian then
    [Fin.ofNat (x % 2 ^ 8), Fin.ofNat (x / 2 ^ 8 % 2 ^ 8), Fin.ofNat (x / 2 ^ 16 % 2 ^ 8),
      Fin.ofNat (x / 2 ^ 24 % 2 ^ 8), Fin.ofNat (x / 2 ^ 32 % 2 ^ 8),
      Fin.ofNat (x / 2 ^ 40 % 2 ^ 8), Fin.ofNat (x / 2 ^ 48 % 2 ^ 8),
      Fin.ofNat (x / 2 ^ 56 % 2 ^ 8)]
  else
    [Fin.ofNat (x / 2 ^ 56 % 2 ^ 8), Fin.ofNat (x / 2 ^ 48 % 2 ^ 8),
      Fin.ofNat (x / 2 ^ 40 % 2 ^ 8), Fin.ofNat (x / 2 ^ 32 % 2 ^ 8),
      Fin.ofNat (x / 2 ^ 24 % 2 ^ 8), Fin.ofNat (x / 2 ^ 16 % 2 ^ 8), Fin.ofNat (x / 2 ^ 8 % 2 ^ 8),
      Fin.ofNat (x % 2 ^ 8)]

/-- The header's `LZ4_XXH32_canonical_t`: `struct { unsigned char digest[4]; }`. -/
structure LZ4_XXH32_canonical_t where
  digest : List BYTE
  deriving DecidableEq, Repr

/-- The header's `LZ4_XXH64_canonical_t`: `struct { unsigned char digest[8]; }`. -/
structure LZ4_XXH64_canonical_t where
  digest : List BYTE
  deriving DecidableEq, Repr

/-- The source's `LZ4_XXH32_canonicalFromHash`: returns the new contents of `*dst`. -/
def LZ4_XXH32_canonicalFromHash (t : Target) (dst : LZ4_XXH32_canonical_t) (hash : Nat) :
    LZ4_XXH32_canonical_t :=
  let hash := if t.cpu_little_endian then LZ4_XXH_swap32 hash else hash
  { dst with digest := memcpy dst.digest 0 (bytes32 t hash) 0 4 }

/-- The source's `LZ4_XXH32_hashFromCanonical`. -/
def LZ4_XXH32_hashFromCanonical (t : Target) (src : LZ4_XXH32_canonical_t) : Nat :=
  LZ4_XXH_readBE32 t src.digest 0

/-- The source's `LZ4_XXH64_canonicalFromHash`: returns the new contents of `*dst`. -/
def LZ4_XXH64_canonicalFromHash (t : Target) (dst : LZ4_XXH64_canonical_t) (hash : Nat) :
    LZ4_XXH64_canonical_t :=
  let hash := if t.cpu_little_endian then LZ4_XXH_swap64 hash else hash
  { dst with digest := memcpy dst.digest 0 (bytes64 t hash) 0 8 }

/-- The source's `LZ4_XXH64_hashFromCanonical`. -/
def LZ4_XXH64_hashFromCanonical (t : Target) (src : LZ4_XXH64_canonical_t) : Nat :=
  LZ4_XXH_readBE64 t src.digest 0

/-! ## The blocks of `LZ4_XXH32_digest_endian`, one by one -/

/-- The block `if (state->large_len) { ... } else { ... }`: the accumulator before the
length is added. -/
def XXH32_digest_converge (state : LZ4_XXH32_state_t) : Nat :=
  if state.large_len ≠ 0 then
    (LZ4_XXH_rotl32 state.v1 1 + LZ4_XXH_rotl32 state.v2 7 + LZ4_XXH_rotl32 state.v3 12
      + LZ4_XXH_rotl32 state.v4 18) % 2 ^ 32
  else
    (state.v3 + PRIME32_5) % 2 ^ 32

/-- What follows `h32 += state->total_len_32`: the two tail loops over the buffer and the
final mix, with little-endian reads. -/
def XXH32_digest_finish (state : LZ4_XXH32_state_t) (h32 : Nat) : Nat :=
  let bEnd := state.memsize
  let s := LZ4_XXH32_tailWords (fun p => le32 state.mem32 p) bEnd state.memsize 0 h32
  let s := LZ4_XXH32_tailBytes state.mem32 bEnd state.memsize s.1 s.2
  LZ4_XXH32_avalanche s.2

/-! ## Version -/

/-- The header's `LZ4_XXH_VERSION_MAJOR`. -/
def LZ4_XXH_VERSION_MAJOR : Nat := 0

/-- The header's `LZ4_XXH_VERSION_MINOR`. -/
def LZ4_XXH_VERSION_MINOR : Nat := 6

/-- The header's `LZ4_XXH_VERSION_RELEASE`. -/
def LZ4_XXH_VERSION_RELEASE : Nat := 2

/-- The header's `LZ4_XXH_VERSION_NUMBER`. -/
def LZ4_XXH_VERSION_NUMBER : Nat :=
  LZ4_XXH_VERSION_MAJOR * 100 * 100 + LZ4_XXH_VERSION_MINOR * 100 + LZ4_XXH_VERSION_RELEASE

/-- The source's `LZ4_XXH_versionNumber`, which returns an `unsigned`. -/
def LZ4_XXH_versionNumber : Nat := LZ4_XXH_VERSION_NUMBER % 2 ^ 32

/-! ## Calls that read a state through a `const` pointer

`LZ4_XXH32_digest`, `LZ4_XXH64_digest` and the `srcState` argument of the `copyState`
functions take a pointer to `const`, and the source stores nothing through it.  The next
definitions give such a call as a step on the objects it is passed: the result together
with the contents of the objects after the call. -/

/-- The call `LZ4_XXH32_digest(state_in)`: the returned hash and the contents of
`*state_in` after the call. -/
def LZ4_XXH32_digest_call (t : Target) (state_in : LZ4_XXH32_state_t) :
    Nat × LZ4_XXH32_state_t :=
  (LZ4_XXH32_digest t state_in, state_in)

/-- The call `LZ4_XXH32_copyState(dstState, srcState)`: the contents of `*dstState` and of
`*srcState` after the call. -/
def LZ4_XXH32_copyState_call (dstState srcState : LZ4_XXH32_state_t) :
    LZ4_XXH32_state_t × LZ4_XXH32_state_t :=
  (LZ4_XXH32_copyState dstState srcState, srcState)

/-- The call `LZ4_XXH64_copyState(dstState, srcState)`: the contents of `*dstState` and of
`*srcState` after the call. -/
def LZ4_XXH64_copyState_call (dstState srcState : LZ4_XXH64_state_t) :
    LZ4_XXH64_state_t × LZ4_XXH64_state_t :=
  (LZ4_XXH64_copyState dstState srcState, srcState)

/-! ## A 64-bit state resumed from an arbitrary start -/

/-- The lanes of a 64-bit state, as the locals of a block loop at offset 0. -/
def XXH64_lanesOf (s : LZ4_XXH64_state_t) : Lanes := ⟨0, s.v1, s.v2, s.v3, s.v4⟩

/-- The invariant of a 64-bit state that started with the lanes `init`, an empty buffer and
a counter of `tot0`, and has since consumed the bytes `b`: `Tracks64` without the
assumption that the start was a reset. -/
structure Walks64 (init : Lanes) (tot0 : Nat) (b : List BYTE) (st : LZ4_XXH64_state_t) :
    Prop where
  total : st.total_len = (tot0 + b.length) % 2 ^ 64
  memsize : st.memsize = b.length % 32
  buflen : st.mem64.length = 32
  buf : ∀ i, i < b.length % 32 → st.mem64.getD i 0 = b.getD (b.length - b.length % 32 + i) 0
  lanes : (⟨32 * (b.length / 32), st.v1, st.v2, st.v3, st.v4⟩ : Lanes)
    = iterBlocks LZ4_XXH64_round 8 (le64 b) (b.length / 32) init

/-- The invariant between the blocks of the large-input path of the 64-bit update, for a
state that satisfies `Walks64`. -/
structure WalksMid64 (init : Lanes) (tot0 : Nat) (b m : List BYTE)
    (ps : Nat × LZ4_XXH64_state_t) : Prop where
  le : ps.1 ≤ m.length
  aligned : (b.length + ps.1) % 32 = 0
  total : ps.2.total_len = (tot0 + (b ++ m).length) % 2 ^ 64
  memsize : ps.2.memsize = 0
  buflen : ps.2.mem64.length = 32
  lanes : (⟨b.length + ps.1, ps.2.v1, ps.2.v2, ps.2.v3, ps.2.v4⟩ : Lanes)
    = iterBlocks LZ4_XXH64_round 8 (le64 (b ++ m)) ((b.length + ps.1) / 32) init

/-! ## What every reachable 32-bit state satisfies -/

/-- The facts about the counter, the flag and the buffer size that `LZ4_XXH32_reset`
establishes and every `LZ4_XXH32_update` keeps, whatever the chunks are. -/
structure Settled32 (st : LZ4_XXH32_state_t) : Prop where
  total_lt : st.total_len_32 < 2 ^ 32
  memsize_lt : st.memsize < 16
  large_bit : st.large_len = 0 ∨ st.large_len = 1
  large_zero : st.large_len = 0 → st.total_len_32 < 16

/-! ## `LZ4_XXH32_update` with every memory access checked

The same translation of `LZ4_XXH32_update_endian`, except that each access to the chunk or
to the buffer `mem32` first checks that the bytes it touches lie inside the object, and
the block loop gives no result when its budget runs out.  A result `none` stands for an
access out of bounds (or an exhausted budget). -/

/-- The copy `memcpy(dst + doff, src + soff, n)` with both ranges checked: it needs
`doff + n` bytes in `dst` and `soff + n` bytes in `src`. -/
def memcpy_checked (dst : List BYTE) (doff : Nat) (src : List BYTE) (soff n : Nat) :
    Option (List BYTE) :=
  if doff + n ≤ dst.length ∧ soff + n ≤ src.length then some (memcpy dst doff src soff n)
  else none

/-- The read `LZ4_XXH_readLE32` at offset `p` with the range checked: it needs `p + 4`
bytes in `mem`. -/
def LZ4_XXH_readLE32_checked (t : Target) (mem : List BYTE) (p : Nat)
    (endian : LZ4_XXH_endianess) : Option Nat :=
  if p + 4 ≤ mem.length then some (LZ4_XXH_readLE32 t mem p endian) else none

/-- The block loop of `LZ4_XXH32_update_endian` over checked reads. -/
def LZ4_XXH32_blockLoop_checked (get32bits : Nat → Option Nat) (limit : Nat) :
    Nat → Lanes → Option Lanes
  | 0, _ => none
  | fuel + 1, s =>
    (get32bits s.p).bind fun w1 =>
    let v1 := LZ4_XXH32_round s.v1 w1
    let p := s.p + 4
    (get32bits p).bind fun w2 =>
    let v2 := LZ4_XXH32_round s.v2 w2
    let p := p + 4
    (get32bits p).bind fun w3 =>
    let v3 := LZ4_XXH32_round s.v3 w3
    let p := p + 4
    (get32bits p).bind fun w4 =>
    let v4 := LZ4_XXH32_round s.v4 w4
    let p := p + 4
    if p ≤ limit then LZ4_XXH32_blockLoop_checked get32bits limit fuel ⟨p, v1, v2, v3, v4⟩
    else some ⟨p, v1, v2, v3, v4⟩

/-- The source's `LZ4_XXH32_update_endian` with checked accesses. -/
def LZ4_XXH32_update_endian_checked (t : Target) (state : LZ4_XXH32_state_t)
    (input : ConstPtr) (len : Nat) (endian : LZ4_XXH_endianess) :
    Option (LZ4_XXH_errorcode × LZ4_XXH32_state_t) :=
  let bEnd := len
  if t.accept_null_input_pointer && input.addr == 0 then some (LZ4_XXH_ERROR, state) else
  let state := { state with total_len_32 := (state.total_len_32 + len % 2 ^ 32) % 2 ^ 32 }
  let state := { state with
    large_len := state.large_len |||
      ((if len ≥ 16 then 1 else 0) ||| (if state.total_len_32 ≥ 16 then 1 else 0)) }
  if (state.memsize + len) % 2 ^ 64 < 16 then
    (memcpy_checked state.mem32 state.memsize input.mem 0 len).bind fun mem32 =>
    let state := { state with mem32 := mem32 }
    let state := { state with memsize := (state.memsize + len % 2 ^ 32) % 2 ^ 32 }
    some (LZ4_XXH_OK, state)
  else
  (if state.memsize ≠ 0 then
    (memcpy_checked state.mem32 state.memsize input.mem 0
      ((2 ^ 32 + 16 - state.memsize) % 2 ^ 32)).bind fun mem32 =>
    let state := { state with mem32 := mem32 }
    (LZ4_XXH_readLE32_checked t state.mem32 0 endian).bind fun w1 =>
    let state := { state with v1 := LZ4_XXH32_round state.v1 w1 }
    (LZ4_XXH_readLE32_checked t state.mem32 4 endian).bind fun w2 =>
    let state := { state with v2 := LZ4_XXH32_round state.v2 w2 }
    (LZ4_XXH_readLE32_checked t state.mem32 8 endian).bind fun w3 =>
    let state := { state with v3 := LZ4_XXH32_round state.v3 w3 }
    (LZ4_XXH_readLE32_checked t state.mem32 12 endian).bind fun w4 =>
    let state := { state with v4 := LZ4_XXH32_round state.v4 w4 }
    let p := (2 ^ 32 + 16 - state.memsize) % 2 ^ 32
    some (p, { state with memsize := 0 })
  else some (0, state)).bind fun ps =>
  (if ps.1 + 16 ≤ bEnd then
    let limit := bEnd - 16
    (LZ4_XXH32_blockLoop_checked (fun p => LZ4_XXH_readLE32_checked t input.mem p endian)
      limit len ⟨ps.1, ps.2.v1, ps.2.v2, ps.2.v3, ps.2.v4⟩).bind fun l =>
    some (l.p, { ps.2 with v1 := l.v1, v2 := l.v2, v3 := l.v3, v4 := l.v4 })
  else some ps).bind fun ps =>
  (if ps.1 < bEnd then
    (memcpy_checked ps.2.mem32 0 input.mem ps.1 (bEnd - ps.1)).bind fun mem32 =>
    let state := { ps.2 with mem32 := mem32 }
    some { state with memsize := (bEnd - ps.1) % 2 ^ 32 }
  else some ps.2).bind fun state =>
  some (LZ4_XXH_OK, state)

/-- The source's `LZ4_XXH32_update` with checked accesses. -/
def LZ4_XXH32_update_checked (t : Target) (state_in : LZ4_XXH32_state_t) (input : ConstPtr)
    (len : Nat) : Option (LZ4_XXH_errorcode × LZ4_XXH32_state_t) :=
  if endian_detected t = LZ4_XXH_littleEndian || LZ4_XXH_FORCE_NATIVE_FORMAT then
    LZ4_XXH32_update_endian_checked t state_in input len LZ4_XXH_littleEndian
  else
    LZ4_XXH32_update_endian_checked t state_in input len LZ4_XXH_bigEndian

/-- The block `if (state->memsize) { ... }` with checked accesses. -/
def XXH32_fill_checked (t : Target) (endian : LZ4_XXH_endianess) (state : LZ4_XXH32_state_t)
    (m : List BYTE) : Option (Nat × LZ4_XXH32_state_t) :=
  if state.memsize ≠ 0 then
    (memcpy_checked state.mem32 state.memsize m 0
      ((2 ^ 32 + 16 - state.memsize) % 2 ^ 32)).bind fun mem32 =>
    let state := { state with mem32 := mem32 }
    (LZ4_XXH_readLE32_checked t state.mem32 0 endian).bind fun w1 =>
    let state := { state with v1 := LZ4_XXH32_round state.v1 w1 }
    (LZ4_XXH_readLE32_checked t state.mem32 4 endian).bind fun w2 =>
    let state := { state with v2 := LZ4_XXH32_round state.v2 w2 }
    (LZ4_XXH_readLE32_checked t state.mem32 8 endian).bind fun w3 =>
    let state := { state with v3 := LZ4_XXH32_round state.v3 w3 }
    (LZ4_XXH_readLE32_checked t state.mem32 12 endian).bind fun w4 =>
    let state := { state with v4 := LZ4_XXH32_round state.v4 w4 }
    let p := (2 ^ 32 + 16 - state.memsize) % 2 ^ 32
    some (p, { state with memsize := 0 })
  else some (0, state)

/-- The block `if (p <= bEnd-16) { ... }` with checked accesses. -/
def XXH32_loop_checked (t : Target) (endian : LZ4_XXH_endianess) (m : List BYTE)
    (ps : Nat × LZ4_XXH32_state_t) : Option (Nat × LZ4_XXH32_state_t) :=
  if ps.1 + 16 ≤ m.length then
    let limit := m.length - 16
    (LZ4_XXH32_blockLoop_checked (fun p => LZ4_XXH_readLE32_checked t m p endian)
      limit m.length ⟨ps.1, ps.2.v1, ps.2.v2, ps.2.v3, ps.2.v4⟩).bind fun l =>
    some (l.p, { ps.2 with v1 := l.v1, v2 := l.v2, v3 := l.v3, v4 := l.v4 })
  else some ps

/-- The block `if (p < bEnd) { ... }` with checked accesses. -/
def XXH32_rest_checked (m : List BYTE) (ps : Nat × LZ4_XXH32_state_t) :
    Option LZ4_XXH32_state_t :=
  if ps.1 < m.length then
    (memcpy_checked ps.2.mem32 0 m ps.1 (m.length - ps.1)).bind fun mem32 =>
    let state := { ps.2 with mem32 := mem32 }
    some { state with memsize := (m.length - ps.1) % 2 ^ 32 }
  else some ps.2

/-! # Theorems -/

/-! ## The one-shot entry points and the input pointer -/

theorem readLE32_align_target (t : Target) (mem : List BYTE) (p : Nat)
    (e : LZ4_XXH_endianess) (a : LZ4_XXH_alignment) :
    LZ4_XXH_readLE32_align t mem p e a
      = LZ4_XXH_readLE32_align ⟨t.cpu_little_endian, false, false⟩ mem p e a := by
  simp [LZ4_XXH_readLE32_align, LZ4_XXH_read32, load32]

theorem readLE64_align_target (t : Target) (mem : List BYTE) (p : Nat)
    (e : LZ4_XXH_endianess) (a : LZ4_XXH_alignment) :
    LZ4_XXH_readLE64_align t mem p e a
      = LZ4_XXH_readLE64_align ⟨t.cpu_little_endian, false, false⟩ mem p e a := by
  simp [LZ4_XXH_readLE64_align, LZ4_XXH_read64, load64]

/-- For a non-null input the hash does not depend on the pointer value nor on the
null-pointer switch. -/
theorem LZ4_XXH32_endian_align_addr (t : Target) (addr : Nat) (mem : List BYTE)
    (len seed : Nat) (e : LZ4_XXH_endianess) (a : LZ4_XXH_alignment) (h : addr ≠ 0) :
    LZ4_XXH32_endian_align t ⟨addr, mem⟩ len seed e a
      = LZ4_XXH32_endian_align ⟨t.cpu_little_endian, false, false⟩ ⟨1, mem⟩ len seed e a := by
  have hr := readLE32_align_target t mem
  have hnull : (t.accept_null_input_pointer && addr == 0) = false := by simp [h]
  simp only [LZ4_XXH32_endian_align, hnull, hr]
  rfl

theorem LZ4_XXH64_endian_align_addr (t : Target) (addr : Nat) (mem : List BYTE)
    (len seed : Nat) (e : LZ4_XXH_endianess) (a : LZ4_XXH_alignment) (h : addr ≠ 0) :
    LZ4_XXH64_endian_align t ⟨addr, mem⟩ len seed e a
      = LZ4_XXH64_endian_align ⟨t.cpu_little_endian, false, false⟩ ⟨1, mem⟩ len seed e a := by
  have hr := readLE32_align_target t mem
  have hr64 := readLE64_align_target t mem
  have hnull : (t.accept_null_input_pointer && addr == 0) = false := by simp [h]
  simp only [LZ4_XXH64_endian_align, hnull, hr, hr64]
  rfl

/-- The dispatch of `LZ4_XXH32`: the detected byte order is passed on, with one of the two
alignments. -/
theorem LZ4_XXH32_dispatch (t : Target) (input : ConstPtr) (len seed : Nat) :
    ∃ a, LZ4_XXH32 t input len seed
      = LZ4_XXH32_endian_align t input len seed (endian_detected t) a := by
  unfold LZ4_XXH32 endian_detected LZ4_XXH_FORCE_NATIVE_FORMAT
  cases t.cpu_little_endian <;> split <;> simp

theorem LZ4_XXH64_dispatch (t : Target) (input : ConstPtr) (len seed : Nat) :
    ∃ a, LZ4_XXH64 t input len seed
      = LZ4_XXH64_endian_align t input len seed (endian_detected t) a := by
  unfold LZ4_XXH64 endian_detected LZ4_XXH_FORCE_NATIVE_FORMAT
  cases t.cpu_little_endian <;> split <;> simp

/-- Every run of `LZ4_XXH32` on a non-null input is one of four closed runs: a host byte
order and an alignment path. -/
theorem LZ4_XXH32_closed_run (t : Target) (addr : Nat) (mem : List BYTE) (len seed : Nat)
    (h : addr ≠ 0) :
    ∃ (le : Bool) (a : LZ4_XXH_alignment), LZ4_XXH32 t ⟨addr, mem⟩ len seed
      = LZ4_XXH32_endian_align ⟨le, false, false⟩ ⟨1, mem⟩ len seed
          (endian_detected ⟨le, false, false⟩) a := by
  obtain ⟨a, ha⟩ := LZ4_XXH32_dispatch t ⟨addr, mem⟩ len seed
  exact ⟨t.cpu_little_endian, a, by rw [ha, LZ4_XXH32_endian_align_addr _ _ _ _ _ _ _ h]; rfl⟩

theorem LZ4_XXH64_closed_run (t : Target) (addr : Nat) (mem : List BYTE) (len seed : Nat)
    (h : addr ≠ 0) :
    ∃ (le : Bool) (a : LZ4_XXH_alignment), LZ4_XXH64 t ⟨addr, mem⟩ len seed
      = LZ4_XXH64_endian_align ⟨le, false, false⟩ ⟨1, mem⟩ len seed
          (endian_detected ⟨le, false, false⟩) a := by
  obtain ⟨a, ha⟩ := LZ4_XXH64_dispatch t ⟨addr, mem⟩ len seed
  exact ⟨t.cpu_little_endian, a, by rw [ha, LZ4_XXH64_endian_align_addr _ _ _ _ _ _ _ h]; rfl⟩

/-! ## Byte swaps and little-endian reads -/


theorem and_mask (x n k : Nat) : x &&& ((2 ^ n - 1) * 2 ^ k) = (x / 2 ^ k % 2 ^ n) * 2 ^ k := by
  apply Nat.eq_of_testBit_eq
  intro i
  rw [← Nat.shiftLeft_eq, ← Nat.shiftLeft_eq, ← Nat.shiftRight_eq_div_pow]
  simp only [Nat.testBit_and, Nat.testBit_shiftLeft, Nat.testBit_two_pow_sub_one,
    Nat.testBit_mod_two_pow, Nat.testBit_shiftRight]
  by_cases h : k ≤ i
  · simp [h, Nat.add_sub_cancel' h, Bool.and_comm]
  · simp [h]

theorem lor_bytes32 (a b c d : Nat) (hb : b < 256) (hc : c < 256) (hd : d < 256) :
    a * 2 ^ 24 ||| (b * 2 ^ 16 ||| (c * 2 ^ 8 ||| d))
      = a * 2 ^ 24 + b * 2 ^ 16 + c * 2 ^ 8 + d := by
  have h1 : c * 2 ^ 8 ||| d = c * 2 ^ 8 + d := by
    rw [Nat.mul_comm c, Nat.mul_add_lt_is_or (by omega)]
  have h2 : b * 2 ^ 16 ||| (c * 2 ^ 8 + d) = b * 2 ^ 16 + (c * 2 ^ 8 + d) := by
    rw [Nat.mul_comm b, Nat.mul_add_lt_is_or (by omega)]
  have h3 : a * 2 ^ 24 ||| (b * 2 ^ 16 + (c * 2 ^ 8 + d))
      = a * 2 ^ 24 + (b * 2 ^ 16 + (c * 2 ^ 8 + d)) := by
    rw [Nat.mul_comm a, Nat.mul_add_lt_is_or (by omega)]
  rw [h1, h2, h3]
  omega

theorem swap32_eq (x : Nat) (hx : x < 2 ^ 32) :
    LZ4_XXH_swap32 x
      = (x % 2 ^ 8) * 2 ^ 24 + (x / 2 ^ 8 % 2 ^ 8) * 2 ^ 16 + (x / 2 ^ 16 % 2 ^ 8) * 2 ^ 8
        + x / 2 ^ 24 := by
  have m1 : ∀ y, y &&& 0xff000000 = (y / 2 ^ 24 % 2 ^ 8) * 2 ^ 24 := fun y => by
    have := and_mask y 8 24; norm_num at this ⊢; exact this
  have m2 : ∀ y, y &&& 0x00ff0000 = (y / 2 ^ 16 % 2 ^ 8) * 2 ^ 16 := fun y => by
    have := and_mask y 8 16; norm_num at this ⊢; exact this
  have m3 : ∀ y, y &&& 0x0000ff00 = (y / 2 ^ 8 % 2 ^ 8) * 2 ^ 8 := fun y => by
    have := and_mask y 8 8; norm_num at this ⊢; exact this
  have m4 : ∀ y, y &&& 0x000000ff = (y % 2 ^ 8) := fun y => by
    have := and_mask y 8 0; norm_num at this ⊢; exact this
  unfold LZ4_XXH_swap32
  rw [m1, m2, m3, m4, Nat.or_assoc, Nat.or_assoc]
  rw [lor_bytes32]
  · simp only [Nat.shiftLeft_eq, Nat.shiftRight_eq_div_pow]
    omega
  all_goals omega

theorem byteAt_lt (mem : List BYTE) (p : Nat) : byteAt mem p < 256 := (mem.getD p 0).isLt


theorem swap32_load32_be (t : Target) (mem : List BYTE) (p : Nat)
    (h : t.cpu_little_endian = false) :
    LZ4_XXH_swap32 (load32 t mem p) = le32 mem p := by
  have h0 := byteAt_lt mem p
  have h1 := byteAt_lt mem (p + 1)
  have h2 := byteAt_lt mem (p + 2)
  have h3 := byteAt_lt mem (p + 3)
  simp only [load32, h, Bool.false_eq_true, if_false, le32]
  rw [swap32_eq _ (by omega)]
  omega

theorem lor_bytes64 (a b c d e f g h : Nat) (hb : b < 256) (hc : c < 256) (hd : d < 256)
    (he : e < 256) (hf : f < 256) (hg : g < 256) (hh : h < 256) :
    a * 2 ^ 56 ||| (b * 2 ^ 48 ||| (c * 2 ^ 40 ||| (d * 2 ^ 32 ||| (e * 2 ^ 24 |||
      (f * 2 ^ 16 ||| (g * 2 ^ 8 ||| h))))))
      = a * 2 ^ 56 + b * 2 ^ 48 + c * 2 ^ 40 + d * 2 ^ 32 + e * 2 ^ 24 + f * 2 ^ 16
        + g * 2 ^ 8 + h := by
  have h1 : g * 2 ^ 8 ||| h = g * 2 ^ 8 + h := by
    rw [Nat.mul_comm g, Nat.mul_add_lt_is_or (by omega)]
  have h2 : f * 2 ^ 16 ||| (g * 2 ^ 8 + h) = f * 2 ^ 16 + (g * 2 ^ 8 + h) := by
    rw [Nat.mul_comm f, Nat.mul_add_lt_is_or (by omega)]
  have h3 : e * 2 ^ 24 ||| (f * 2 ^ 16 + (g * 2 ^ 8 + h))
      = e * 2 ^ 24 + (f * 2 ^ 16 + (g * 2 ^ 8 + h)) := by
    rw [Nat.mul_comm e, Nat.mul_add_lt_is_or (by omega)]
  have h4 : d * 2 ^ 32 ||| (e * 2 ^ 24 + (f * 2 ^ 16 + (g * 2 ^ 8 + h)))
      = d * 2 ^ 32 + (e * 2 ^ 24 + (f * 2 ^ 16 + (g * 2 ^ 8 + h))) := by
    rw [Nat.mul_comm d, Nat.mul_add_lt_is_or (by omega)]
  have h5 : c * 2 ^ 40 ||| (d * 2 ^ 32 + (e * 2 ^ 24 + (f * 2 ^ 16 + (g * 2 ^ 8 + h))))
      = c * 2 ^ 40 + (d * 2 ^ 32 + (e * 2 ^ 24 + (f * 2 ^ 16 + (g * 2 ^ 8 + h)))) := by
    rw [Nat.mul_comm c, Nat.mul_add_lt_is_or (by omega)]
  have h6 : b * 2 ^ 48 |||
      (c * 2 ^ 40 + (d * 2 ^ 32 + (e * 2 ^ 24 + (f * 2 ^ 16 + (g * 2 ^ 8 + h)))))
      = b * 2 ^ 48 +
        (c * 2 ^ 40 + (d * 2 ^ 32 + (e * 2 ^ 24 + (f * 2 ^ 16 + (g * 2 ^ 8 + h))))) := by
    rw [Nat.mul_comm b, Nat.mul_add_lt_is_or (by omega)]
  have h7 : a * 2 ^ 56 ||| (b * 2 ^ 48 +
      (c * 2 ^ 40 + (d * 2 ^ 32 + (e * 2 ^ 24 + (f * 2 ^ 16 + (g * 2 ^ 8 + h))))))
      = a * 2 ^ 56 + (b * 2 ^ 48 +
        (c * 2 ^ 40 + (d * 2 ^ 32 + (e * 2 ^ 24 + (f * 2 ^ 16 + (g * 2 ^ 8 + h)))))) := by
    rw [Nat.mul_comm a, Nat.mul_add_lt_is_or (by omega)]
  rw [h1, h2, h3, h4, h5, h6, h7]
  omega

theorem swap64_eq (x : Nat) (hx : x < 2 ^ 64) :
    LZ4_XXH_swap64 x
      = (x % 2 ^ 8) * 2 ^ 56 + (x / 2 ^ 8 % 2 ^ 8) * 2 ^ 48 + (x / 2 ^ 16 % 2 ^ 8) * 2 ^ 40
        + (x / 2 ^ 24 % 2 ^ 8) * 2 ^ 32 + (x / 2 ^ 32 % 2 ^ 8) * 2 ^ 24
        + (x / 2 ^ 40 % 2 ^ 8) * 2 ^ 16 + (x / 2 ^ 48 % 2 ^ 8) * 2 ^ 8 + x / 2 ^ 56 := by
  have m1 : ∀ y, y &&& 0xff00000000000000 = (y / 2 ^ 56 % 2 ^ 8) * 2 ^ 56 := fun y => by
    have := and_mask y 8 56; norm_num at this ⊢; exact this
  have m2 : ∀ y, y &&& 0x00ff000000000000 = (y / 2 ^ 48 % 2 ^ 8) * 2 ^ 48 := fun y => by
    have := and_mask y 8 48; norm_num at this ⊢; exact this
  have m3 : ∀ y, y &&& 0x0000ff0000000000 = (y / 2 ^ 40 % 2 ^ 8) * 2 ^ 40 := fun y => by
    have := and_mask y 8 40; norm_num at this ⊢; exact this
  have m4 : ∀ y, y &&& 0x000000ff00000000 = (y / 2 ^ 32 % 2 ^ 8) * 2 ^ 32 := fun y => by
    have := and_mask y 8 32; norm_num at this ⊢; exact this
  have m5 : ∀ y, y &&& 0x00000000ff000000 = (y / 2 ^ 24 % 2 ^ 8) * 2 ^ 24 := fun y => by
    have := and_mask y 8 24; norm_num at this ⊢; exact this
  have m6 : ∀ y, y &&& 0x0000000000ff0000 = (y / 2 ^ 16 % 2 ^ 8) * 2 ^ 16 := fun y => by
    have := and_mask y 8 16; norm_num at this ⊢; exact this
  have m7 : ∀ y, y &&& 0x000000000000ff00 = (y / 2 ^ 8 % 2 ^ 8) * 2 ^ 8 := fun y => by
    have := and_mask y 8 8; norm_num at this ⊢; exact this
  have m8 : ∀ y, y &&& 0x00000000000000ff = (y % 2 ^ 8) := fun y => by
    have := and_mask y 8 0; norm_num at this ⊢; exact this
  have e1 : (x <<< 56) % 2 ^ 64 / 2 ^ 56 % 2 ^ 8 = x % 2 ^ 8 := by
    rw [Nat.shiftLeft_eq]; omega
  have e2 : (x <<< 40) % 2 ^ 64 / 2 ^ 48 % 2 ^ 8 = x / 2 ^ 8 % 2 ^ 8 := by
    rw [Nat.shiftLeft_eq]; omega
  have e3 : (x <<< 24) % 2 ^ 64 / 2 ^ 40 % 2 ^ 8 = x / 2 ^ 16 % 2 ^ 8 := by
    rw [Nat.shiftLeft_eq]; omega
  have e4 : (x <<< 8) % 2 ^ 64 / 2 ^ 32 % 2 ^ 8 = x / 2 ^ 24 % 2 ^ 8 := by
    rw [Nat.shiftLeft_eq]; omega
  have e5 : (x >>> 8) / 2 ^ 24 % 2 ^ 8 = x / 2 ^ 32 % 2 ^ 8 := by
    rw [Nat.shiftRight_eq_div_pow]; omega
  have e6 : (x >>> 24) / 2 ^ 16 % 2 ^ 8 = x / 2 ^ 40 % 2 ^ 8 := by
    rw [Nat.shiftRight_eq_div_pow]; omega
  have e7 : (x >>> 40) / 2 ^ 8 % 2 ^ 8 = x / 2 ^ 48 % 2 ^ 8 := by
    rw [Nat.shiftRight_eq_div_pow]; omega
  have e8 : (x >>> 56) % 2 ^ 8 = x / 2 ^ 56 := by
    rw [Nat.shiftRight_eq_div_pow]; omega
  unfold LZ4_XXH_swap64
  rw [m1, m2, m3, m4, m5, m6, m7, m8, e1, e2, e3, e4, e5, e6, e7, e8]
  simp only [Nat.or_assoc]
  rw [lor_bytes64] <;> omega

theorem bytes_of_be64 (b0 b1 b2 b3 b4 b5 b6 b7 : Nat) (h0 : b0 < 256) (h1 : b1 < 256)
    (h2 : b2 < 256) (h3 : b3 < 256) (h4 : b4 < 256) (h5 : b5 < 256) (h6 : b6 < 256)
    (h7 : b7 < 256) (x : Nat)
    (hx : b0 * 2 ^ 56 + b1 * 2 ^ 48 + b2 * 2 ^ 40 + b3 * 2 ^ 32 + b4 * 2 ^ 24
      + b5 * 2 ^ 16 + b6 * 2 ^ 8 + b7 = x) :
    x < 2 ^ 64 ∧ x % 2 ^ 8 = b7 ∧ x / 2 ^ 8 % 2 ^ 8 = b6 ∧ x / 2 ^ 16 % 2 ^ 8 = b5
      ∧ x / 2 ^ 24 % 2 ^ 8 = b4 ∧ x / 2 ^ 32 % 2 ^ 8 = b3 ∧ x / 2 ^ 40 % 2 ^ 8 = b2
      ∧ x / 2 ^ 48 % 2 ^ 8 = b1 ∧ x / 2 ^ 56 = b0 := by
  refine ⟨?_, ?_, ?_, ?_, ?_, ?_, ?_, ?_, ?_⟩ <;> omega

theorem swap64_load64_be (t : Target) (mem : List BYTE) (p : Nat)
    (h : t.cpu_little_endian = false) : LZ4_XXH_swap64 (load64 t mem p) = le64 mem p := by
  simp only [load64, h, Bool.false_eq_true, if_false, le64]
  obtain ⟨hx, e0, e1, e2, e3, e4, e5, e6, e7⟩ := bytes_of_be64 _ _ _ _ _ _ _ _
    (byteAt_lt mem p) (byteAt_lt mem (p + 1)) (byteAt_lt mem (p + 2)) (byteAt_lt mem (p + 3))
    (byteAt_lt mem (p + 4)) (byteAt_lt mem (p + 5)) (byteAt_lt mem (p + 6))
    (byteAt_lt mem (p + 7)) _ rfl
  rw [swap64_eq _ hx, e0, e1, e2, e3, e4, e5, e6, e7]
  ring

/-- Each word read by `LZ4_XXH_readLE32_align` with the detected byte order is the
little-endian value of the 4 bytes, on both hosts and both alignment paths. -/
theorem readLE32_align_eq_le32 (t : Target) (mem : List BYTE) (p : Nat)
    (a : LZ4_XXH_alignment) :
    LZ4_XXH_readLE32_align t mem p (endian_detected t) a = le32 mem p := by
  cases hle : t.cpu_little_endian
  · have := swap32_load32_be t mem p hle
    cases a <;> simp [LZ4_XXH_readLE32_align, endian_detected, hle, LZ4_XXH_read32, this]
  · cases a <;>
      simp [LZ4_XXH_readLE32_align, endian_detected, hle, LZ4_XXH_read32, load32, le32]

theorem readLE64_align_eq_le64 (t : Target) (mem : List BYTE) (p : Nat)
    (a : LZ4_XXH_alignment) :
    LZ4_XXH_readLE64_align t mem p (endian_detected t) a = le64 mem p := by
  cases hle : t.cpu_little_endian
  · have := swap64_load64_be t mem p hle
    cases a <;> simp [LZ4_XXH_readLE64_align, endian_detected, hle, LZ4_XXH_read64, this]
  · cases a <;>
      simp [LZ4_XXH_readLE64_align, endian_detected, hle, LZ4_XXH_read64, load64, le64]

theorem readLE32_eq_le32 (t : Target) (mem : List BYTE) (p : Nat) :
    LZ4_XXH_readLE32 t mem p (endian_detected t) = le32 mem p :=
  readLE32_align_eq_le32 t mem p LZ4_XXH_unaligned

theorem readLE64_eq_le64 (t : Target) (mem : List BYTE) (p : Nat) :
    LZ4_XXH_readLE64 t mem p (endian_detected t) = le64 mem p :=
  readLE64_align_eq_le64 t mem p LZ4_XXH_unaligned

/-! ## Bytes of a concatenation and of a copy -/

theorem byteAt_append_left (b c : List BYTE) (p : Nat) (h : p < b.length) :
    byteAt (b ++ c) p = byteAt b p := by
  simp [byteAt, List.getD_eq_getElem?_getD, List.getElem?_append_left h]

theorem byteAt_append_right (b c : List BYTE) (q : Nat) :
    byteAt (b ++ c) (b.length + q) = byteAt c q := by
  simp [byteAt, List.getD_eq_getElem?_getD, List.getElem?_append_right]

theorem getD_append_left (b c : List BYTE) (p : Nat) (h : p < b.length) :
    (b ++ c).getD p 0 = b.getD p 0 := by
  simp [List.getD_eq_getElem?_getD, List.getElem?_append_left h]

theorem getD_append_right (b c : List BYTE) (q : Nat) :
    (b ++ c).getD (b.length + q) 0 = c.getD q 0 := by
  simp [List.getD_eq_getElem?_getD, List.getElem?_append_right]

theorem le32_congr (m m' : List BYTE) (p p' : Nat)
    (h : ∀ i, i < 4 → m.getD (p + i) 0 = m'.getD (p' + i) 0) : le32 m p = le32 m' p' := by
  have h0 := h 0 (by omega)
  have h1 := h 1 (by omega)
  have h2 := h 2 (by omega)
  have h3 := h 3 (by omega)
  simp only [Nat.add_zero] at h0
  simp only [le32, byteAt, h0, h1, h2, h3]

theorem le64_congr (m m' : List BYTE) (p p' : Nat)
    (h : ∀ i, i < 8 → m.getD (p + i) 0 = m'.getD (p' + i) 0) : le64 m p = le64 m' p' := by
  have h0 := h 0 (by omega)
  have h1 := h 1 (by omega)
  have h2 := h 2 (by omega)
  have h3 := h 3 (by omega)
  have h4 := h 4 (by omega)
  have h5 := h 5 (by omega)
  have h6 := h 6 (by omega)
  have h7 := h 7 (by omega)
  simp only [Nat.add_zero] at h0
  simp only [le64, byteAt, h0, h1, h2, h3, h4, h5, h6, h7]

theorem byteAt_congr (m m' : List BYTE) (p p' : Nat) (h : m.getD p 0 = m'.getD p' 0) :
    byteAt m p = byteAt m' p' := by
  simp only [byteAt, h]

theorem length_memcpy (dst src : List BYTE) (n : Nat) :
    ∀ doff soff, (memcpy dst doff src soff n).length = dst.length := by
  induction n generalizing dst with
  | zero => intro _ _; rfl
  | succ n ih => intro doff soff; simp [memcpy, ih]

/-- A copy of `n` bytes that fits into `dst` replaces the bytes at `doff .. doff+n-1` by
the source bytes and leaves every other byte as it was. -/
theorem getD_memcpy (src : List BYTE) (n : Nat) :
    ∀ (dst : List BYTE) (doff soff i : Nat), doff + n ≤ dst.length →
      (memcpy dst doff src soff n).getD i 0
        = if doff ≤ i ∧ i < doff + n then src.getD (soff + (i - doff)) 0 else dst.getD i 0 := by
  induction n with
  | zero =>
    intro dst doff soff i _
    have : ¬ (doff ≤ i ∧ i < doff) := by omega
    simp [memcpy, this]
  | succ n ih =>
    intro dst doff soff i hlen
    rw [memcpy, ih _ _ _ _ (by simpa using by omega)]
    by_cases h1 : doff + 1 ≤ i ∧ i < doff + 1 + n
    · have h2 : doff ≤ i ∧ i < doff + (n + 1) := by omega
      have h3 : soff + 1 + (i - (doff + 1)) = soff + (i - doff) := by omega
      simp [h1, h2, h3]
    · rw [if_neg h1]
      by_cases h4 : i = doff
      · subst h4
        have h2 : i ≤ i ∧ i < i + (n + 1) := by omega
        have h5 : i < dst.length := by omega
        simp [h2, List.getD_eq_getElem?_getD, List.getElem?_set, h5]
      · have h2 : ¬ (doff ≤ i ∧ i < doff + (n + 1)) := by omega
        have h6 : ¬ doff = i := fun h => h4 h.symm
        simp [h2, List.getD_eq_getElem?_getD, List.getElem?_set, h6]

/-! ## Unrolled loops -/

theorem iterBlocks_succ (round : Nat → Nat → Nat) (w : Nat) (rd : Nat → Nat) (k : Nat)
    (s : Lanes) :
    iterBlocks round w rd (k + 1) s = iterBlocks round w rd k
      ⟨s.p + 4 * w, round s.v1 (rd s.p), round s.v2 (rd (s.p + w)),
        round s.v3 (rd (s.p + 2 * w)), round s.v4 (rd (s.p + 3 * w))⟩ := rfl

theorem iterTail_succ (step : Nat → Nat → Nat) (w : Nat) (rd : Nat → Nat) (k p h : Nat) :
    iterTail step w rd (k + 1) p h = iterTail step w rd k (p + w) (step h (rd p)) := rfl

theorem iterBlocks_p (round : Nat → Nat → Nat) (w : Nat) (rd : Nat → Nat) :
    ∀ (k : Nat) (s : Lanes), (iterBlocks round w rd k s).p = s.p + 4 * w * k := by
  intro k
  induction k with
  | zero => intro s; simp [iterBlocks]
  | succ k ih => intro s; rw [iterBlocks_succ, ih]; simp only; ring

theorem iterBlocks_add (round : Nat → Nat → Nat) (w : Nat) (rd : Nat → Nat) :
    ∀ (j k : Nat) (s : Lanes),
      iterBlocks round w rd (j + k) s = iterBlocks round w rd k (iterBlocks round w rd j s) := by
  intro j
  induction j with
  | zero => intro k s; simp [iterBlocks]
  | succ j ih =>
    intro k s
    rw [show j + 1 + k = (j + k) + 1 by omega, iterBlocks_succ, ih, iterBlocks_succ]

/-- Running the block body over a reader that returns, `d` bytes further, the same words:
the lanes come out the same and the offset is shifted by `d`. -/
theorem iterBlocks_shift (round : Nat → Nat → Nat) (w : Nat) (rd rd' : Nat → Nat) (d : Nat) :
    ∀ (k : Nat) (s : Lanes), (∀ i, i < 4 * k → rd' (s.p + d + w * i) = rd (s.p + w * i)) →
      iterBlocks round w rd' k ⟨s.p + d, s.v1, s.v2, s.v3, s.v4⟩
        = ⟨(iterBlocks round w rd k s).p + d, (iterBlocks round w rd k s).v1,
            (iterBlocks round w rd k s).v2, (iterBlocks round w rd k s).v3,
            (iterBlocks round w rd k s).v4⟩ := by
  intro k
  induction k with
  | zero => intro s _; simp [iterBlocks]
  | succ k ih =>
    intro s h
    have h0 : rd' (s.p + d) = rd s.p := by simpa using h 0 (by omega)
    have h1 : rd' (s.p + d + w) = rd (s.p + w) := by simpa using h 1 (by omega)
    have h2 : rd' (s.p + d + 2 * w) = rd (s.p + 2 * w) := by
      have := h 2 (by omega)
      rwa [Nat.mul_comm w 2] at this
    have h3 : rd' (s.p + d + 3 * w) = rd (s.p + 3 * w) := by
      have := h 3 (by omega)
      rwa [Nat.mul_comm w 3] at this
    have ih' := ih ⟨s.p + 4 * w, round s.v1 (rd s.p), round s.v2 (rd (s.p + w)),
      round s.v3 (rd (s.p + 2 * w)), round s.v4 (rd (s.p + 3 * w))⟩ (by
        intro i hi
        have := h (i + 4) (by omega)
        simp only
        rw [show s.p + 4 * w + d + w * i = s.p + d + w * (i + 4) by ring,
          show s.p + 4 * w + w * i = s.p + w * (i + 4) by ring]
        exact this)
    rw [iterBlocks_succ, iterBlocks_succ]
    simp only [h0, h1, h2, h3]
    rw [show s.p + d + 4 * w = s.p + 4 * w + d by omega]
    exact ih'

theorem iterTail_shift (step : Nat → Nat → Nat) (w : Nat) (rd rd' : Nat → Nat) (d : Nat) :
    ∀ (k p h : Nat), (∀ i, i < k → rd' (p + d + w * i) = rd (p + w * i)) →
      iterTail step w rd' k (p + d) h = iterTail step w rd k p h := by
  intro k
  induction k with
  | zero => intro p h _; rfl
  | succ k ih =>
    intro p h hrd
    have h0 := hrd 0 (by omega)
    simp only [Nat.mul_zero, Nat.add_zero] at h0
    rw [iterTail_succ, iterTail_succ, h0, show p + d + w = (p + w) + d by ring]
    apply ih
    intro i hi
    have := hrd (i + 1) (by omega)
    rw [show p + w + d + w * i = p + d + w * (i + 1) by ring,
      show p + w + w * i = p + w * (i + 1) by ring]
    exact this

/-- The 32-bit block loop leaves after `(limit - p) / 16 + 1` iterations, given a budget of
at least that many. -/
theorem LZ4_XXH32_blockLoop_eq (rd : Nat → Nat) (limit : Nat) :
    ∀ (fuel : Nat) (s : Lanes), s.p ≤ limit → (limit - s.p) / 16 + 1 ≤ fuel →
      LZ4_XXH32_blockLoop rd limit fuel s
        = iterBlocks LZ4_XXH32_round 4 rd ((limit - s.p) / 16 + 1) s := by
  intro fuel
  induction fuel with
  | zero => intro s _ h; omega
  | succ fuel ih =>
    intro s hp hf
    rw [LZ4_XXH32_blockLoop, iterBlocks_succ]
    simp only [Nat.add_assoc, Nat.reduceAdd, Nat.reduceMul]
    by_cases hc : s.p + 16 ≤ limit
    · rw [if_pos hc, ih _ (by simpa using hc) (by simp only; omega)]
      simp only
      rw [show (limit - (s.p + 16)) / 16 + 1 = (limit - s.p) / 16 by omega]
    · rw [if_neg hc, show (limit - s.p) / 16 = 0 by omega]
      rfl

/-- The 64-bit block loop leaves after `(limit - p) / 32 + 1` iterations. -/
theorem LZ4_XXH64_blockLoop_eq (rd : Nat → Nat) (limit : Nat) :
    ∀ (fuel : Nat) (s : Lanes), s.p ≤ limit → (limit - s.p) / 32 + 1 ≤ fuel →
      LZ4_XXH64_blockLoop rd limit fuel s
        = iterBlocks LZ4_XXH64_round 8 rd ((limit - s.p) / 32 + 1) s := by
  intro fuel
  induction fuel with
  | zero => intro s _ h; omega
  | succ fuel ih =>
    intro s hp hf
    rw [LZ4_XXH64_blockLoop, iterBlocks_succ]
    simp only [Nat.add_assoc, Nat.reduceAdd, Nat.reduceMul]
    by_cases hc : s.p + 32 ≤ limit
    · rw [if_pos hc, ih _ (by simpa using hc) (by simp only; omega)]
      simp only
      rw [show (limit - (s.p + 32)) / 32 + 1 = (limit - s.p) / 32 by omega]
    · rw [if_neg hc, show (limit - s.p) / 32 = 0 by omega]
      rfl

theorem LZ4_XXH32_tailWords_eq (rd : Nat → Nat) (bEnd : Nat) :
    ∀ (fuel p h : Nat), (bEnd - p) / 4 ≤ fuel →
      LZ4_XXH32_tailWords rd bEnd fuel p h
        = (p + 4 * ((bEnd - p) / 4), iterTail XXH32_wordStep 4 rd ((bEnd - p) / 4) p h) := by
  intro fuel
  induction fuel with
  | zero =>
    intro p h hf
    rw [show (bEnd - p) / 4 = 0 by omega]
    rfl
  | succ fuel ih =>
    intro p h hf
    rw [LZ4_XXH32_tailWords]
    by_cases hc : p + 4 ≤ bEnd
    · rw [if_pos hc]
      simp only
      rw [ih _ _ (by omega)]
      obtain ⟨k, hk⟩ : ∃ k, (bEnd - p) / 4 = k + 1 := ⟨(bEnd - p) / 4 - 1, by omega⟩
      rw [hk, show (bEnd - (p + 4)) / 4 = k by omega]
      rw [iterTail_succ, show p + 4 + 4 * k = p + 4 * (k + 1) by omega]
      rfl
    · rw [if_neg hc, show (bEnd - p) / 4 = 0 by omega]
      rfl

theorem LZ4_XXH32_tailBytes_eq (mem : List BYTE) (bEnd : Nat) :
    ∀ (fuel p h : Nat), bEnd - p ≤ fuel →
      LZ4_XXH32_tailBytes mem bEnd fuel p h
        = (p + (bEnd - p), iterTail XXH32_byteStep 1 (byteAt mem) (bEnd - p) p h) := by
  intro fuel
  induction fuel with
  | zero =>
    intro p h hf
    rw [show bEnd - p = 0 by omega]
    rfl
  | succ fuel ih =>
    intro p h hf
    rw [LZ4_XXH32_tailBytes]
    by_cases hc : p < bEnd
    · rw [if_pos hc]
      simp only
      rw [ih _ _ (by omega)]
      obtain ⟨k, hk⟩ : ∃ k, bEnd - p = k + 1 := ⟨bEnd - p - 1, by omega⟩
      rw [hk, show bEnd - (p + 1) = k by omega]
      rw [iterTail_succ, show p + 1 + k = p + (k + 1) by omega]
      rfl
    · rw [if_neg hc, show bEnd - p = 0 by omega]
      rfl

theorem LZ4_XXH64_tailWords_eq (rd : Nat → Nat) (bEnd : Nat) :
    ∀ (fuel p h : Nat), (bEnd - p) / 8 ≤ fuel →
      LZ4_XXH64_tailWords rd bEnd fuel p h
        = (p + 8 * ((bEnd - p) / 8), iterTail XXH64_wordStep 8 rd ((bEnd - p) / 8) p h) := by
  intro fuel
  induction fuel with
  | zero =>
    intro p h hf
    rw [show (bEnd - p) / 8 = 0 by omega]
    rfl
  | succ fuel ih =>
    intro p h hf
    rw [LZ4_XXH64_tailWords]
    by_cases hc : p + 8 ≤ bEnd
    · rw [if_pos hc]
      simp only
      rw [ih _ _ (by omega)]
      obtain ⟨k, hk⟩ : ∃ k, (bEnd - p) / 8 = k + 1 := ⟨(bEnd - p) / 8 - 1, by omega⟩
      rw [hk, show (bEnd - (p + 8)) / 8 = k by omega]
      rw [iterTail_succ, show p + 8 + 8 * k = p + 8 * (k + 1) by omega]
      rfl
    · rw [if_neg hc, show (bEnd - p) / 8 = 0 by omega]
      rfl

theorem LZ4_XXH64_tailWord32_eq (rd : Nat → Nat) (bEnd p h : Nat) :
    LZ4_XXH64_tailWord32 rd bEnd p h
      = (p + 4 * (if p + 4 ≤ bEnd then 1 else 0),
          iterTail XXH64_word32Step 4 rd (if p + 4 ≤ bEnd then 1 else 0) p h) := by
  unfold LZ4_XXH64_tailWord32
  by_cases hc : p + 4 ≤ bEnd
  · rw [if_pos hc, if_pos hc, iterTail_succ]
    rfl
  · rw [if_neg hc, if_neg hc]
    rfl

theorem LZ4_XXH64_tailBytes_eq (mem : List BYTE) (bEnd : Nat) :
    ∀ (fuel p h : Nat), bEnd - p ≤ fuel →
      LZ4_XXH64_tailBytes mem bEnd fuel p h
        = (p + (bEnd - p), iterTail XXH64_byteStep 1 (byteAt mem) (bEnd - p) p h) := by
  intro fuel
  induction fuel with
  | zero =>
    intro p h hf
    rw [show bEnd - p = 0 by omega]
    rfl
  | succ fuel ih =>
    intro p h hf
    rw [LZ4_XXH64_tailBytes]
    by_cases hc : p < bEnd
    · rw [if_pos hc]
      simp only
      rw [ih _ _ (by omega)]
      obtain ⟨k, hk⟩ : ∃ k, bEnd - p = k + 1 := ⟨bEnd - p - 1, by omega⟩
      rw [hk, show bEnd - (p + 1) = k by omega]
      rw [iterTail_succ, show p + 1 + k = p + (k + 1) by omega]
      rfl
    · rw [if_neg hc, show bEnd - p = 0 by omega]
      rfl

/-! ## The one-shot functions, unrolled -/

theorem LZ4_XXH32_endian_align_eq_unrolled (t : Target) (input : ConstPtr) (seed : Nat)
    (a : LZ4_XXH_alignment) (hwf : input.wellFormed) :
    LZ4_XXH32_endian_align t input input.mem.length seed (endian_detected t) a
      = XXH32_unrolled input.mem seed := by
  have hlen : (if (t.accept_null_input_pointer && input.addr == 0) = true then 0
      else input.mem.length) = input.mem.length := by
    split
    · rename_i h
      simp only [Bool.and_eq_true, beq_iff_eq] at h
      rw [hwf h.2]; rfl
    · rfl
  unfold LZ4_XXH32_endian_align
  rw [hlen]
  simp only [readLE32_align_eq_le32]
  generalize hn : input.mem.length = n
  have key : (if n ≥ 16 then
        ((LZ4_XXH32_blockLoop (fun p => le32 input.mem p) (n - 16) n
            ⟨0, (seed + PRIME32_1 + PRIME32_2) % 2 ^ 32, (seed + PRIME32_2) % 2 ^ 32,
              (seed + 0) % 2 ^ 32, (seed + 2 ^ 32 - PRIME32_1) % 2 ^ 32⟩).p,
          (LZ4_XXH_rotl32 (LZ4_XXH32_blockLoop (fun p => le32 input.mem p) (n - 16) n
            ⟨0, (seed + PRIME32_1 + PRIME32_2) % 2 ^ 32, (seed + PRIME32_2) % 2 ^ 32,
              (seed + 0) % 2 ^ 32, (seed + 2 ^ 32 - PRIME32_1) % 2 ^ 32⟩).v1 1
          + LZ4_XXH_rotl32 (LZ4_XXH32_blockLoop (fun p => le32 input.mem p) (n - 16) n
            ⟨0, (seed + PRIME32_1 + PRIME32_2) % 2 ^ 32, (seed + PRIME32_2) % 2 ^ 32,
              (seed + 0) % 2 ^ 32, (seed + 2 ^ 32 - PRIME32_1) % 2 ^ 32⟩).v2 7
          + LZ4_XXH_rotl32 (LZ4_XXH32_blockLoop (fun p => le32 input.mem p) (n - 16) n
            ⟨0, (seed + PRIME32_1 + PRIME32_2) % 2 ^ 32, (seed + PRIME32_2) % 2 ^ 32,
              (seed + 0) % 2 ^ 32, (seed + 2 ^ 32 - PRIME32_1) % 2 ^ 32⟩).v3 12
          + LZ4_XXH_rotl32 (LZ4_XXH32_blockLoop (fun p => le32 input.mem p) (n - 16) n
            ⟨0, (seed + PRIME32_1 + PRIME32_2) % 2 ^ 32, (seed + PRIME32_2) % 2 ^ 32,
              (seed + 0) % 2 ^ 32, (seed + 2 ^ 32 - PRIME32_1) % 2 ^ 32⟩).v4 18) % 2 ^ 32)
      else (0, (seed + PRIME32_5) % 2 ^ 32))
      = (16 * (n / 16),
          if 16 ≤ n then
            (LZ4_XXH_rotl32 (iterBlocks LZ4_XXH32_round 4 (le32 input.mem) (n / 16)
                (XXH32_initLanes seed)).v1 1
              + LZ4_XXH_rotl32 (iterBlocks LZ4_XXH32_round 4 (le32 input.mem) (n / 16)
                (XXH32_initLanes seed)).v2 7
              + LZ4_XXH_rotl32 (iterBlocks LZ4_XXH32_round 4 (le32 input.mem) (n / 16)
                (XXH32_initLanes seed)).v3 12
              + LZ4_XXH_rotl32 (iterBlocks LZ4_XXH32_round 4 (le32 input.mem) (n / 16)
                (XXH32_initLanes seed)).v4 18) % 2 ^ 32
          else (seed + PRIME32_5) % 2 ^ 32) := by
    by_cases h16 : 16 ≤ n
    · rw [if_pos h16, if_pos h16,
        LZ4_XXH32_blockLoop_eq _ _ _ _ (Nat.zero_le _) (by simp only; omega)]
      simp only [Nat.sub_zero]
      rw [show (n - 16) / 16 + 1 = n / 16 by omega, iterBlocks_p]
      simp only [Nat.zero_add, Nat.reduceMul]
      rfl
    · rw [if_neg h16, if_neg h16, show n / 16 = 0 by omega]
  simp only [key]
  rw [LZ4_XXH32_tailWords_eq _ _ _ _ _ (by omega)]
  simp only
  rw [LZ4_XXH32_tailBytes_eq _ _ _ _ _ (by omega)]
  simp only [XXH32_unrolled, hn]
  rw [show (n - 16 * (n / 16)) / 4 = n % 16 / 4 by omega,
    show n - (16 * (n / 16) + 4 * (n % 16 / 4)) = n % 4 by omega,
    show 16 * (n / 16) + 4 * (n % 16 / 4) = n - n % 4 by omega]

/-- On every target and through every read path, `LZ4_XXH32` of a well-formed input is the
unrolled hash of its bytes. -/
theorem LZ4_XXH32_eq_unrolled (t : Target) (input : ConstPtr) (seed : Nat)
    (hwf : input.wellFormed) :
    LZ4_XXH32 t input input.mem.length seed = XXH32_unrolled input.mem seed := by
  obtain ⟨a, ha⟩ := LZ4_XXH32_dispatch t input input.mem.length seed
  rw [ha, LZ4_XXH32_endian_align_eq_unrolled t input seed a hwf]

theorem LZ4_XXH64_endian_align_eq_unrolled (t : Target) (input : ConstPtr) (seed : Nat)
    (a : LZ4_XXH_alignment) (hwf : input.wellFormed) :
    LZ4_XXH64_endian_align t input input.mem.length seed (endian_detected t) a
      = XXH64_unrolled input.mem seed := by
  have hlen : (if (t.accept_null_input_pointer && input.addr == 0) = true then 0
      else input.mem.length) = input.mem.length := by
    split
    · rename_i h
      simp only [Bool.and_eq_true, beq_iff_eq] at h
      rw [hwf h.2]; rfl
    · rfl
  unfold LZ4_XXH64_endian_align
  rw [hlen]
  simp only [readLE32_align_eq_le32, readLE64_align_eq_le64]
  generalize hn : input.mem.length = n
  have key : (if n ≥ 32 then
        ((LZ4_XXH64_blockLoop (fun p => le64 input.mem p) (n - 32) n
            ⟨0, (seed + PRIME64_1 + PRIME64_2) % 2 ^ 64, (seed + PRIME64_2) % 2 ^ 64,
              (seed + 0) % 2 ^ 64, (seed + 2 ^ 64 - PRIME64_1) % 2 ^ 64⟩).p,
          LZ4_XXH64_converge
            (LZ4_XXH64_blockLoop (fun p => le64 input.mem p) (n - 32) n
              ⟨0, (seed + PRIME64_1 + PRIME64_2) % 2 ^ 64, (seed + PRIME64_2) % 2 ^ 64,
                (seed + 0) % 2 ^ 64, (seed + 2 ^ 64 - PRIME64_1) % 2 ^ 64⟩).v1
            (LZ4_XXH64_blockLoop (fun p => le64 input.mem p) (n - 32) n
              ⟨0, (seed + PRIME64_1 + PRIME64_2) % 2 ^ 64, (seed + PRIME64_2) % 2 ^ 64,
                (seed + 0) % 2 ^ 64, (seed + 2 ^ 64 - PRIME64_1) % 2 ^ 64⟩).v2
            (LZ4_XXH64_blockLoop (fun p => le64 input.mem p) (n - 32) n
              ⟨0, (seed + PRIME64_1 + PRIME64_2) % 2 ^ 64, (seed + PRIME64_2) % 2 ^ 64,
                (seed + 0) % 2 ^ 64, (seed + 2 ^ 64 - PRIME64_1) % 2 ^ 64⟩).v3
            (LZ4_XXH64_blockLoop (fun p => le64 input.mem p) (n - 32) n
              ⟨0, (seed + PRIME64_1 + PRIME64_2) % 2 ^ 64, (seed + PRIME64_2) % 2 ^ 64,
                (seed + 0) % 2 ^ 64, (seed + 2 ^ 64 - PRIME64_1) % 2 ^ 64⟩).v4)
      else (0, (seed + PRIME64_5) % 2 ^ 64))
      = (32 * (n / 32),
          if 32 ≤ n then
            LZ4_XXH64_converge
              (iterBlocks LZ4_XXH64_round 8 (le64 input.mem) (n / 32) (XXH64_initLanes seed)).v1
              (iterBlocks LZ4_XXH64_round 8 (le64 input.mem) (n / 32) (XXH64_initLanes seed)).v2
              (iterBlocks LZ4_XXH64_round 8 (le64 input.mem) (n / 32) (XXH64_initLanes seed)).v3
              (iterBlocks LZ4_XXH64_round 8 (le64 input.mem) (n / 32) (XXH64_initLanes seed)).v4
          else (seed + PRIME64_5) % 2 ^ 64) := by
    by_cases h32 : 32 ≤ n
    · rw [if_pos h32, if_pos h32,
        LZ4_XXH64_blockLoop_eq _ _ _ _ (Nat.zero_le _) (by simp only; omega)]
      simp only [Nat.sub_zero]
      rw [show (n - 32) / 32 + 1 = n / 32 by omega, iterBlocks_p]
      simp only [Nat.zero_add, Nat.reduceMul]
      rfl
    · rw [if_neg h32, if_neg h32, show n / 32 = 0 by omega]
  simp only [key]
  rw [LZ4_XXH64_tailWords_eq _ _ _ _ _ (by omega)]
  simp only
  rw [LZ4_XXH64_tailWord32_eq]
  simp only
  rw [LZ4_XXH64_tailBytes_eq _ _ _ _ _ (by split <;> omega)]
  simp only [XXH64_unrolled, hn]
  have e1 : (n - 32 * (n / 32)) / 8 = n % 32 / 8 := by omega
  have e2 : 32 * (n / 32) + 8 * (n % 32 / 8) = n - n % 8 := by omega
  have e3 : (n - n % 8 + 4 ≤ n) = (4 ≤ n % 8) := by
    apply propext; constructor <;> intro h <;> omega
  rw [e1, e2]
  simp only [e3]
  have e4 : n - (n - n % 8 + 4 * (if 4 ≤ n % 8 then 1 else 0)) = n % 4 := by
    split <;> omega
  have e5 : n - n % 8 + 4 * (if 4 ≤ n % 8 then 1 else 0) = n - n % 4 := by
    split <;> omega
  rw [e4, e5]

/-- On every target and through every read path, `LZ4_XXH64` of a well-formed input is the
unrolled hash of its bytes. -/
theorem LZ4_XXH64_eq_unrolled (t : Target) (input : ConstPtr) (seed : Nat)
    (hwf : input.wellFormed) :
    LZ4_XXH64 t input input.mem.length seed = XXH64_unrolled input.mem seed := by
  obtain ⟨a, ha⟩ := LZ4_XXH64_dispatch t input input.mem.length seed
  rw [ha, LZ4_XXH64_endian_align_eq_unrolled t input seed a hwf]

/-! ## Streaming: the representation invariant -/

theorem iterBlocks_congr (round : Nat → Nat → Nat) (w : Nat) (rd rd' : Nat → Nat) (k : Nat)
    (s : Lanes) (h : ∀ i, i < 4 * k → rd' (s.p + w * i) = rd (s.p + w * i)) :
    iterBlocks round w rd' k s = iterBlocks round w rd k s := by
  have := iterBlocks_shift round w rd rd' 0 k s (by simpa using h)
  simpa using this

theorem LZ4_XXH32_update_dispatch (t : Target) (st : LZ4_XXH32_state_t) (input : ConstPtr)
    (len : Nat) :
    LZ4_XXH32_update t st input len
      = LZ4_XXH32_update_endian t st input len (endian_detected t) := by
  unfold LZ4_XXH32_update endian_detected LZ4_XXH_FORCE_NATIVE_FORMAT
  cases t.cpu_little_endian <;> simp

theorem LZ4_XXH32_digest_dispatch (t : Target) (st : LZ4_XXH32_state_t) :
    LZ4_XXH32_digest t st = LZ4_XXH32_digest_endian t st (endian_detected t) := by
  unfold LZ4_XXH32_digest endian_detected LZ4_XXH_FORCE_NATIVE_FORMAT
  cases t.cpu_little_endian <;> simp

theorem LZ4_XXH64_update_dispatch (t : Target) (st : LZ4_XXH64_state_t) (input : ConstPtr)
    (len : Nat) :
    LZ4_XXH64_update t st input len
      = LZ4_XXH64_update_endian t st input len (endian_detected t) := by
  unfold LZ4_XXH64_update endian_detected LZ4_XXH_FORCE_NATIVE_FORMAT
  cases t.cpu_little_endian <;> simp

theorem LZ4_XXH64_digest_dispatch (t : Target) (st : LZ4_XXH64_state_t) :
    LZ4_XXH64_digest t st = LZ4_XXH64_digest_endian t st (endian_detected t) := by
  unfold LZ4_XXH64_digest endian_detected LZ4_XXH_FORCE_NATIVE_FORMAT
  cases t.cpu_little_endian <;> simp

/-- A freshly reset 32-bit state tracks the empty input. -/
theorem Tracks32_reset (s0 : LZ4_XXH32_state_t) (seed : Nat) :
    Tracks32 seed [] (LZ4_XXH32_reset s0 seed).2 where
  total := rfl
  large := by simp [LZ4_XXH32_reset]
  memsize := rfl
  buflen := rfl
  buf := by intro i hi; simp at hi
  lanes := rfl

/-- A freshly reset 64-bit state tracks the empty input. -/
theorem Tracks64_reset (s0 : LZ4_XXH64_state_t) (seed : Nat) :
    Tracks64 seed [] (LZ4_XXH64_reset s0 seed).2 where
  total := rfl
  memsize := rfl
  buflen := rfl
  buf := by intro i hi; simp at hi
  lanes := rfl

/-- The digest of a state that tracks `b` is the unrolled one-shot hash of `b`. -/
theorem LZ4_XXH32_digest_eq_unrolled (t : Target) (seed : Nat) (b : List BYTE)
    (st : LZ4_XXH32_state_t) (h : Tracks32 seed b st) :
    LZ4_XXH32_digest t st = XXH32_unrolled b seed := by
  obtain ⟨htot, hlarge, hms, hbl, hbuf, hlanes⟩ := h
  rw [LZ4_XXH32_digest_dispatch]
  unfold LZ4_XXH32_digest_endian
  simp only [readLE32_eq_le32]
  rw [LZ4_XXH32_tailWords_eq _ _ _ _ _ (by omega)]
  simp only
  rw [LZ4_XXH32_tailBytes_eq _ _ _ _ _ (by omega)]
  simp only [XXH32_unrolled]
  generalize hn : b.length = n at *
  have hv1 := congrArg Lanes.v1 hlanes
  have hv2 := congrArg Lanes.v2 hlanes
  have hv3 := congrArg Lanes.v3 hlanes
  have hv4 := congrArg Lanes.v4 hlanes
  simp only at hv1 hv2 hv3 hv4
  -- the accumulator before the tail
  have hacc : (if st.large_len ≠ 0 then
        (LZ4_XXH_rotl32 st.v1 1 + LZ4_XXH_rotl32 st.v2 7 + LZ4_XXH_rotl32 st.v3 12
          + LZ4_XXH_rotl32 st.v4 18) % 2 ^ 32
      else (st.v3 + PRIME32_5) % 2 ^ 32)
      = (if 16 ≤ n then
          (LZ4_XXH_rotl32 (iterBlocks LZ4_XXH32_round 4 (le32 b) (n / 16)
              (XXH32_initLanes seed)).v1 1
            + LZ4_XXH_rotl32 (iterBlocks LZ4_XXH32_round 4 (le32 b) (n / 16)
              (XXH32_initLanes seed)).v2 7
            + LZ4_XXH_rotl32 (iterBlocks LZ4_XXH32_round 4 (le32 b) (n / 16)
              (XXH32_initLanes seed)).v3 12
            + LZ4_XXH_rotl32 (iterBlocks LZ4_XXH32_round 4 (le32 b) (n / 16)
              (XXH32_initLanes seed)).v4 18) % 2 ^ 32
        else (seed + PRIME32_5) % 2 ^ 32) := by
    by_cases h16 : 16 ≤ n
    · rw [if_pos (hlarge.mpr h16), if_pos h16, ← hv1, ← hv2, ← hv3, ← hv4]
    · rw [if_neg (fun hc => h16 (hlarge.mp hc)), if_neg h16, hv3,
        show n / 16 = 0 by omega]
      show ((seed + 0) % 2 ^ 32 + PRIME32_5) % 2 ^ 32 = (seed + PRIME32_5) % 2 ^ 32
      omega
  rw [hacc, htot, hms]
  have hw : ∀ H, iterTail XXH32_wordStep 4 (le32 b) (n % 16 / 4) (0 + 16 * (n / 16)) H
      = iterTail XXH32_wordStep 4 (fun p => le32 st.mem32 p) (n % 16 / 4) 0 H := by
    intro H
    apply iterTail_shift
    intro i hi
    apply le32_congr
    intro j hj
    rw [hbuf (0 + 4 * i + j) (by omega)]
    congr 1
    omega
  have hb : ∀ H, iterTail XXH32_byteStep 1 (byteAt b) (n % 4)
        (4 * (n % 16 / 4) + 16 * (n / 16)) H
      = iterTail XXH32_byteStep 1 (byteAt st.mem32) (n % 4) (4 * (n % 16 / 4)) H := by
    intro H
    apply iterTail_shift
    intro i hi
    apply byteAt_congr
    rw [hbuf (4 * (n % 16 / 4) + 1 * i) (by omega)]
    congr 1
    omega
  rw [Nat.zero_add] at hw
  rw [hw, show n - n % 4 = 4 * (n % 16 / 4) + 16 * (n / 16) by omega, hb,
    show n % 16 - 0 = n % 16 by omega, Nat.zero_add,
    show n % 16 - 4 * (n % 16 / 4) = n % 4 by omega]

theorem lor_eq_zero_iff (a b : Nat) : a ||| b = 0 ↔ a = 0 ∧ b = 0 := by
  constructor
  · intro h
    have h' : ∀ i, (a.testBit i || b.testBit i) = false := fun i => by
      rw [← Nat.testBit_or, h, Nat.zero_testBit]
    constructor <;> apply Nat.eq_of_testBit_eq <;> intro i <;> have := h' i <;> simp_all
  · rintro ⟨rfl, rfl⟩; rfl

/-- After the null check, `LZ4_XXH32_update_endian` with the detected byte order is the
composition of its blocks. -/
theorem LZ4_XXH32_update_endian_stages (t : Target) (st : LZ4_XXH32_state_t) (a : Nat)
    (m : List BYTE) (hnull : ¬ (t.accept_null_input_pointer && a == 0) = true) :
    LZ4_XXH32_update_endian t st ⟨a, m⟩ m.length (endian_detected t)
      = if (st.memsize + m.length) % 2 ^ 64 < 16 then
          (LZ4_XXH_OK, XXH32_small (XXH32_count st m.length) m)
        else
          (LZ4_XXH_OK, XXH32_rest m (XXH32_loop m (XXH32_fill (XXH32_count st m.length) m))) := by
  unfold LZ4_XXH32_update_endian
  rw [if_neg hnull]
  simp only [readLE32_eq_le32]
  rfl

theorem LZ4_XXH64_update_endian_stages (t : Target) (st : LZ4_XXH64_state_t) (a : Nat)
    (m : List BYTE) (hnull : ¬ (t.accept_null_input_pointer && a == 0) = true) :
    LZ4_XXH64_update_endian t st ⟨a, m⟩ m.length (endian_detected t)
      = if (st.memsize + m.length) % 2 ^ 64 < 32 then
          (LZ4_XXH_OK, XXH64_small (XXH64_count st m.length) m)
        else
          (LZ4_XXH_OK, XXH64_rest m (XXH64_loop m (XXH64_fill (XXH64_count st m.length) m))) := by
  unfold LZ4_XXH64_update_endian
  rw [if_neg hnull]
  simp only [readLE64_eq_le64]
  rfl

/-- The length counter and the large flag after counting a chunk. -/
theorem XXH32_count_spec (seed : Nat) (b m : List BYTE) (st : LZ4_XXH32_state_t)
    (h : Tracks32 seed b st) :
    (XXH32_count st m.length).total_len_32 = (b ++ m).length % 2 ^ 32
      ∧ ((XXH32_count st m.length).large_len ≠ 0 ↔ 16 ≤ (b ++ m).length) := by
  obtain ⟨htot, hlarge, -, -, -, -⟩ := h
  have e1 : (XXH32_count st m.length).total_len_32 = (b ++ m).length % 2 ^ 32 := by
    show (st.total_len_32 + m.length % 2 ^ 32) % 2 ^ 32 = _
    rw [htot, List.length_append]
    omega
  refine ⟨e1, ?_⟩
  show st.large_len ||| ((if m.length ≥ 16 then 1 else 0)
    ||| (if (XXH32_count st m.length).total_len_32 ≥ 16 then 1 else 0)) ≠ 0 ↔ _
  rw [e1, Ne, lor_eq_zero_iff, lor_eq_zero_iff, List.length_append]
  by_cases h1 : 16 ≤ b.length
  · have := hlarge.mpr h1
    constructor
    · intro _; omega
    · intro _ hc; exact this hc.1
  · have h0 : st.large_len = 0 := by
      by_contra hc
      exact h1 (hlarge.mp hc)
    by_cases h2 : m.length ≥ 16
    · simp only [h0, h2, if_true]
      constructor
      · intro _; omega
      · intro _ hc; simp at hc
    · by_cases h3 : (b.length + m.length) % 2 ^ 32 ≥ 16
      · simp only [h0, h2, h3, if_true, if_false]
        constructor
        · intro _; omega
        · intro _ hc; simp at hc
      · simp only [h0, h2, h3, if_false]
        constructor
        · intro hc; simp at hc
        · intro hc; omega

/-- The block rounds over `b ++ m` that stay inside `b` are the block rounds over `b`. -/
theorem iterBlocks32_append (seed : Nat) (b m : List BYTE) (k : Nat) (hk : 16 * k ≤ b.length) :
    iterBlocks LZ4_XXH32_round 4 (le32 (b ++ m)) k (XXH32_initLanes seed)
      = iterBlocks LZ4_XXH32_round 4 (le32 b) k (XXH32_initLanes seed) := by
  apply iterBlocks_congr
  intro i hi
  apply le32_congr
  intro j hj
  exact getD_append_left b m _ (by show 0 + 4 * i + j < b.length; omega)

/-- The buffer after appending `cnt` bytes of the chunk holds the bytes of `b ++ m` that
follow the last complete block of `b`. -/
theorem buf_after_copy32 (seed : Nat) (b m : List BYTE) (st : LZ4_XXH32_state_t)
    (h : Tracks32 seed b st) (cnt : Nat) (hcnt : b.length % 16 + cnt ≤ 16) :
    ∀ x, x < b.length % 16 + cnt →
      (memcpy st.mem32 (b.length % 16) m 0 cnt).getD x 0
        = (b ++ m).getD (b.length - b.length % 16 + x) 0 := by
  obtain ⟨-, -, -, hbl, hbuf, -⟩ := h
  intro x hx
  rw [getD_memcpy _ _ _ _ _ _ (by omega)]
  by_cases hc : b.length % 16 ≤ x ∧ x < b.length % 16 + cnt
  · rw [if_pos hc, Nat.zero_add, ← getD_append_right b m]
    congr 1
    omega
  · rw [if_neg hc, hbuf x (by omega), getD_append_left b m _ (by omega)]

/-- A chunk that fits into the buffer: the state tracks the longer input. -/
theorem Tracks32_small (seed : Nat) (b m : List BYTE) (st : LZ4_XXH32_state_t)
    (h : Tracks32 seed b st) (hs : b.length % 16 + m.length < 16) :
    Tracks32 seed (b ++ m) (XXH32_small (XXH32_count st m.length) m) := by
  obtain ⟨hc1, hc2⟩ := XXH32_count_spec seed b m st h
  have hbuf' := buf_after_copy32 seed b m st h m.length (by omega)
  obtain ⟨htot, hlarge, hms, hbl, hbuf, hlanes⟩ := h
  have hdiv : (b.length + m.length) / 16 = b.length / 16 := by omega
  have hmod : (b.length + m.length) % 16 = b.length % 16 + m.length := by omega
  refine ⟨hc1, hc2, ?_, ?_, ?_, ?_⟩
  · show (st.memsize + m.length % 2 ^ 32) % 2 ^ 32 = (b ++ m).length % 16
    rw [List.length_append, hms]
    omega
  · show (memcpy st.mem32 st.memsize m 0 m.length).length = 16
    rw [length_memcpy, hbl]
  · intro i hi
    rw [List.length_append, hmod] at hi
    show (memcpy st.mem32 st.memsize m 0 m.length).getD i 0 = _
    rw [hms, hbuf' i hi, List.length_append, hmod]
    congr 1
    omega
  · show (⟨16 * ((b ++ m).length / 16), st.v1, st.v2, st.v3, st.v4⟩ : Lanes) = _
    rw [List.length_append, hdiv, iterBlocks32_append seed b m _ (by omega)]
    exact hlanes

/-- The buffered block is completed and consumed: the lanes track `b ++ m` up to the end of
that block. -/
theorem Mid32_fill (seed : Nat) (b m : List BYTE) (st : LZ4_XXH32_state_t)
    (h : Tracks32 seed b st) (hs : 16 ≤ b.length % 16 + m.length) :
    Mid32 seed b m (XXH32_fill (XXH32_count st m.length) m) := by
  obtain ⟨hc1, hc2⟩ := XXH32_count_spec seed b m st h
  have hbuf' := buf_after_copy32 seed b m st h (16 - b.length % 16) (by omega)
  obtain ⟨htot, hlarge, hms, hbl, hbuf, hlanes⟩ := h
  have hms' : (XXH32_count st m.length).memsize = b.length % 16 := hms
  by_cases h0 : b.length % 16 = 0
  · have hf : XXH32_fill (XXH32_count st m.length) m = (0, XXH32_count st m.length) := by
      unfold XXH32_fill
      rw [if_neg (by rw [hms', h0]; exact fun hc => hc rfl)]
    rw [hf]
    refine ⟨Nat.zero_le _, by simpa using h0, hc1, hc2, by rw [hms', h0], hbl, ?_⟩
    show (⟨b.length + 0, st.v1, st.v2, st.v3, st.v4⟩ : Lanes) = _
    rw [Nat.add_zero, iterBlocks32_append seed b m _ (by omega), ← hlanes,
      show 16 * (b.length / 16) = b.length by omega]
  · have hfill : (2 ^ 32 + 16 - (XXH32_count st m.length).memsize) % 2 ^ 32
        = 16 - b.length % 16 := by
      rw [hms']; omega
    have hf : XXH32_fill (XXH32_count st m.length) m
        = ((2 ^ 32 + 16 - (XXH32_count st m.length).memsize) % 2 ^ 32,
            { XXH32_count st m.length with
              mem32 := memcpy st.mem32 (XXH32_count st m.length).memsize m 0
                ((2 ^ 32 + 16 - (XXH32_count st m.length).memsize) % 2 ^ 32)
              v1 := LZ4_XXH32_round st.v1
                (le32 (memcpy st.mem32 (XXH32_count st m.length).memsize m 0
                  ((2 ^ 32 + 16 - (XXH32_count st m.length).memsize) % 2 ^ 32)) 0)
              v2 := LZ4_XXH32_round st.v2
                (le32 (memcpy st.mem32 (XXH32_count st m.length).memsize m 0
                  ((2 ^ 32 + 16 - (XXH32_count st m.length).memsize) % 2 ^ 32)) 4)
              v3 := LZ4_XXH32_round st.v3
                (le32 (memcpy st.mem32 (XXH32_count st m.length).memsize m 0
                  ((2 ^ 32 + 16 - (XXH32_count st m.length).memsize) % 2 ^ 32)) 8)
              v4 := LZ4_XXH32_round st.v4
                (le32 (memcpy st.mem32 (XXH32_count st m.length).memsize m 0
                  ((2 ^ 32 + 16 - (XXH32_count st m.length).memsize) % 2 ^ 32)) 12)
              memsize := 0 }) := by
      unfold XXH32_fill
      rw [if_pos (by rw [hms']; exact h0)]
      rfl
    rw [hf, hfill, hms']
    refine ⟨by show 16 - b.length % 16 ≤ m.length; omega,
      by show (b.length + (16 - b.length % 16)) % 16 = 0; omega, hc1, hc2, rfl, ?_, ?_⟩
    · show (memcpy st.mem32 (b.length % 16) m 0 (16 - b.length % 16)).length = 16
      rw [length_memcpy, hbl]
    · have hrd : ∀ q, q + 4 ≤ 16 →
          le32 (memcpy st.mem32 (b.length % 16) m 0 (16 - b.length % 16)) q
            = le32 (b ++ m) (16 * (b.length / 16) + q) := by
        intro q hq
        apply le32_congr
        intro j hj
        rw [hbuf' (q + j) (by omega)]
        congr 1
        omega
      show (⟨b.length + (16 - b.length % 16), _, _, _, _⟩ : Lanes) = _
      rw [show (b.length + (16 - b.length % 16)) / 16 = b.length / 16 + 1 by omega,
        iterBlocks_add, iterBlocks32_append seed b m _ (by omega), ← hlanes,
        iterBlocks_succ]
      simp only [iterBlocks]
      rw [hrd 0 (by omega), hrd 4 (by omega), hrd 8 (by omega), hrd 12 (by omega)]
      simp only [Nat.add_zero, Nat.reduceMul]
      congr 1
      omega

/-- The block loop over the chunk: the lanes track `b ++ m` up to the new offset, and less
than one block of the chunk is left. -/
theorem Mid32_loop (seed : Nat) (b m : List BYTE) (ps : Nat × LZ4_XXH32_state_t)
    (h : Mid32 seed b m ps) :
    Mid32 seed b m (XXH32_loop m ps) ∧ m.length - (XXH32_loop m ps).1 < 16 := by
  obtain ⟨hle, hal, htot, hlarge, hms, hbl, hlanes⟩ := h
  by_cases hc : ps.1 + 16 ≤ m.length
  · have hloop := LZ4_XXH32_blockLoop_eq (fun p => le32 m p) (m.length - 16) m.length
      ⟨ps.1, ps.2.v1, ps.2.v2, ps.2.v3, ps.2.v4⟩ (by show ps.1 ≤ m.length - 16; omega)
      (by show (m.length - 16 - ps.1) / 16 + 1 ≤ m.length; omega)
    simp only at hloop
    generalize hj : (m.length - 16 - ps.1) / 16 + 1 = j at hloop
    have hf : XXH32_loop m ps
        = ((iterBlocks LZ4_XXH32_round 4 (fun p => le32 m p) j
              ⟨ps.1, ps.2.v1, ps.2.v2, ps.2.v3, ps.2.v4⟩).p,
            { ps.2 with
              v1 := (iterBlocks LZ4_XXH32_round 4 (fun p => le32 m p) j
                ⟨ps.1, ps.2.v1, ps.2.v2, ps.2.v3, ps.2.v4⟩).v1
              v2 := (iterBlocks LZ4_XXH32_round 4 (fun p => le32 m p) j
                ⟨ps.1, ps.2.v1, ps.2.v2, ps.2.v3, ps.2.v4⟩).v2
              v3 := (iterBlocks LZ4_XXH32_round 4 (fun p => le32 m p) j
                ⟨ps.1, ps.2.v1, ps.2.v2, ps.2.v3, ps.2.v4⟩).v3
              v4 := (iterBlocks LZ4_XXH32_round 4 (fun p => le32 m p) j
                ⟨ps.1, ps.2.v1, ps.2.v2, ps.2.v3, ps.2.v4⟩).v4 }) := by
      unfold XXH32_loop
      rw [if_pos hc]
      simp only [hloop]
    have hp := iterBlocks_p LZ4_XXH32_round 4 (fun p => le32 m p) j
      ⟨ps.1, ps.2.v1, ps.2.v2, ps.2.v3, ps.2.v4⟩
    simp only [Nat.reduceMul] at hp
    have hshift := iterBlocks_shift LZ4_XXH32_round 4 (fun p => le32 m p) (le32 (b ++ m))
      b.length j ⟨ps.1, ps.2.v1, ps.2.v2, ps.2.v3, ps.2.v4⟩ (by
        intro i _
        apply le32_congr
        intro x _
        show (b ++ m).getD (ps.1 + b.length + 4 * i + x) 0 = m.getD (ps.1 + 4 * i + x) 0
        rw [← getD_append_right b m]
        congr 1
        omega)
    simp only at hshift
    rw [hf]
    refine ⟨⟨by show (iterBlocks _ _ _ _ _).p ≤ _; rw [hp]; omega,
      by show (b.length + (iterBlocks _ _ _ _ _).p) % 16 = 0; rw [hp]; omega,
      htot, hlarge, hms, hbl, ?_⟩, by show _ - (iterBlocks _ _ _ _ _).p < 16; rw [hp]; omega⟩
    show (⟨b.length + (iterBlocks _ _ _ _ _).p, (iterBlocks _ _ _ _ _).v1,
      (iterBlocks _ _ _ _ _).v2, (iterBlocks _ _ _ _ _).v3, (iterBlocks _ _ _ _ _).v4⟩ : Lanes)
      = iterBlocks _ _ _ ((b.length + (iterBlocks _ _ _ _ _).p) / 16) _
    rw [Nat.add_comm b.length, ← hshift, hp,
      show (ps.1 + 16 * j + b.length) / 16 = (b.length + ps.1) / 16 + j by omega,
      iterBlocks_add, ← hlanes, Nat.add_comm ps.1]
  · have hf : XXH32_loop m ps = ps := by
      unfold XXH32_loop
      rw [if_neg hc]
    rw [hf]
    exact ⟨⟨hle, hal, htot, hlarge, hms, hbl, hlanes⟩, by omega⟩

/-- What is left of the chunk is buffered: the state tracks `b ++ m`. -/
theorem Tracks32_rest (seed : Nat) (b m : List BYTE) (ps : Nat × LZ4_XXH32_state_t)
    (h : Mid32 seed b m ps) (hlt : m.length - ps.1 < 16) :
    Tracks32 seed (b ++ m) (XXH32_rest m ps) := by
  obtain ⟨hle, hal, htot, hlarge, hms, hbl, hlanes⟩ := h
  have hlen : (b ++ m).length = b.length + m.length := List.length_append b m
  have hmod : (b.length + m.length) % 16 = m.length - ps.1 := by omega
  have hdiv : (b.length + m.length) / 16 = (b.length + ps.1) / 16 := by omega
  have hbase : 16 * ((b.length + ps.1) / 16) = b.length + ps.1 := by omega
  have hl : (⟨16 * ((b ++ m).length / 16), ps.2.v1, ps.2.v2, ps.2.v3, ps.2.v4⟩ : Lanes)
      = iterBlocks LZ4_XXH32_round 4 (le32 (b ++ m)) ((b ++ m).length / 16)
          (XXH32_initLanes seed) := by
    rw [hlen, hdiv, hbase]
    exact hlanes
  by_cases hc : ps.1 < m.length
  · have hf : XXH32_rest m ps
        = { ps.2 with
            mem32 := memcpy ps.2.mem32 0 m ps.1 (m.length - ps.1)
            memsize := (m.length - ps.1) % 2 ^ 32 } := by
      unfold XXH32_rest
      rw [if_pos hc]
    rw [hf]
    refine ⟨htot, hlarge, ?_, ?_, ?_, hl⟩
    · show (m.length - ps.1) % 2 ^ 32 = (b ++ m).length % 16
      rw [hlen, hmod]
      omega
    · show (memcpy ps.2.mem32 0 m ps.1 (m.length - ps.1)).length = 16
      rw [length_memcpy, hbl]
    · intro i hi
      rw [hlen, hmod] at hi
      show (memcpy ps.2.mem32 0 m ps.1 (m.length - ps.1)).getD i 0 = _
      rw [getD_memcpy _ _ _ _ _ _ (by omega), if_pos (by omega), hlen, hmod,
        ← getD_append_right b m]
      congr 1
      omega
  · have hf : XXH32_rest m ps = ps.2 := by
      unfold XXH32_rest
      rw [if_neg hc]
    rw [hf]
    refine ⟨htot, hlarge, ?_, hbl, ?_, hl⟩
    · rw [hms, hlen, hmod]
      omega
    · intro i hi
      rw [hlen, hmod] at hi
      omega

/-- One update with a well-formed chunk keeps the representation invariant. -/
theorem Tracks32_update (t : Target) (seed : Nat) (b : List BYTE) (st : LZ4_XXH32_state_t)
    (c : ConstPtr) (h : Tracks32 seed b st) (hwf : c.wellFormed)
    (hlen : b.length + c.mem.length < 2 ^ 64) :
    Tracks32 seed (b ++ c.mem) (LZ4_XXH32_update t st c c.mem.length).2 := by
  rw [LZ4_XXH32_update_dispatch]
  by_cases hnull : (t.accept_null_input_pointer && c.addr == 0) = true
  · have hc : c.mem = [] :=
      hwf (by simp only [Bool.and_eq_true, beq_iff_eq] at hnull; exact hnull.2)
    unfold LZ4_XXH32_update_endian
    rw [if_pos hnull, hc, List.append_nil]
    exact h
  · obtain ⟨a, m⟩ := c
    rw [LZ4_XXH32_update_endian_stages t st a m hnull]
    have hms := h.memsize
    by_cases hs : (st.memsize + m.length) % 2 ^ 64 < 16
    · rw [if_pos hs]
      exact Tracks32_small seed b m st h (by simp only at hlen; omega)
    · rw [if_neg hs]
      have hmid := Mid32_fill seed b m st h (by simp only at hlen; omega)
      obtain ⟨hmid', hlt⟩ := Mid32_loop seed b m _ hmid
      exact Tracks32_rest seed b m _ hmid' hlt

/-- Feeding well-formed chunks keeps the representation invariant. -/
theorem Tracks32_feed (t : Target) (seed : Nat) (chunks : List ConstPtr) :
    ∀ (b : List BYTE) (st : LZ4_XXH32_state_t), Tracks32 seed b st →
      (∀ c ∈ chunks, c.wellFormed) → (b ++ chunkBytes chunks).length < 2 ^ 64 →
      Tracks32 seed (b ++ chunkBytes chunks) (LZ4_XXH32_feed t st chunks) := by
  induction chunks with
  | nil =>
    intro b st h _ _
    simpa [chunkBytes, LZ4_XXH32_feed] using h
  | cons c cs ih =>
    intro b st h hwf hlen
    have hcb : chunkBytes (c :: cs) = c.mem ++ chunkBytes cs := rfl
    rw [hcb, ← List.append_assoc] at hlen ⊢
    have h1 := Tracks32_update t seed b st c h (hwf c (List.mem_cons_self _ _)) (by
      simp only [List.length_append] at hlen ⊢
      omega)
    exact ih (b ++ c.mem) _ h1 (fun c' hc' => hwf c' (List.mem_cons_of_mem _ hc')) hlen

/-! ### The 64-bit state -/

/-- The length counter after counting a chunk. -/
theorem XXH64_count_spec (seed : Nat) (b m : List BYTE) (st : LZ4_XXH64_state_t)
    (h : Tracks64 seed b st) :
    (XXH64_count st m.length).total_len = (b ++ m).length % 2 ^ 64 := by
  show (st.total_len + m.length) % 2 ^ 64 = _
  rw [h.total, List.length_append]
  omega

/-- The block rounds over `b ++ m` that stay inside `b` are the block rounds over `b`. -/
theorem iterBlocks64_append (seed : Nat) (b m : List BYTE) (k : Nat) (hk : 32 * k ≤ b.length) :
    iterBlocks LZ4_XXH64_round 8 (le64 (b ++ m)) k (XXH64_initLanes seed)
      = iterBlocks LZ4_XXH64_round 8 (le64 b) k (XXH64_initLanes seed) := by
  apply iterBlocks_congr
  intro i hi
  apply le64_congr
  intro j hj
  exact getD_append_left b m _ (by show 0 + 8 * i + j < b.length; omega)

/-- The buffer after appending `cnt` bytes of the chunk holds the bytes of `b ++ m` that
follow the last complete block of `b`. -/
theorem buf_after_copy64 (seed : Nat) (b m : List BYTE) (st : LZ4_XXH64_state_t)
    (h : Tracks64 seed b st) (cnt : Nat) (hcnt : b.length % 32 + cnt ≤ 32) :
    ∀ x, x < b.length % 32 + cnt →
      (memcpy st.mem64 (b.length % 32) m 0 cnt).getD x 0
        = (b ++ m).getD (b.length - b.length % 32 + x) 0 := by
  obtain ⟨-, -, hbl, hbuf, -⟩ := h
  intro x hx
  rw [getD_memcpy _ _ _ _ _ _ (by omega)]
  by_cases hc : b.length % 32 ≤ x ∧ x < b.length % 32 + cnt
  · rw [if_pos hc, Nat.zero_add, ← getD_append_right b m]
    congr 1
    omega
  · rw [if_neg hc, hbuf x (by omega), getD_append_left b m _ (by omega)]

/-- A chunk that fits into the buffer: the state tracks the longer input. -/
theorem Tracks64_small (seed : Nat) (b m : List BYTE) (st : LZ4_XXH64_state_t)
    (h : Tracks64 seed b st) (hs : b.length % 32 + m.length < 32) :
    Tracks64 seed (b ++ m) (XXH64_small (XXH64_count st m.length) m) := by
  have hc1 := XXH64_count_spec seed b m st h
  have hbuf' := buf_after_copy64 seed b m st h m.length (by omega)
  obtain ⟨htot, hms, hbl, hbuf, hlanes⟩ := h
  have hdiv : (b.length + m.length) / 32 = b.length / 32 := by omega
  have hmod : (b.length + m.length) % 32 = b.length % 32 + m.length := by omega
  refine ⟨hc1, ?_, ?_, ?_, ?_⟩
  · show (st.memsize + m.length % 2 ^ 32) % 2 ^ 32 = (b ++ m).length % 32
    rw [List.length_append, hms]
    omega
  · show (memcpy st.mem64 st.memsize m 0 m.length).length = 32
    rw [length_memcpy, hbl]
  · intro i hi
    rw [List.length_append, hmod] at hi
    show (memcpy st.mem64 st.memsize m 0 m.length).getD i 0 = _
    rw [hms, hbuf' i hi, List.length_append, hmod]
    congr 1
    omega
  · show (⟨32 * ((b ++ m).length / 32), st.v1, st.v2, st.v3, st.v4⟩ : Lanes) = _
    rw [List.length_append, hdiv, iterBlocks64_append seed b m _ (by omega)]
    exact hlanes

/-- The buffered block is completed and consumed: the lanes track `b ++ m` up to the end of
that block. -/
theorem Mid64_fill (seed : Nat) (b m : List BYTE) (st : LZ4_XXH64_state_t)
    (h : Tracks64 seed b st) (hs : 32 ≤ b.length % 32 + m.length) :
    Mid64 seed b m (XXH64_fill (XXH64_count st m.length) m) := by
  have hc1 := XXH64_count_spec seed b m st h
  have hbuf' := buf_after_copy64 seed b m st h (32 - b.length % 32) (by omega)
  obtain ⟨htot, hms, hbl, hbuf, hlanes⟩ := h
  have hms' : (XXH64_count st m.length).memsize = b.length % 32 := hms
  by_cases h0 : b.length % 32 = 0
  · have hf : XXH64_fill (XXH64_count st m.length) m = (0, XXH64_count st m.length) := by
      unfold XXH64_fill
      rw [if_neg (by rw [hms', h0]; exact fun hc => hc rfl)]
    rw [hf]
    refine ⟨Nat.zero_le _, by simpa using h0, hc1, by rw [hms', h0], hbl, ?_⟩
    show (⟨b.length + 0, st.v1, st.v2, st.v3, st.v4⟩ : Lanes) = _
    rw [Nat.add_zero, iterBlocks64_append seed b m _ (by omega), ← hlanes,
      show 32 * (b.length / 32) = b.length by omega]
  · have hfill : (2 ^ 32 + 32 - (XXH64_count st m.length).memsize) % 2 ^ 32
        = 32 - b.length % 32 := by
      rw [hms']; omega
    have hf : XXH64_fill (XXH64_count st m.length) m
        = ((2 ^ 32 + 32 - (XXH64_count st m.length).memsize) % 2 ^ 32,
            { XXH64_count st m.length with
              mem64 := memcpy st.mem64 (XXH64_count st m.length).memsize m 0
                ((2 ^ 32 + 32 - (XXH64_count st m.length).memsize) % 2 ^ 32)
              v1 := LZ4_XXH64_round st.v1
                (le64 (memcpy st.mem64 (XXH64_count st m.length).memsize m 0
                  ((2 ^ 32 + 32 - (XXH64_count st m.length).memsize) % 2 ^ 32)) 0)
              v2 := LZ4_XXH64_round st.v2
                (le64 (memcpy st.mem64 (XXH64_count st m.length).memsize m 0
                  ((2 ^ 32 + 32 - (XXH64_count st m.length).memsize) % 2 ^ 32)) 8)
              v3 := LZ4_XXH64_round st.v3
                (le64 (memcpy st.mem64 (XXH64_count st m.length).memsize m 0
                  ((2 ^ 32 + 32 - (XXH64_count st m.length).memsize) % 2 ^ 32)) 16)
              v4 := LZ4_XXH64_round st.v4
                (le64 (memcpy st.mem64 (XXH64_count st m.length).memsize m 0
                  ((2 ^ 32 + 32 - (XXH64_count st m.length).memsize) % 2 ^ 32)) 24)
              memsize := 0 }) := by
      unfold XXH64_fill
      rw [if_pos (by rw [hms']; exact h0)]
      rfl
    rw [hf, hfill, hms']
    refine ⟨by show 32 - b.length % 32 ≤ m.length; omega,
      by show (b.length + (32 - b.length % 32)) % 32 = 0; omega, hc1, rfl, ?_, ?_⟩
    · show (memcpy st.mem64 (b.length % 32) m 0 (32 - b.length % 32)).length = 32
      rw [length_memcpy, hbl]
    · have hrd : ∀ q, q + 8 ≤ 32 →
          le64 (memcpy st.mem64 (b.length % 32) m 0 (32 - b.length % 32)) q
            = le64 (b ++ m) (32 * (b.length / 32) + q) := by
        intro q hq
        apply le64_congr
        intro j hj
        rw [hbuf' (q + j) (by omega)]
        congr 1
        omega
      show (⟨b.length + (32 - b.length % 32), _, _, _, _⟩ : Lanes) = _
      rw [show (b.length + (32 - b.length % 32)) / 32 = b.length / 32 + 1 by omega,
        iterBlocks_add, iterBlocks64_append seed b m _ (by omega), ← hlanes,
        iterBlocks_succ]
      simp only [iterBlocks]
      rw [hrd 0 (by omega), hrd 8 (by omega), hrd 16 (by omega), hrd 24 (by omega)]
      simp only [Nat.add_zero, Nat.reduceMul]
      congr 1
      omega

/-- The block loop over the chunk: the lanes track `b ++ m` up to the new offset, and less
than one block of the chunk is left. -/
theorem Mid64_loop (seed : Nat) (b m : List BYTE) (ps : Nat × LZ4_XXH64_state_t)
    (h : Mid64 seed b m ps) :
    Mid64 seed b m (XXH64_loop m ps) ∧ m.length - (XXH64_loop m ps).1 < 32 := by
  obtain ⟨hle, hal, htot, hms, hbl, hlanes⟩ := h
  by_cases hc : ps.1 + 32 ≤ m.length
  · have hloop := LZ4_XXH64_blockLoop_eq (fun p => le64 m p) (m.length - 32) m.length
      ⟨ps.1, ps.2.v1, ps.2.v2, ps.2.v3, ps.2.v4⟩ (by show ps.1 ≤ m.length - 32; omega)
      (by show (m.length - 32 - ps.1) / 32 + 1 ≤ m.length; omega)
    simp only at hloop
    generalize hj : (m.length - 32 - ps.1) / 32 + 1 = j at hloop
    have hf : XXH64_loop m ps
        = ((iterBlocks LZ4_XXH64_round 8 (fun p => le64 m p) j
              ⟨ps.1, ps.2.v1, ps.2.v2, ps.2.v3, ps.2.v4⟩).p,
            { ps.2 with
              v1 := (iterBlocks LZ4_XXH64_round 8 (fun p => le64 m p) j
                ⟨ps.1, ps.2.v1, ps.2.v2, ps.2.v3, ps.2.v4⟩).v1
              v2 := (iterBlocks LZ4_XXH64_round 8 (fun p => le64 m p) j
                ⟨ps.1, ps.2.v1, ps.2.v2, ps.2.v3, ps.2.v4⟩).v2
              v3 := (iterBlocks LZ4_XXH64_round 8 (fun p => le64 m p) j
                ⟨ps.1, ps.2.v1, ps.2.v2, ps.2.v3, ps.2.v4⟩).v3
              v4 := (iterBlocks LZ4_XXH64_round 8 (fun p => le64 m p) j
                ⟨ps.1, ps.2.v1, ps.2.v2, ps.2.v3, ps.2.v4⟩).v4 }) := by
      unfold XXH64_loop
      rw [if_pos hc]
      simp only [hloop]
    have hp := iterBlocks_p LZ4_XXH64_round 8 (fun p => le64 m p) j
      ⟨ps.1, ps.2.v1, ps.2.v2, ps.2.v3, ps.2.v4⟩
    simp only [Nat.reduceMul] at hp
    have hshift := iterBlocks_shift LZ4_XXH64_round 8 (fun p => le64 m p) (le64 (b ++ m))
      b.length j ⟨ps.1, ps.2.v1, ps.2.v2, ps.2.v3, ps.2.v4⟩ (by
        intro i _
        apply le64_congr
        intro x _
        show (b ++ m).getD (ps.1 + b.length + 8 * i + x) 0 = m.getD (ps.1 + 8 * i + x) 0
        rw [← getD_append_right b m]
        congr 1
        omega)
    simp only at hshift
    rw [hf]
    refine ⟨⟨by show (iterBlocks _ _ _ _ _).p ≤ _; rw [hp]; omega,
      by show (b.length + (iterBlocks _ _ _ _ _).p) % 32 = 0; rw [hp]; omega,
      htot, hms, hbl, ?_⟩, by show _ - (iterBlocks _ _ _ _ _).p < 32; rw [hp]; omega⟩
    show (⟨b.length + (iterBlocks _ _ _ _ _).p, (iterBlocks _ _ _ _ _).v1,
      (iterBlocks _ _ _ _ _).v2, (iterBlocks _ _ _ _ _).v3, (iterBlocks _ _ _ _ _).v4⟩ : Lanes)
      = iterBlocks _ _ _ ((b.length + (iterBlocks _ _ _ _ _).p) / 32) _
    rw [Nat.add_comm b.length, ← hshift, hp,
      show (ps.1 + 32 * j + b.length) / 32 = (b.length + ps.1) / 32 + j by omega,
      iterBlocks_add, ← hlanes, Nat.add_comm ps.1]
  · have hf : XXH64_loop m ps = ps := by
      unfold XXH64_loop
      rw [if_neg hc]
    rw [hf]
    exact ⟨⟨hle, hal, htot, hms, hbl, hlanes⟩, by omega⟩

/-- What is left of the chunk is buffered: the state tracks `b ++ m`. -/
theorem Tracks64_rest (seed : Nat) (b m : List BYTE) (ps : Nat × LZ4_XXH64_state_t)
    (h : Mid64 seed b m ps) (hlt : m.length - ps.1 < 32) :
    Tracks64 seed (b ++ m) (XXH64_rest m ps) := by
  obtain ⟨hle, hal, htot, hms, hbl, hlanes⟩ := h
  have hlen : (b ++ m).length = b.length + m.length := List.length_append b m
  have hmod : (b.length + m.length) % 32 = m.length - ps.1 := by omega
  have hdiv : (b.length + m.length) / 32 = (b.length + ps.1) / 32 := by omega
  have hbase : 32 * ((b.length + ps.1) / 32) = b.length + ps.1 := by omega
  have hl : (⟨32 * ((b ++ m).length / 32), ps.2.v1, ps.2.v2, ps.2.v3, ps.2.v4⟩ : Lanes)
      = iterBlocks LZ4_XXH64_round 8 (le64 (b ++ m)) ((b ++ m).length / 32)
          (XXH64_initLanes seed) := by
    rw [hlen, hdiv, hbase]
    exact hlanes
  by_cases hc : ps.1 < m.length
  · have hf : XXH64_rest m ps
        = { ps.2 with
            mem64 := memcpy ps.2.mem64 0 m ps.1 (m.length - ps.1)
            memsize := (m.length - ps.1) % 2 ^ 32 } := by
      unfold XXH64_rest
      rw [if_pos hc]
    rw [hf]
    refine ⟨htot, ?_, ?_, ?_, hl⟩
    · show (m.length - ps.1) % 2 ^ 32 = (b ++ m).length % 32
      rw [hlen, hmod]
      omega
    · show (memcpy ps.2.mem64 0 m ps.1 (m.length - ps.1)).length = 32
      rw [length_memcpy, hbl]
    · intro i hi
      rw [hlen, hmod] at hi
      show (memcpy ps.2.mem64 0 m ps.1 (m.length - ps.1)).getD i 0 = _
      rw [getD_memcpy _ _ _ _ _ _ (by omega), if_pos (by omega), hlen, hmod,
        ← getD_append_right b m]
      congr 1
      omega
  · have hf : XXH64_rest m ps = ps.2 := by
      unfold XXH64_rest
      rw [if_neg hc]
    rw [hf]
    refine ⟨htot, ?_, hbl, ?_, hl⟩
    · rw [hms, hlen, hmod]
      omega
    · intro i hi
      rw [hlen, hmod] at hi
      omega

/-- One update with a well-formed chunk keeps the representation invariant. -/
theorem Tracks64_update (t : Target) (seed : Nat) (b : List BYTE) (st : LZ4_XXH64_state_t)
    (c : ConstPtr) (h : Tracks64 seed b st) (hwf : c.wellFormed)
    (hlen : b.length + c.mem.length < 2 ^ 64) :
    Tracks64 seed (b ++ c.mem) (LZ4_XXH64_update t st c c.mem.length).2 := by
  rw [LZ4_XXH64_update_dispatch]
  by_cases hnull : (t.accept_null_input_pointer && c.addr == 0) = true
  · have hc : c.mem = [] :=
      hwf (by simp only [Bool.and_eq_true, beq_iff_eq] at hnull; exact hnull.2)
    unfold LZ4_XXH64_update_endian
    rw [if_pos hnull, hc, List.append_nil]
    exact h
  · obtain ⟨a, m⟩ := c
    rw [LZ4_XXH64_update_endian_stages t st a m hnull]
    have hms := h.memsize
    by_cases hs : (st.memsize + m.length) % 2 ^ 64 < 32
    · rw [if_pos hs]
      exact Tracks64_small seed b m st h (by simp only at hlen; omega)
    · rw [if_neg hs]
      have hmid := Mid64_fill seed b m st h (by simp only at hlen; omega)
      obtain ⟨hmid', hlt⟩ := Mid64_loop seed b m _ hmid
      exact Tracks64_rest seed b m _ hmid' hlt

/-- Feeding well-formed chunks keeps the representation invariant. -/
theorem Tracks64_feed (t : Target) (seed : Nat) (chunks : List ConstPtr) :
    ∀ (b : List BYTE) (st : LZ4_XXH64_state_t), Tracks64 seed b st →
      (∀ c ∈ chunks, c.wellFormed) → (b ++ chunkBytes chunks).length < 2 ^ 64 →
      Tracks64 seed (b ++ chunkBytes chunks) (LZ4_XXH64_feed t st chunks) := by
  induction chunks with
  | nil =>
    intro b st h _ _
    simpa [chunkBytes, LZ4_XXH64_feed] using h
  | cons c cs ih =>
    intro b st h hwf hlen
    have hcb : chunkBytes (c :: cs) = c.mem ++ chunkBytes cs := rfl
    rw [hcb, ← List.append_assoc] at hlen ⊢
    have h1 := Tracks64_update t seed b st c h (hwf c (List.mem_cons_self _ _)) (by
      simp only [List.length_append] at hlen ⊢
      omega)
    exact ih (b ++ c.mem) _ h1 (fun c' hc' => hwf c' (List.mem_cons_of_mem _ hc')) hlen

/-- The digest of a 64-bit state that tracks `b` (shorter than `2^64` bytes) is the
unrolled one-shot hash of `b`. -/
theorem LZ4_XXH64_digest_eq_unrolled (t : Target) (seed : Nat) (b : List BYTE)
    (st : LZ4_XXH64_state_t) (h : Tracks64 seed b st) (hlen : b.length < 2 ^ 64) :
    LZ4_XXH64_digest t st = XXH64_unrolled b seed := by
  obtain ⟨htot, hms, hbl, hbuf, hlanes⟩ := h
  rw [LZ4_XXH64_digest_dispatch]
  unfold LZ4_XXH64_digest_endian
  simp only [readLE32_eq_le32, readLE64_eq_le64]
  rw [LZ4_XXH64_tailWords_eq _ _ _ _ _ (by omega)]
  simp only
  rw [LZ4_XXH64_tailWord32_eq]
  simp only
  rw [LZ4_XXH64_tailBytes_eq _ _ _ _ _ (by split <;> omega)]
  simp only [XXH64_unrolled]
  generalize hn : b.length = n at *
  have hv1 := congrArg Lanes.v1 hlanes
  have hv2 := congrArg Lanes.v2 hlanes
  have hv3 := congrArg Lanes.v3 hlanes
  have hv4 := congrArg Lanes.v4 hlanes
  simp only at hv1 hv2 hv3 hv4
  have htot' : st.total_len = n := by rw [htot]; omega
  have hacc : (if st.total_len ≥ 32 then LZ4_XXH64_converge st.v1 st.v2 st.v3 st.v4
      else (st.v3 + PRIME64_5) % 2 ^ 64)
      = (if 32 ≤ n then
          LZ4_XXH64_converge
            (iterBlocks LZ4_XXH64_round 8 (le64 b) (n / 32) (XXH64_initLanes seed)).v1
            (iterBlocks LZ4_XXH64_round 8 (le64 b) (n / 32) (XXH64_initLanes seed)).v2
            (iterBlocks LZ4_XXH64_round 8 (le64 b) (n / 32) (XXH64_initLanes seed)).v3
            (iterBlocks LZ4_XXH64_round 8 (le64 b) (n / 32) (XXH64_initLanes seed)).v4
        else (seed + PRIME64_5) % 2 ^ 64) := by
    rw [htot']
    by_cases h32 : 32 ≤ n
    · rw [if_pos h32, if_pos h32, ← hv1, ← hv2, ← hv3, ← hv4]
    · rw [if_neg h32, if_neg h32, hv3, show n / 32 = 0 by omega]
      show ((seed + 0) % 2 ^ 64 + PRIME64_5) % 2 ^ 64 = (seed + PRIME64_5) % 2 ^ 64
      omega
  rw [hacc, htot, hms]
  have hw : ∀ H, iterTail XXH64_wordStep 8 (le64 b) (n % 32 / 8) (0 + 32 * (n / 32)) H
      = iterTail XXH64_wordStep 8 (fun p => le64 st.mem64 p) (n % 32 / 8) 0 H := by
    intro H
    apply iterTail_shift
    intro i hi
    apply le64_congr
    intro j hj
    rw [hbuf (0 + 8 * i + j) (by omega)]
    congr 1
    omega
  have hw32 : ∀ H, iterTail XXH64_word32Step 4 (le32 b) (if 4 ≤ n % 8 then 1 else 0)
        (8 * (n % 32 / 8) + 32 * (n / 32)) H
      = iterTail XXH64_word32Step 4 (fun p => le32 st.mem64 p) (if 4 ≤ n % 8 then 1 else 0)
          (8 * (n % 32 / 8)) H := by
    intro H
    apply iterTail_shift
    intro i hi
    have hi' : i = 0 ∧ 4 ≤ n % 8 := by
      split at hi <;> omega
    apply le32_congr
    intro j hj
    rw [hbuf (8 * (n % 32 / 8) + 4 * i + j) (by omega)]
    congr 1
    omega
  have hb : ∀ H, iterTail XXH64_byteStep 1 (byteAt b) (n % 4)
        (n % 32 - n % 4 + 32 * (n / 32)) H
      = iterTail XXH64_byteStep 1 (byteAt st.mem64) (n % 4) (n % 32 - n % 4) H := by
    intro H
    apply iterTail_shift
    intro i hi
    apply byteAt_congr
    rw [hbuf (n % 32 - n % 4 + 1 * i) (by omega)]
    congr 1
    omega
  rw [Nat.zero_add] at hw
  have e1 : (n % 32 - 0) / 8 = n % 32 / 8 := by omega
  have e2 : (8 * (n % 32 / 8) + 4 ≤ n % 32) = (4 ≤ n % 8) := by
    apply propext; constructor <;> intro h <;> omega
  have e3 : 0 + 8 * (n % 32 / 8) = 8 * (n % 32 / 8) := by omega
  simp only [e1, e3]
  simp only [e2]
  have e4 : n % 32 - (8 * (n % 32 / 8) + 4 * (if 4 ≤ n % 8 then 1 else 0)) = n % 4 := by
    split <;> omega
  have e5 : 8 * (n % 32 / 8) + 4 * (if 4 ≤ n % 8 then 1 else 0) = n % 32 - n % 4 := by
    split <;> omega
  rw [e4, e5, hw, show n - n % 8 = 8 * (n % 32 / 8) + 32 * (n / 32) by omega, hw32,
    show n - n % 4 = n % 32 - n % 4 + 32 * (n / 32) by omega, hb]

/-! ## Streaming equals one-shot -/

/-- C1: for every target, every seed and every list of well-formed chunks whose bytes
concatenate to the bytes of a well-formed input shorter than `2^64`, the digest of the
state obtained by `LZ4_XXH32_reset(seed)` (from any prior state) and one
`LZ4_XXH32_update` per chunk equals `LZ4_XXH32` of the input with its length and the
same seed. -/
theorem LZ4_XXH32_streaming_eq_oneshot (t : Target) (seed : Nat) (s0 : LZ4_XXH32_state_t)
    (chunks : List ConstPtr) (input : ConstPtr) (hchunks : ∀ c ∈ chunks, c.wellFormed)
    (hinput : input.wellFormed) (hcat : chunkBytes chunks = input.mem)
    (hlen : input.mem.length < 2 ^ 64) :
    LZ4_XXH32_digest t (LZ4_XXH32_feed t (LZ4_XXH32_reset s0 seed).2 chunks)
      = LZ4_XXH32 t input input.mem.length seed := by
  have h := Tracks32_feed t seed chunks [] _ (Tracks32_reset s0 seed) hchunks
    (by rw [List.nil_append, hcat]; exact hlen)
  rw [List.nil_append, hcat] at h
  rw [LZ4_XXH32_digest_eq_unrolled t seed input.mem _ h, LZ4_XXH32_eq_unrolled t input seed hinput]

theorem LZ4_XXH32_streaming_eq_oneshot_witness :
    chunkBytes [⟨4096, bytes_00_63.take 3⟩, ⟨0, []⟩, ⟨5000, bytes_00_63.drop 3⟩] = bytes_00_63
      ∧ LZ4_XXH32_digest ⟨false, true, false⟩
          (LZ4_XXH32_feed ⟨false, true, false⟩
            (LZ4_XXH32_reset ⟨1, 2, 3, 4, 5, 6, [], 7⟩ 7).2
            [⟨4096, bytes_00_63.take 3⟩, ⟨0, []⟩, ⟨5000, bytes_00_63.drop 3⟩])
        = LZ4_XXH32 ⟨false, true, false⟩ ⟨4096, bytes_00_63⟩ 100 7 :=
  ⟨by decide,
    LZ4_XXH32_streaming_eq_oneshot ⟨false, true, false⟩ 7 ⟨1, 2, 3, 4, 5, 6, [], 7⟩
      [⟨4096, bytes_00_63.take 3⟩, ⟨0, []⟩, ⟨5000, bytes_00_63.drop 3⟩] ⟨4096, bytes_00_63⟩
      (by simp [ConstPtr.wellFormed]) (by simp [ConstPtr.wellFormed]) (by decide) (by decide)⟩

/-- C2: for every target, every seed and every list of well-formed chunks whose bytes
concatenate to the bytes of a well-formed input shorter than `2^64`, the digest of the
state obtained by `LZ4_XXH64_reset(seed)` (from any prior state) and one
`LZ4_XXH64_update` per chunk equals `LZ4_XXH64` of the input with its length and the
same seed. -/
theorem LZ4_XXH64_streaming_eq_oneshot (t : Target) (seed : Nat) (s0 : LZ4_XXH64_state_t)
    (chunks : List ConstPtr) (input : ConstPtr) (hchunks : ∀ c ∈ chunks, c.wellFormed)
    (hinput : input.wellFormed) (hcat : chunkBytes chunks = input.mem)
    (hlen : input.mem.length < 2 ^ 64) :
    LZ4_XXH64_digest t (LZ4_XXH64_feed t (LZ4_XXH64_reset s0 seed).2 chunks)
      = LZ4_XXH64 t input input.mem.length seed := by
  have h := Tracks64_feed t seed chunks [] _ (Tracks64_reset s0 seed) hchunks
    (by rw [List.nil_append, hcat]; exact hlen)
  rw [List.nil_append, hcat] at h
  rw [LZ4_XXH64_digest_eq_unrolled t seed input.mem _ h hlen,
    LZ4_XXH64_eq_unrolled t input seed hinput]

theorem LZ4_XXH64_streaming_eq_oneshot_witness :
    chunkBytes [⟨4096, bytes_00_63.take 40⟩, ⟨0, []⟩, ⟨5000, bytes_00_63.drop 40⟩]
        = bytes_00_63
      ∧ LZ4_XXH64_digest ⟨false, true, true⟩
          (LZ4_XXH64_feed ⟨false, true, true⟩
            (LZ4_XXH64_reset ⟨1, 2, 3, 4, 5, [], 6⟩ 7).2
            [⟨4096, bytes_00_63.take 40⟩, ⟨0, []⟩, ⟨5000, bytes_00_63.drop 40⟩])
        = LZ4_XXH64 ⟨false, true, true⟩ ⟨4096, bytes_00_63⟩ 100 7 :=
  ⟨by decide,
    LZ4_XXH64_streaming_eq_oneshot ⟨false, true, true⟩ 7 ⟨1, 2, 3, 4, 5, [], 6⟩
      [⟨4096, bytes_00_63.take 40⟩, ⟨0, []⟩, ⟨5000, bytes_00_63.drop 40⟩] ⟨4096, bytes_00_63⟩
      (by simp [ConstPtr.wellFormed]) (by simp [ConstPtr.wellFormed]) (by decide) (by decide)⟩

/-! ## The specification's algorithm and the unrolled functions -/

theorem drop_four (b : List BYTE) (q : Nat) (h : q + 4 ≤ b.length) :
    b.drop q = b.getD q 0 :: b.getD (q + 1) 0 :: b.getD (q + 2) 0 :: b.getD (q + 3) 0
      :: b.drop (q + 4) := by
  have e : ∀ i, i < b.length → b.drop i = b.getD i 0 :: b.drop (i + 1) := by
    intro i hi
    rw [List.drop_eq_getElem_cons hi, List.getD_eq_getElem?_getD,
      List.getElem?_eq_getElem hi]
    rfl
  rw [e q (by omega), e (q + 1) (by omega), e (q + 2) (by omega), e (q + 3) (by omega)]

theorem word32_drop (b : List BYTE) (q : Nat) (h : q + 4 ≤ b.length) :
    word32 (b.drop q) = le32 b q := by
  rw [drop_four b q h]
  rfl

theorem word64_drop (b : List BYTE) (q : Nat) (h : q + 8 ≤ b.length) :
    word64 (b.drop q) = le64 b q := by
  rw [drop_four b q (by omega), drop_four b (q + 4) (by omega)]
  rfl

theorem round32_eq (acc w : Nat) : round32 acc w = LZ4_XXH32_round acc w := by
  simp only [round32, LZ4_XXH32_round, P32_1, P32_2, PRIME32_1, PRIME32_2, Nat.add_mod_mod]

theorem round64_eq (acc w : Nat) : round64 acc w = LZ4_XXH64_round acc w := by
  simp only [round64, LZ4_XXH64_round, P64_1, P64_2, PRIME64_1, PRIME64_2, Nat.add_mod_mod]

theorem merge64_eq (acc v : Nat) : merge64 acc v = LZ4_XXH64_mergeRound acc v := by
  simp only [merge64, LZ4_XXH64_mergeRound, round64_eq, P64_1, P64_4, PRIME64_1, PRIME64_4,
    Nat.mod_add_mod]

theorem blocks32_eq (b : List BYTE) :
    ∀ (k : Nat) (v : Quad) (p : Nat), p + 16 * k ≤ b.length →
      blocks32 k v (b.drop p)
        = ⟨(iterBlocks LZ4_XXH32_round 4 (le32 b) k ⟨p, v.v1, v.v2, v.v3, v.v4⟩).v1,
            (iterBlocks LZ4_XXH32_round 4 (le32 b) k ⟨p, v.v1, v.v2, v.v3, v.v4⟩).v2,
            (iterBlocks LZ4_XXH32_round 4 (le32 b) k ⟨p, v.v1, v.v2, v.v3, v.v4⟩).v3,
            (iterBlocks LZ4_XXH32_round 4 (le32 b) k ⟨p, v.v1, v.v2, v.v3, v.v4⟩).v4⟩ := by
  intro k
  induction k with
  | zero => intro v p _; rfl
  | succ k ih =>
    intro v p hp
    rw [blocks32, List.drop_drop, List.drop_drop, List.drop_drop, List.drop_drop,
      word32_drop b p (by omega), word32_drop b _ (by omega), word32_drop b _ (by omega),
      word32_drop b _ (by omega), round32_eq, round32_eq, round32_eq, round32_eq,
      ih _ _ (by omega), iterBlocks_succ]

theorem blocks64_eq (b : List BYTE) :
    ∀ (k : Nat) (v : Quad) (p : Nat), p + 32 * k ≤ b.length →
      blocks64 k v (b.drop p)
        = ⟨(iterBlocks LZ4_XXH64_round 8 (le64 b) k ⟨p, v.v1, v.v2, v.v3, v.v4⟩).v1,
            (iterBlocks LZ4_XXH64_round 8 (le64 b) k ⟨p, v.v1, v.v2, v.v3, v.v4⟩).v2,
            (iterBlocks LZ4_XXH64_round 8 (le64 b) k ⟨p, v.v1, v.v2, v.v3, v.v4⟩).v3,
            (iterBlocks LZ4_XXH64_round 8 (le64 b) k ⟨p, v.v1, v.v2, v.v3, v.v4⟩).v4⟩ := by
  intro k
  induction k with
  | zero => intro v p _; rfl
  | succ k ih =>
    intro v p hp
    rw [blocks64, List.drop_drop, List.drop_drop, List.drop_drop, List.drop_drop,
      word64_drop b p (by omega), word64_drop b _ (by omega), word64_drop b _ (by omega),
      word64_drop b _ (by omega), round64_eq, round64_eq, round64_eq, round64_eq,
      ih _ _ (by omega), iterBlocks_succ]

theorem tail32_words_eq (b : List BYTE) :
    ∀ (k h p : Nat), p + 4 * k ≤ b.length →
      tail32_words k h (b.drop p) = iterTail XXH32_wordStep 4 (le32 b) k p h := by
  intro k
  induction k with
  | zero => intro h p _; rfl
  | succ k ih =>
    intro h p hp
    rw [tail32_words, List.drop_drop, word32_drop b p (by omega),
      ih _ _ (by omega), iterTail_succ]
    simp only [XXH32_wordStep, P32_3, P32_4, PRIME32_3, PRIME32_4, Nat.add_mod_mod]

theorem tail32_bytes_eq (b : List BYTE) :
    ∀ (k h p : Nat), p + k = b.length →
      tail32_bytes h (b.drop p) = iterTail XXH32_byteStep 1 (byteAt b) k p h := by
  intro k
  induction k with
  | zero =>
    intro h p hp
    rw [List.drop_of_length_le (by omega)]
    rfl
  | succ k ih =>
    intro h p hp
    have e : b.drop p = b.getD p 0 :: b.drop (p + 1) := by
      rw [List.drop_eq_getElem_cons (by omega), List.getD_eq_getElem?_getD,
        List.getElem?_eq_getElem (by omega)]
      rfl
    rw [e, tail32_bytes, ih _ _ (by omega), iterTail_succ]
    simp only [XXH32_byteStep, byteAt, P32_5, P32_1, PRIME32_5, PRIME32_1, Nat.add_mod_mod]

theorem tail64_words_eq (b : List BYTE) :
    ∀ (k h p : Nat), p + 8 * k ≤ b.length →
      tail64_words k h (b.drop p) = iterTail XXH64_wordStep 8 (le64 b) k p h := by
  intro k
  induction k with
  | zero => intro h p _; rfl
  | succ k ih =>
    intro h p hp
    rw [tail64_words, List.drop_drop, word64_drop b p (by omega),
      ih _ _ (by omega), iterTail_succ, round64_eq]
    simp only [XXH64_wordStep, P64_1, P64_4, PRIME64_1, PRIME64_4, Nat.mod_add_mod]

theorem tail64_bytes_eq (b : List BYTE) :
    ∀ (k h p : Nat), p + k = b.length →
      tail64_bytes h (b.drop p) = iterTail XXH64_byteStep 1 (byteAt b) k p h := by
  intro k
  induction k with
  | zero =>
    intro h p hp
    rw [List.drop_of_length_le (by omega)]
    rfl
  | succ k ih =>
    intro h p hp
    have e : b.drop p = b.getD p 0 :: b.drop (p + 1) := by
      rw [List.drop_eq_getElem_cons (by omega), List.getD_eq_getElem?_getD,
        List.getElem?_eq_getElem (by omega)]
      rfl
    rw [e, tail64_bytes, ih _ _ (by omega), iterTail_succ]
    rfl

theorem avalanche32_eq (h : Nat) : avalanche32 h = LZ4_XXH32_avalanche h := rfl

theorem avalanche64_eq (h : Nat) : avalanche64 h = LZ4_XXH64_avalanche h := rfl

theorem hash32_spec_eq_unrolled (b : List BYTE) (seed : Nat) :
    hash32_spec b seed = XXH32_unrolled b seed := by
  unfold hash32_spec XXH32_unrolled
  simp only
  generalize hn : b.length = n
  have hr : (b.drop (n - n % 16)).length = n % 16 := by
    rw [List.length_drop, hn]; omega
  have hblocks : 16 ≤ n → blocks32 (n / 16) (initLanes32 seed) b
      = ⟨(iterBlocks LZ4_XXH32_round 4 (le32 b) (n / 16) (XXH32_initLanes seed)).v1,
          (iterBlocks LZ4_XXH32_round 4 (le32 b) (n / 16) (XXH32_initLanes seed)).v2,
          (iterBlocks LZ4_XXH32_round 4 (le32 b) (n / 16) (XXH32_initLanes seed)).v3,
          (iterBlocks LZ4_XXH32_round 4 (le32 b) (n / 16) (XXH32_initLanes seed)).v4⟩ := by
    intro _
    have := blocks32_eq b (n / 16) (initLanes32 seed) 0 (by omega)
    rw [List.drop_zero] at this
    exact this
  have hh0 : (if n < 16 then (seed + P32_5) % 2 ^ 32
      else
        (LZ4_XXH_rotl32 (blocks32 (n / 16) (initLanes32 seed) b).v1 1
          + LZ4_XXH_rotl32 (blocks32 (n / 16) (initLanes32 seed) b).v2 7
          + LZ4_XXH_rotl32 (blocks32 (n / 16) (initLanes32 seed) b).v3 12
          + LZ4_XXH_rotl32 (blocks32 (n / 16) (initLanes32 seed) b).v4 18) % 2 ^ 32)
      = (if 16 ≤ n then
          (LZ4_XXH_rotl32 (iterBlocks LZ4_XXH32_round 4 (le32 b) (n / 16)
              (XXH32_initLanes seed)).v1 1
            + LZ4_XXH_rotl32 (iterBlocks LZ4_XXH32_round 4 (le32 b) (n / 16)
              (XXH32_initLanes seed)).v2 7
            + LZ4_XXH_rotl32 (iterBlocks LZ4_XXH32_round 4 (le32 b) (n / 16)
              (XXH32_initLanes seed)).v3 12
            + LZ4_XXH_rotl32 (iterBlocks LZ4_XXH32_round 4 (le32 b) (n / 16)
              (XXH32_initLanes seed)).v4 18) % 2 ^ 32
        else (seed + PRIME32_5) % 2 ^ 32) := by
    by_cases h16 : 16 ≤ n
    · rw [if_neg (by omega), if_pos h16, hblocks h16]
    · rw [if_pos (by omega), if_neg h16]
      rfl
  rw [hh0, avalanche32_eq]
  unfold tail32
  rw [hr, List.drop_drop, tail32_words_eq b _ _ _ (by omega),
    show n - n % 16 + 4 * (n % 16 / 4) = n - n % 4 by omega,
    tail32_bytes_eq b (n % 4) _ _ (by omega),
    show n - n % 16 = 16 * (n / 16) by omega]

theorem iterTail_zero (step : Nat → Nat → Nat) (w : Nat) (rd : Nat → Nat) (p h : Nat) :
    iterTail step w rd 0 p h = h := rfl

theorem word32Step_eq (h w : Nat) :
    (LZ4_XXH_rotl64 (h ^^^ ((w * P64_1) % 2 ^ 64)) 23 * P64_2 + P64_3) % 2 ^ 64
      = XXH64_word32Step h w := by
  unfold XXH64_word32Step
  simp only [P64_1, P64_2, P64_3, PRIME64_1, PRIME64_2, PRIME64_3, Nat.mod_add_mod]

theorem hash64_spec_eq_unrolled (b : List BYTE) (seed : Nat) :
    hash64_spec b seed = XXH64_unrolled b seed := by
  unfold hash64_spec XXH64_unrolled
  simp only
  generalize hn : b.length = n
  have hr : (b.drop (n - n % 32)).length = n % 32 := by
    rw [List.length_drop, hn]; omega
  have hblocks : 32 ≤ n → blocks64 (n / 32) (initLanes64 seed) b
      = ⟨(iterBlocks LZ4_XXH64_round 8 (le64 b) (n / 32) (XXH64_initLanes seed)).v1,
          (iterBlocks LZ4_XXH64_round 8 (le64 b) (n / 32) (XXH64_initLanes seed)).v2,
          (iterBlocks LZ4_XXH64_round 8 (le64 b) (n / 32) (XXH64_initLanes seed)).v3,
          (iterBlocks LZ4_XXH64_round 8 (le64 b) (n / 32) (XXH64_initLanes seed)).v4⟩ := by
    intro _
    have := blocks64_eq b (n / 32) (initLanes64 seed) 0 (by omega)
    rw [List.drop_zero] at this
    exact this
  have hh0 : (if n < 32 then (seed + P64_5) % 2 ^ 64
      else
        merge64 (merge64 (merge64 (merge64
          ((LZ4_XXH_rotl64 (blocks64 (n / 32) (initLanes64 seed) b).v1 1
            + LZ4_XXH_rotl64 (blocks64 (n / 32) (initLanes64 seed) b).v2 7
            + LZ4_XXH_rotl64 (blocks64 (n / 32) (initLanes64 seed) b).v3 12
            + LZ4_XXH_rotl64 (blocks64 (n / 32) (initLanes64 seed) b).v4 18) % 2 ^ 64)
          (blocks64 (n / 32) (initLanes64 seed) b).v1)
          (blocks64 (n / 32) (initLanes64 seed) b).v2)
          (blocks64 (n / 32) (initLanes64 seed) b).v3)
          (blocks64 (n / 32) (initLanes64 seed) b).v4)
      = (if 32 ≤ n then
          LZ4_XXH64_converge
            (iterBlocks LZ4_XXH64_round 8 (le64 b) (n / 32) (XXH64_initLanes seed)).v1
            (iterBlocks LZ4_XXH64_round 8 (le64 b) (n / 32) (XXH64_initLanes seed)).v2
            (iterBlocks LZ4_XXH64_round 8 (le64 b) (n / 32) (XXH64_initLanes seed)).v3
            (iterBlocks LZ4_XXH64_round 8 (le64 b) (n / 32) (XXH64_initLanes seed)).v4
        else (seed + PRIME64_5) % 2 ^ 64) := by
    by_cases h32 : 32 ≤ n
    · rw [if_neg (by omega), if_pos h32, hblocks h32, merge64_eq, merge64_eq, merge64_eq,
        merge64_eq]
      rfl
    · rw [if_pos (by omega), if_neg h32]
      rfl
  rw [hh0, avalanche64_eq, ← Nat.add_mod_mod _ n]
  unfold tail64
  simp only
  rw [hr, List.drop_drop, List.length_drop, hn, tail64_words_eq b _ _ _ (by omega),
    show n - n % 32 + 8 * (n % 32 / 8) = n - n % 8 by omega,
    show n - (n - n % 8) = n % 8 by omega,
    show n - n % 32 = 32 * (n / 32) by omega]
  by_cases h4 : 4 ≤ n % 8
  · rw [if_pos h4, if_pos h4, List.drop_drop, word32_drop b _ (by omega),
      show n - n % 8 + 4 = n - n % 4 by omega, tail64_bytes_eq b (n % 4) _ _ (by omega),
      iterTail_succ, iterTail_zero, word32Step_eq]
  · rw [if_neg h4, if_neg h4, tail64_bytes_eq b (n % 4) _ _ (by omega),
      show n - n % 8 = n - n % 4 by omega, iterTail_zero]

/-! ## One-shot equals the specified algorithm; byte order and alignment -/

/-- C3: on every target, `LZ4_XXH32` of a well-formed input with its length equals the
32-bit hash as the specification words it: the avalanche of the tail stage (words, then
bytes) over the last `|b| mod 16` bytes, started from the converged lanes (or
`seed + P32_5` for a short input) plus the length. -/
theorem LZ4_XXH32_eq_hash32_spec (t : Target) (input : ConstPtr) (seed : Nat)
    (hwf : input.wellFormed) :
    LZ4_XXH32 t input input.mem.length seed = hash32_spec input.mem seed := by
  rw [LZ4_XXH32_eq_unrolled t input seed hwf, hash32_spec_eq_unrolled]

theorem LZ4_XXH32_eq_hash32_spec_witness :
    LZ4_XXH32 ⟨false, true, false⟩ ⟨4096, bytes_00_63⟩ 100 7 = hash32_spec bytes_00_63 7 :=
  LZ4_XXH32_eq_hash32_spec ⟨false, true, false⟩ ⟨4096, bytes_00_63⟩ 7
    (by simp [ConstPtr.wellFormed])

/-- C4: on every target, `LZ4_XXH64` of a well-formed input with its length equals the
64-bit hash as the specification words it: the avalanche of the tail stage (64-bit words,
at most one 32-bit word, bytes) over the last `|b| mod 32` bytes, started from the merged
lanes (or `seed + P64_5` for a short input) plus the length. -/
theorem LZ4_XXH64_eq_hash64_spec (t : Target) (input : ConstPtr) (seed : Nat)
    (hwf : input.wellFormed) :
    LZ4_XXH64 t input input.mem.length seed = hash64_spec input.mem seed := by
  rw [LZ4_XXH64_eq_unrolled t input seed hwf, hash64_spec_eq_unrolled]

theorem LZ4_XXH64_eq_hash64_spec_witness :
    LZ4_XXH64 ⟨false, true, false⟩ ⟨4096, bytes_00_63⟩ 100 7 = hash64_spec bytes_00_63 7 :=
  LZ4_XXH64_eq_hash64_spec ⟨false, true, false⟩ ⟨4096, bytes_00_63⟩ 7
    (by simp [ConstPtr.wellFormed])

/-- C5: with `LZ4_XXH_FORCE_NATIVE_FORMAT = 0`, for every seed and every byte sequence,
`LZ4_XXH32` returns the same digest on any two targets (little-endian or big-endian host,
with or without the alignment check) and at any two addresses (aligned or not); the
aligned and the unaligned read path of `LZ4_XXH32_endian_align` return the same digest on
either host; and each word read by `LZ4_XXH_readLE32_align` is the little-endian value
of the 4 input bytes. -/
theorem LZ4_XXH32_endian_align_independent (t t' : Target) (input input' : ConstPtr)
    (seed : Nat) (hmem : input'.mem = input.mem) (hwf : input.wellFormed)
    (hwf' : input'.wellFormed) :
    LZ4_XXH32 t input input.mem.length seed = LZ4_XXH32 t' input' input.mem.length seed
      ∧ (∀ a a', LZ4_XXH32_endian_align t input input.mem.length seed (endian_detected t) a
          = LZ4_XXH32_endian_align t' input' input.mem.length seed (endian_detected t') a')
      ∧ (∀ p a, LZ4_XXH_readLE32_align t input.mem p (endian_detected t) a
          = byteAt input.mem p + byteAt input.mem (p + 1) * 2 ^ 8
            + byteAt input.mem (p + 2) * 2 ^ 16 + byteAt input.mem (p + 3) * 2 ^ 24) := by
  refine ⟨?_, ?_, ?_⟩
  · rw [LZ4_XXH32_eq_unrolled t input seed hwf, ← hmem,
      LZ4_XXH32_eq_unrolled t' input' seed hwf']
  · intro a a'
    rw [LZ4_XXH32_endian_align_eq_unrolled t input seed a hwf, ← hmem,
      LZ4_XXH32_endian_align_eq_unrolled t' input' seed a' hwf']
  · intro p a
    exact readLE32_align_eq_le32 t input.mem p a

theorem LZ4_XXH32_endian_align_independent_witness :
    LZ4_XXH32 ⟨true, false, false⟩ ⟨4097, bytes_00_63⟩ 100 7
        = LZ4_XXH32 ⟨false, true, false⟩ ⟨4096, bytes_00_63⟩ 100 7
      ∧ LZ4_XXH_readLE32_align ⟨false, true, false⟩ [0x78, 0x56, 0x34, 0x12] 0
          LZ4_XXH_bigEndian LZ4_XXH_aligned = 0x12345678 :=
  ⟨(LZ4_XXH32_endian_align_independent ⟨true, false, false⟩ ⟨false, true, false⟩
      ⟨4097, bytes_00_63⟩ ⟨4096, bytes_00_63⟩ 7 rfl (by simp [ConstPtr.wellFormed])
      (by simp [ConstPtr.wellFormed])).1,
    by decide⟩

/-! ## Test vectors -/

/-- C6 (refuted as stated): on a little-endian host `LZ4_XXH32` of the 100 bytes
0x00..0x63 with seed 0 is not 0xE85EA4DE. -/
theorem LZ4_XXH32_bytes_00_63_seed0_ne_spec :
    LZ4_XXH32 ⟨true, false, false⟩ ⟨4096, bytes_00_63⟩ 100 0 ≠ 0xE85EA4DE := by
  decide

/-- C6 (amended): on every target, `LZ4_XXH32` of the 100-byte input whose `i`-th byte is
`i`, at any non-null address, with seed 0 returns 0x7F89BA44. -/
theorem LZ4_XXH32_bytes_00_63_seed0 (t : Target) (addr : Nat) (h : addr ≠ 0) :
    LZ4_XXH32 t ⟨addr, bytes_00_63⟩ 100 0 = 0x7F89BA44 := by
  obtain ⟨le, a, ha⟩ := LZ4_XXH32_closed_run t addr bytes_00_63 100 0 h
  rw [ha]
  cases le <;> cases a <;> decide

theorem LZ4_XXH32_bytes_00_63_seed0_witness :
    LZ4_XXH32 ⟨false, true, false⟩ ⟨4096, bytes_00_63⟩ 100 0 = 0x7F89BA44 :=
  LZ4_XXH32_bytes_00_63_seed0 ⟨false, true, false⟩ 4096 (by decide)

/-- C7 (refuted as stated): on a little-endian host `LZ4_XXH64` of the 100 bytes
0x00..0x63 with seed 0 is not 0x0EAB543384F878AD. -/
theorem LZ4_XXH64_bytes_00_63_seed0_ne_spec :
    LZ4_XXH64 ⟨true, false, false⟩ ⟨4096, bytes_00_63⟩ 100 0 ≠ 0x0EAB543384F878AD := by
  decide

/-- C7 (amended): on every target, `LZ4_XXH64` of the 100-byte input whose `i`-th byte is
`i`, at any non-null address, with seed 0 returns 0x6AC1E58032166597. -/
theorem LZ4_XXH64_bytes_00_63_seed0 (t : Target) (addr : Nat) (h : addr ≠ 0) :
    LZ4_XXH64 t ⟨addr, bytes_00_63⟩ 100 0 = 0x6AC1E58032166597 := by
  obtain ⟨le, a, ha⟩ := LZ4_XXH64_closed_run t addr bytes_00_63 100 0 h
  rw [ha]
  cases le <;> cases a <;> decide

theorem LZ4_XXH64_bytes_00_63_seed0_witness :
    LZ4_XXH64 ⟨false, true, false⟩ ⟨4096, bytes_00_63⟩ 100 0 = 0x6AC1E58032166597 :=
  LZ4_XXH64_bytes_00_63_seed0 ⟨false, true, false⟩ 4096 (by decide)

/-- C8 (refuted as stated): on a little-endian host `LZ4_XXH32` of the 100 bytes
0x00..0x63 with seed 2654435761 is not 0xE5AA5F63. -/
theorem LZ4_XXH32_bytes_00_63_seedP1_ne_spec :
    LZ4_XXH32 ⟨true, false, false⟩ ⟨4096, bytes_00_63⟩ 100 2654435761 ≠ 0xE5AA5F63 := by
  decide

/-- C8 (amended): on every target, `LZ4_XXH32` of the 100-byte input whose `i`-th byte is
`i`, at any non-null address, with seed 2654435761 returns 0xFA996F24. -/
theorem LZ4_XXH32_bytes_00_63_seedP1 (t : Target) (addr : Nat) (h : addr ≠ 0) :
    LZ4_XXH32 t ⟨addr, bytes_00_63⟩ 100 2654435761 = 0xFA996F24 := by
  obtain ⟨le, a, ha⟩ := LZ4_XXH32_closed_run t addr bytes_00_63 100 2654435761 h
  rw [ha]
  cases le <;> cases a <;> decide

theorem LZ4_XXH32_bytes_00_63_seedP1_witness :
    LZ4_XXH32 ⟨true, false, true⟩ ⟨4097, bytes_00_63⟩ 100 2654435761 = 0xFA996F24 :=
  LZ4_XXH32_bytes_00_63_seedP1 ⟨true, false, true⟩ 4097 (by decide)

/-- C9: on every target, `LZ4_XXH32` of the single byte 0x61 ("a"), at any non-null
address, with seed 0 returns 0x550D7456. -/
theorem LZ4_XXH32_a_seed0 (t : Target) (addr : Nat) (h : addr ≠ 0) :
    LZ4_XXH32 t ⟨addr, [0x61]⟩ 1 0 = 0x550D7456 := by
  obtain ⟨le, a, ha⟩ := LZ4_XXH32_closed_run t addr [0x61] 1 0 h
  rw [ha]
  cases le <;> cases a <;> decide

theorem LZ4_XXH32_a_seed0_witness :
    LZ4_XXH32 ⟨true, false, false⟩ ⟨4096, [0x61]⟩ 1 0 = 0x550D7456 :=
  LZ4_XXH32_a_seed0 ⟨true, false, false⟩ 4096 (by decide)

/-- C10: on every target, `LZ4_XXH64` of the single byte 0x61 ("a"), at any non-null
address, with seed 0 returns 0xD24EC4F1A98C6E5B. -/
theorem LZ4_XXH64_a_seed0 (t : Target) (addr : Nat) (h : addr ≠ 0) :
    LZ4_XXH64 t ⟨addr, [0x61]⟩ 1 0 = 0xD24EC4F1A98C6E5B := by
  obtain ⟨le, a, ha⟩ := LZ4_XXH64_closed_run t addr [0x61] 1 0 h
  rw [ha]
  cases le <;> cases a <;> decide

theorem LZ4_XXH64_a_seed0_witness :
    LZ4_XXH64 ⟨false, true, true⟩ ⟨8, [0x61]⟩ 1 0 = 0xD24EC4F1A98C6E5B :=
  LZ4_XXH64_a_seed0 ⟨false, true, true⟩ 8 (by decide)

/-! ## The empty input -/

theorem wellFormed_nil (addr : Nat) : (⟨addr, []⟩ : ConstPtr).wellFormed := fun _ => rfl

theorem XXH32_unrolled_of_length_zero (b : List BYTE) (hb : b.length = 0) (seed : Nat) :
    XXH32_unrolled b seed = LZ4_XXH32_avalanche ((seed + PRIME32_5) % 2 ^ 32) := by
  unfold XXH32_unrolled
  simp only
  rw [hb, if_neg (by omega), show 0 % 16 / 4 = 0 from rfl, show 0 % 4 = 0 from rfl,
    iterTail_zero, iterTail_zero, Nat.zero_mod, Nat.add_zero, Nat.mod_mod]

theorem XXH64_unrolled_of_length_zero (b : List BYTE) (hb : b.length = 0) (seed : Nat) :
    XXH64_unrolled b seed = LZ4_XXH64_avalanche ((seed + PRIME64_5) % 2 ^ 64) := by
  unfold XXH64_unrolled
  simp only
  rw [hb, if_neg (by omega), if_neg (by omega), show 0 % 32 / 8 = 0 from rfl,
    show 0 % 4 = 0 from rfl, iterTail_zero, iterTail_zero, iterTail_zero, Nat.zero_mod,
    Nat.add_zero, Nat.mod_mod]

/-- C11: on every target and for every pointer value, `LZ4_XXH32` of the empty input
(length 0) with seed 0 returns 0x02CC5D05. -/
theorem LZ4_XXH32_empty_seed0 (t : Target) (addr : Nat) :
    LZ4_XXH32 t ⟨addr, []⟩ 0 0 = 0x02CC5D05 := by
  have h : XXH32_unrolled [] 0 = 0x02CC5D05 := by decide
  exact (LZ4_XXH32_eq_unrolled t ⟨addr, []⟩ 0 (wellFormed_nil addr)).trans h

/-- C12: on every target and for every pointer value, `LZ4_XXH64` of the empty input
(length 0) with seed 0 returns 0xEF46DB3751D8E999. -/
theorem LZ4_XXH64_empty_seed0 (t : Target) (addr : Nat) :
    LZ4_XXH64 t ⟨addr, []⟩ 0 0 = 0xEF46DB3751D8E999 := by
  have h : XXH64_unrolled [] 0 = 0xEF46DB3751D8E999 := by decide
  exact (LZ4_XXH64_eq_unrolled t ⟨addr, []⟩ 0 (wellFormed_nil addr)).trans h

/-- C13: on every target, for every seed `s`, `LZ4_XXH32` of the empty input is
`avalanche32(s + P32_5)` (the sum taken modulo `2^32`), where `avalanche32` is the
specification's `h ^= h>>15; h *= P32_2; h ^= h>>13; h *= P32_3; h ^= h>>16`, and the
digest of a state taken directly after `LZ4_XXH32_reset(s)`, whatever the state held
before, is the same value. -/
theorem LZ4_XXH32_empty_law (t : Target) (addr : Nat) (s0 : LZ4_XXH32_state_t) (s : Nat) :
    LZ4_XXH32 t ⟨addr, []⟩ 0 s = avalanche32 ((s + P32_5) % 2 ^ 32)
      ∧ LZ4_XXH32_digest t (LZ4_XXH32_reset s0 s).2 = avalanche32 ((s + P32_5) % 2 ^ 32) := by
  constructor
  · exact (LZ4_XXH32_eq_unrolled t ⟨addr, []⟩ s (wellFormed_nil addr)).trans
      (XXH32_unrolled_of_length_zero [] rfl s)
  · rw [LZ4_XXH32_digest_eq_unrolled t s [] _ (Tracks32_reset s0 s)]
    exact XXH32_unrolled_of_length_zero [] rfl s

/-- C14: on every target, for every seed `s`, `LZ4_XXH64` of the empty input is
`avalanche64(s + P64_5)` (the sum taken modulo `2^64`), where `avalanche64` is the
specification's `h ^= h>>33; h *= P64_2; h ^= h>>29; h *= P64_3; h ^= h>>32`. -/
theorem LZ4_XXH64_empty_law (t : Target) (addr : Nat) (s : Nat) :
    LZ4_XXH64 t ⟨addr, []⟩ 0 s = avalanche64 ((s + P64_5) % 2 ^ 64) :=
  (LZ4_XXH64_eq_unrolled t ⟨addr, []⟩ s (wellFormed_nil addr)).trans (XXH64_unrolled_of_length_zero [] rfl s)

/-! ## Canonical representation: big-endian bytes and round trip -/

theorem val_ofNat (a : Nat) : ((Fin.ofNat a : BYTE)).val = a % 256 := rfl

theorem and_0xFF (y : Nat) : y &&& 0xFF = y % 2 ^ 8 :=
  Nat.and_pow_two_sub_one_eq_mod y 8

/-- Copying a whole array of the same size replaces the contents. -/
theorem memcpy_all (dst src : List BYTE) (h : dst.length = src.length) :
    memcpy dst 0 src 0 src.length = src := by
  apply List.ext_getElem
  · rw [length_memcpy, h]
  · intro i h1 h2
    have e := getD_memcpy src src.length dst 0 0 i (by omega)
    rw [if_pos (by omega), List.getD_eq_getElem _ _ h1, Nat.zero_add, Nat.sub_zero,
      List.getD_eq_getElem _ _ h2] at e
    exact e

theorem swap32_load32_le (t : Target) (mem : List BYTE) (p : Nat)
    (h : t.cpu_little_endian = true) :
    LZ4_XXH_swap32 (load32 t mem p)
      = byteAt mem p * 2 ^ 24 + byteAt mem (p + 1) * 2 ^ 16 + byteAt mem (p + 2) * 2 ^ 8
        + byteAt mem (p + 3) := by
  have h0 := byteAt_lt mem p
  have h1 := byteAt_lt mem (p + 1)
  have h2 := byteAt_lt mem (p + 2)
  have h3 := byteAt_lt mem (p + 3)
  simp only [load32, h, if_true]
  rw [swap32_eq _ (by omega)]
  omega

/-- On both hosts `LZ4_XXH_readBE32` returns the big-endian value of the 4 bytes. -/
theorem readBE32_eq (t : Target) (mem : List BYTE) (p : Nat) :
    LZ4_XXH_readBE32 t mem p
      = byteAt mem p * 2 ^ 24 + byteAt mem (p + 1) * 2 ^ 16 + byteAt mem (p + 2) * 2 ^ 8
        + byteAt mem (p + 3) := by
  unfold LZ4_XXH_readBE32 LZ4_XXH_read32
  cases hle : t.cpu_little_endian
  · simp only [Bool.false_eq_true, if_false, load32, hle]
  · simp only [if_true]
    exact swap32_load32_le t mem p hle

/-- The 4 bytes that `LZ4_XXH32_canonicalFromHash` copies are the hash, most significant
byte first, on both hosts. -/
theorem bytes32_canonical (t : Target) (h : Nat) (hh : h < 2 ^ 32) :
    bytes32 t (if t.cpu_little_endian then LZ4_XXH_swap32 h else h)
      = [Fin.ofNat (h / 2 ^ 24), Fin.ofNat (h / 2 ^ 16 % 2 ^ 8), Fin.ofNat (h / 2 ^ 8 % 2 ^ 8),
          Fin.ofNat (h % 2 ^ 8)] := by
  cases hle : t.cpu_little_endian
  · simp only [bytes32, hle, Bool.false_eq_true, if_false]
    rw [show h / 2 ^ 24 % 2 ^ 8 = h / 2 ^ 24 by omega]
  · simp only [bytes32, hle, if_true]
    rw [swap32_eq h hh]
    have h0 : h % 2 ^ 8 < 2 ^ 8 := Nat.mod_lt _ (by decide)
    have h1 : h / 2 ^ 8 % 2 ^ 8 < 2 ^ 8 := Nat.mod_lt _ (by decide)
    have h2 : h / 2 ^ 16 % 2 ^ 8 < 2 ^ 8 := Nat.mod_lt _ (by decide)
    have h3 : h / 2 ^ 24 < 2 ^ 8 := by omega
    generalize h % 2 ^ 8 = a0 at h0 ⊢
    generalize h / 2 ^ 8 % 2 ^ 8 = a1 at h1 ⊢
    generalize h / 2 ^ 16 % 2 ^ 8 = a2 at h2 ⊢
    generalize h / 2 ^ 24 = a3 at h3 ⊢
    have e0 : (a0 * 2 ^ 24 + a1 * 2 ^ 16 + a2 * 2 ^ 8 + a3) % 2 ^ 8 = a3 := by omega
    have e1 : (a0 * 2 ^ 24 + a1 * 2 ^ 16 + a2 * 2 ^ 8 + a3) / 2 ^ 8 % 2 ^ 8 = a2 := by omega
    have e2 : (a0 * 2 ^ 24 + a1 * 2 ^ 16 + a2 * 2 ^ 8 + a3) / 2 ^ 16 % 2 ^ 8 = a1 := by omega
    have e3 : (a0 * 2 ^ 24 + a1 * 2 ^ 16 + a2 * 2 ^ 8 + a3) / 2 ^ 24 % 2 ^ 8 = a0 := by omega
    rw [e0, e1, e2, e3]

theorem LZ4_XXH32_canonicalFromHash_digest (t : Target) (dst : LZ4_XXH32_canonical_t)
    (h : Nat) (hh : h < 2 ^ 32) (hdst : dst.digest.length = 4) :
    (LZ4_XXH32_canonicalFromHash t dst h).digest
      = [Fin.ofNat (h / 2 ^ 24), Fin.ofNat (h / 2 ^ 16 % 2 ^ 8), Fin.ofNat (h / 2 ^ 8 % 2 ^ 8),
          Fin.ofNat (h % 2 ^ 8)] := by
  have hb := bytes32_canonical t h hh
  show memcpy dst.digest 0 (bytes32 t (if t.cpu_little_endian then LZ4_XXH_swap32 h else h))
    0 4 = _
  rw [hb]
  exact memcpy_all dst.digest _ hdst

/-- C15: for every 32-bit hash `h`, whatever the byte order of the host that writes and of
the host that reads, `LZ4_XXH32_hashFromCanonical` applied to the 4 bytes written by
`LZ4_XXH32_canonicalFromHash(h)` returns `h`. -/
theorem LZ4_XXH32_canonical_roundtrip (t t' : Target) (dst : LZ4_XXH32_canonical_t)
    (h : Nat) (hh : h < 2 ^ 32) (hdst : dst.digest.length = 4) :
    LZ4_XXH32_hashFromCanonical t' (LZ4_XXH32_canonicalFromHash t dst h) = h := by
  unfold LZ4_XXH32_hashFromCanonical
  rw [readBE32_eq, LZ4_XXH32_canonicalFromHash_digest t dst h hh hdst]
  show (h / 2 ^ 24) % 256 * 2 ^ 24 + (h / 2 ^ 16 % 2 ^ 8) % 256 * 2 ^ 16
    + (h / 2 ^ 8 % 2 ^ 8) % 256 * 2 ^ 8 + (h % 2 ^ 8) % 256 = h
  omega

theorem LZ4_XXH32_canonical_roundtrip_witness :
    (0x12345678 : Nat) < 2 ^ 32
      ∧ LZ4_XXH32_hashFromCanonical ⟨false, true, false⟩
          (LZ4_XXH32_canonicalFromHash ⟨true, false, false⟩ ⟨[0, 0, 0, 0]⟩ 0x12345678)
        = 0x12345678 :=
  ⟨by decide, LZ4_XXH32_canonical_roundtrip ⟨true, false, false⟩ ⟨false, true, false⟩
    ⟨[0, 0, 0, 0]⟩ 0x12345678 (by decide) rfl⟩

/-- C17: for every 32-bit hash `h` and on both hosts, `LZ4_XXH32_canonicalFromHash` writes
exactly the 4 bytes `h>>24, (h>>16)&0xFF, (h>>8)&0xFF, h&0xFF`, and
`LZ4_XXH32_hashFromCanonical` of the bytes `b0 b1 b2 b3` returns
`b0*2^24 + b1*2^16 + b2*2^8 + b3`; 0x12345678 is written as 12 34 56 78, and these bytes are
read back as 0x12345678. -/
theorem LZ4_XXH32_canonical_big_endian (t : Target) (dst : LZ4_XXH32_canonical_t) (h : Nat)
    (b0 b1 b2 b3 : BYTE) (hh : h < 2 ^ 32) (hdst : dst.digest.length = 4) :
    (LZ4_XXH32_canonicalFromHash t dst h).digest.map Fin.val
        = [h >>> 24, (h >>> 16) &&& 0xFF, (h >>> 8) &&& 0xFF, h &&& 0xFF]
      ∧ LZ4_XXH32_hashFromCanonical t ⟨[b0, b1, b2, b3]⟩
        = b0.val * 2 ^ 24 + b1.val * 2 ^ 16 + b2.val * 2 ^ 8 + b3.val
      ∧ (LZ4_XXH32_canonicalFromHash t dst 0x12345678).digest = [0x12, 0x34, 0x56, 0x78]
      ∧ LZ4_XXH32_hashFromCanonical t ⟨[0x12, 0x34, 0x56, 0x78]⟩ = 0x12345678 := by
  refine ⟨?_, ?_, ?_, ?_⟩
  · rw [LZ4_XXH32_canonicalFromHash_digest t dst h hh hdst, and_0xFF, and_0xFF, and_0xFF,
      Nat.shiftRight_eq_div_pow, Nat.shiftRight_eq_div_pow, Nat.shiftRight_eq_div_pow]
    show [(h / 2 ^ 24) % 256, (h / 2 ^ 16 % 2 ^ 8) % 256, (h / 2 ^ 8 % 2 ^ 8) % 256,
      (h % 2 ^ 8) % 256] = _
    rw [show (h / 2 ^ 24) % 256 = h / 2 ^ 24 by omega,
      show (h / 2 ^ 16 % 2 ^ 8) % 256 = h / 2 ^ 16 % 2 ^ 8 by omega,
      show (h / 2 ^ 8 % 2 ^ 8) % 256 = h / 2 ^ 8 % 2 ^ 8 by omega,
      show (h % 2 ^ 8) % 256 = h % 2 ^ 8 by omega]
  · unfold LZ4_XXH32_hashFromCanonical
    rw [readBE32_eq]
    rfl
  · rw [LZ4_XXH32_canonicalFromHash_digest t dst 0x12345678 (by decide) hdst]
    decide
  · unfold LZ4_XXH32_hashFromCanonical
    rw [readBE32_eq]
    rfl

theorem LZ4_XXH32_canonical_big_endian_witness :
    (LZ4_XXH32_canonicalFromHash ⟨true, false, false⟩ ⟨[9, 9, 9, 9]⟩ 0xE2293B2F).digest.map
        Fin.val = [0xE2, 0x29, 0x3B, 0x2F]
      ∧ LZ4_XXH32_hashFromCanonical ⟨true, false, false⟩ ⟨[0xE2, 0x29, 0x3B, 0x2F]⟩
        = 0xE2293B2F := by
  have h := LZ4_XXH32_canonical_big_endian ⟨true, false, false⟩ ⟨[9, 9, 9, 9]⟩ 0xE2293B2F
    0xE2 0x29 0x3B 0x2F (by decide) rfl
  exact ⟨h.1.trans (by decide), h.2.1.trans (by decide)⟩

theorem swap64_load64_le (t : Target) (mem : List BYTE) (p : Nat)
    (h : t.cpu_little_endian = true) :
    LZ4_XXH_swap64 (load64 t mem p)
      = byteAt mem p * 2 ^ 56 + byteAt mem (p + 1) * 2 ^ 48 + byteAt mem (p + 2) * 2 ^ 40
        + byteAt mem (p + 3) * 2 ^ 32 + byteAt mem (p + 4) * 2 ^ 24 + byteAt mem (p + 5) * 2 ^ 16
        + byteAt mem (p + 6) * 2 ^ 8 + byteAt mem (p + 7) := by
  simp only [load64, h, if_true]
  obtain ⟨hx, e0, e1, e2, e3, e4, e5, e6, e7⟩ := bytes_of_be64 _ _ _ _ _ _ _ _
    (byteAt_lt mem (p + 7)) (byteAt_lt mem (p + 6)) (byteAt_lt mem (p + 5))
    (byteAt_lt mem (p + 4)) (byteAt_lt mem (p + 3)) (byteAt_lt mem (p + 2))
    (byteAt_lt mem (p + 1)) (byteAt_lt mem p)
    (byteAt mem p + byteAt mem (p + 1) * 2 ^ 8 + byteAt mem (p + 2) * 2 ^ 16
      + byteAt mem (p + 3) * 2 ^ 24 + byteAt mem (p + 4) * 2 ^ 32 + byteAt mem (p + 5) * 2 ^ 40
      + byteAt mem (p + 6) * 2 ^ 48 + byteAt mem (p + 7) * 2 ^ 56) (by ring)
  rw [swap64_eq _ hx, e0, e1, e2, e3, e4, e5, e6, e7]

/-- On both hosts `LZ4_XXH_readBE64` returns the big-endian value of the 8 bytes. -/
theorem readBE64_eq (t : Target) (mem : List BYTE) (p : Nat) :
    LZ4_XXH_readBE64 t mem p
      = byteAt mem p * 2 ^ 56 + byteAt mem (p + 1) * 2 ^ 48 + byteAt mem (p + 2) * 2 ^ 40
        + byteAt mem (p + 3) * 2 ^ 32 + byteAt mem (p + 4) * 2 ^ 24 + byteAt mem (p + 5) * 2 ^ 16
        + byteAt mem (p + 6) * 2 ^ 8 + byteAt mem (p + 7) := by
  unfold LZ4_XXH_readBE64 LZ4_XXH_read64
  cases hle : t.cpu_little_endian
  · simp only [Bool.false_eq_true, if_false, load64, hle]
  · simp only [if_true]
    exact swap64_load64_le t mem p hle

theorem div_pow56_mod (h : Nat) (hh : h < 2 ^ 64) : h / 2 ^ 56 % 2 ^ 8 = h / 2 ^ 56 := by
  omega

/-- The 8 bytes that `LZ4_XXH64_canonicalFromHash` copies are the hash, most significant
byte first, on both hosts. -/
theorem bytes64_canonical (t : Target) (h : Nat) (hh : h < 2 ^ 64) :
    bytes64 t (if t.cpu_little_endian then LZ4_XXH_swap64 h else h)
      = [Fin.ofNat (h / 2 ^ 56), Fin.ofNat (h / 2 ^ 48 % 2 ^ 8), Fin.ofNat (h / 2 ^ 40 % 2 ^ 8),
          Fin.ofNat (h / 2 ^ 32 % 2 ^ 8), Fin.ofNat (h / 2 ^ 24 % 2 ^ 8),
          Fin.ofNat (h / 2 ^ 16 % 2 ^ 8), Fin.ofNat (h / 2 ^ 8 % 2 ^ 8),
          Fin.ofNat (h % 2 ^ 8)] := by
  cases hle : t.cpu_little_endian
  · simp only [bytes64, hle, Bool.false_eq_true, if_false]
    rw [div_pow56_mod h hh]
  · simp only [bytes64, hle, if_true]
    have h7 : h / 2 ^ 56 < 256 := by omega
    obtain ⟨_, e0, e1, e2, e3, e4, e5, e6, e7⟩ := bytes_of_be64 _ _ _ _ _ _ _ _
      (Nat.mod_lt h (by decide : 0 < 2 ^ 8))
      (Nat.mod_lt (h / 2 ^ 8) (by decide : 0 < 2 ^ 8))
      (Nat.mod_lt (h / 2 ^ 16) (by decide : 0 < 2 ^ 8))
      (Nat.mod_lt (h / 2 ^ 24) (by decide : 0 < 2 ^ 8))
      (Nat.mod_lt (h / 2 ^ 32) (by decide : 0 < 2 ^ 8))
      (Nat.mod_lt (h / 2 ^ 40) (by decide : 0 < 2 ^ 8))
      (Nat.mod_lt (h / 2 ^ 48) (by decide : 0 < 2 ^ 8)) h7 _ (swap64_eq h hh).symm
    rw [e0, e1, e2, e3, e4, e5, e6, e7, show h % 256 % 2 ^ 8 = h % 2 ^ 8 by omega]
    rfl

theorem LZ4_XXH64_canonicalFromHash_digest (t : Target) (dst : LZ4_XXH64_canonical_t)
    (h : Nat) (hh : h < 2 ^ 64) (hdst : dst.digest.length = 8) :
    (LZ4_XXH64_canonicalFromHash t dst h).digest
      = [Fin.ofNat (h / 2 ^ 56), Fin.ofNat (h / 2 ^ 48 % 2 ^ 8), Fin.ofNat (h / 2 ^ 40 % 2 ^ 8),
          Fin.ofNat (h / 2 ^ 32 % 2 ^ 8), Fin.ofNat (h / 2 ^ 24 % 2 ^ 8),
          Fin.ofNat (h / 2 ^ 16 % 2 ^ 8), Fin.ofNat (h / 2 ^ 8 % 2 ^ 8),
          Fin.ofNat (h % 2 ^ 8)] := by
  have hb := bytes64_canonical t h hh
  show memcpy dst.digest 0 (bytes64 t (if t.cpu_little_endian then LZ4_XXH_swap64 h else h))
    0 8 = _
  rw [hb]
  exact memcpy_all dst.digest _ hdst

theorem be64_of_bytes (h : Nat) (hh : h < 2 ^ 64) :
    (h / 2 ^ 56) % 256 * 2 ^ 56 + (h / 2 ^ 48 % 2 ^ 8) % 256 * 2 ^ 48
      + (h / 2 ^ 40 % 2 ^ 8) % 256 * 2 ^ 40 + (h / 2 ^ 32 % 2 ^ 8) % 256 * 2 ^ 32
      + (h / 2 ^ 24 % 2 ^ 8) % 256 * 2 ^ 24 + (h / 2 ^ 16 % 2 ^ 8) % 256 * 2 ^ 16
      + (h / 2 ^ 8 % 2 ^ 8) % 256 * 2 ^ 8 + (h % 2 ^ 8) % 256 = h := by
  have s0 : h = h / 2 ^ 8 * 2 ^ 8 + h % 2 ^ 8 := by omega
  have s1 : h / 2 ^ 8 = h / 2 ^ 16 * 2 ^ 8 + h / 2 ^ 8 % 2 ^ 8 := by omega
  have s2 : h / 2 ^ 16 = h / 2 ^ 24 * 2 ^ 8 + h / 2 ^ 16 % 2 ^ 8 := by omega
  have s3 : h / 2 ^ 24 = h / 2 ^ 32 * 2 ^ 8 + h / 2 ^ 24 % 2 ^ 8 := by omega
  have s4 : h / 2 ^ 32 = h / 2 ^ 40 * 2 ^ 8 + h / 2 ^ 32 % 2 ^ 8 := by omega
  have s5 : h / 2 ^ 40 = h / 2 ^ 48 * 2 ^ 8 + h / 2 ^ 40 % 2 ^ 8 := by omega
  have s6 : h / 2 ^ 48 = h / 2 ^ 56 * 2 ^ 8 + h / 2 ^ 48 % 2 ^ 8 := by omega
  have s7 : h / 2 ^ 56 < 2 ^ 8 := by omega
  have r0 : h % 2 ^ 8 < 2 ^ 8 := Nat.mod_lt _ (by decide)
  have r1 : h / 2 ^ 8 % 2 ^ 8 < 2 ^ 8 := Nat.mod_lt _ (by decide)
  have r2 : h / 2 ^ 16 % 2 ^ 8 < 2 ^ 8 := Nat.mod_lt _ (by decide)
  have r3 : h / 2 ^ 24 % 2 ^ 8 < 2 ^ 8 := Nat.mod_lt _ (by decide)
  have r4 : h / 2 ^ 32 % 2 ^ 8 < 2 ^ 8 := Nat.mod_lt _ (by decide)
  have r5 : h / 2 ^ 40 % 2 ^ 8 < 2 ^ 8 := Nat.mod_lt _ (by decide)
  have r6 : h / 2 ^ 48 % 2 ^ 8 < 2 ^ 8 := Nat.mod_lt _ (by decide)
  generalize h % 2 ^ 8 = a0 at s0 r0 ⊢
  generalize h / 2 ^ 8 % 2 ^ 8 = a1 at s1 r1 ⊢
  generalize h / 2 ^ 16 % 2 ^ 8 = a2 at s2 r2 ⊢
  generalize h / 2 ^ 24 % 2 ^ 8 = a3 at s3 r3 ⊢
  generalize h / 2 ^ 32 % 2 ^ 8 = a4 at s4 r4 ⊢
  generalize h / 2 ^ 40 % 2 ^ 8 = a5 at s5 r5 ⊢
  generalize h / 2 ^ 48 % 2 ^ 8 = a6 at s6 r6 ⊢
  generalize h / 2 ^ 56 = q7 at s6 s7 ⊢
  generalize h / 2 ^ 48 = q6 at s5 s6
  generalize h / 2 ^ 40 = q5 at s4 s5
  generalize h / 2 ^ 32 = q4 at s3 s4
  generalize h / 2 ^ 24 = q3 at s2 s3
  generalize h / 2 ^ 16 = q2 at s1 s2
  generalize h / 2 ^ 8 = q1 at s0 s1
  omega

/-- C16: for every 64-bit hash `h`, whatever the byte order of the host that writes and of
the host that reads, `LZ4_XXH64_hashFromCanonical` applied to the 8 bytes written by
`LZ4_XXH64_canonicalFromHash(h)` returns `h`, and the 8 bytes written are the big-endian
encoding of `h`: byte `i` is `(h >> (56 - 8*i)) & 0xFF`. -/
theorem LZ4_XXH64_canonical_roundtrip (t t' : Target) (dst : LZ4_XXH64_canonical_t)
    (h : Nat) (hh : h < 2 ^ 64) (hdst : dst.digest.length = 8) :
    LZ4_XXH64_hashFromCanonical t' (LZ4_XXH64_canonicalFromHash t dst h) = h
      ∧ (LZ4_XXH64_canonicalFromHash t dst h).digest.length = 8
      ∧ ∀ i, i < 8 →
          byteAt (LZ4_XXH64_canonicalFromHash t dst h).digest i
            = (h >>> (56 - 8 * i)) &&& 0xFF := by
  have hd := LZ4_XXH64_canonicalFromHash_digest t dst h hh hdst
  refine ⟨?_, ?_, ?_⟩
  · unfold LZ4_XXH64_hashFromCanonical
    rw [readBE64_eq, hd]
    exact be64_of_bytes h hh
  · rw [hd]; rfl
  · intro i hi
    rw [hd, and_0xFF, Nat.shiftRight_eq_div_pow]
    have h7 := div_pow56_mod h hh
    interval_cases i
    · show (h / 2 ^ 56) % 256 = h / 2 ^ 56 % 2 ^ 8
      omega
    · show (h / 2 ^ 48 % 2 ^ 8) % 256 = h / 2 ^ 48 % 2 ^ 8
      omega
    · show (h / 2 ^ 40 % 2 ^ 8) % 256 = h / 2 ^ 40 % 2 ^ 8
      omega
    · show (h / 2 ^ 32 % 2 ^ 8) % 256 = h / 2 ^ 32 % 2 ^ 8
      omega
    · show (h / 2 ^ 24 % 2 ^ 8) % 256 = h / 2 ^ 24 % 2 ^ 8
      omega
    · show (h / 2 ^ 16 % 2 ^ 8) % 256 = h / 2 ^ 16 % 2 ^ 8
      omega
    · show (h / 2 ^ 8 % 2 ^ 8) % 256 = h / 2 ^ 8 % 2 ^ 8
      omega
    · show (h % 2 ^ 8) % 256 = h / 2 ^ 0 % 2 ^ 8
      omega

theorem LZ4_XXH64_canonical_roundtrip_witness :
    LZ4_XXH64_hashFromCanonical ⟨false, true, false⟩
        (LZ4_XXH64_canonicalFromHash ⟨true, false, false⟩ ⟨[0, 0, 0, 0, 0, 0, 0, 0]⟩
          0xEF46DB3751D8E999) = 0xEF46DB3751D8E999
      ∧ byteAt (LZ4_XXH64_canonicalFromHash ⟨true, false, false⟩ ⟨[0, 0, 0, 0, 0, 0, 0, 0]⟩
          0xEF46DB3751D8E999).digest 1 = 0x46 := by
  have h := LZ4_XXH64_canonical_roundtrip ⟨true, false, false⟩ ⟨false, true, false⟩
    ⟨[0, 0, 0, 0, 0, 0, 0, 0]⟩ 0xEF46DB3751D8E999 (by decide) rfl
  exact ⟨h.1, (h.2.2 1 (by decide)).trans (by decide)⟩

/-! ## The number of buffered bytes -/

theorem XXH32_fill_memsize (st : LZ4_XXH32_state_t) (m : List BYTE) :
    (XXH32_fill st m).2.memsize = 0 := by
  unfold XXH32_fill
  by_cases h : st.memsize ≠ 0
  · rw [if_pos h]
  · rw [if_neg h]; exact not_not.mp h

theorem XXH32_loop_memsize (m : List BYTE) (ps : Nat × LZ4_XXH32_state_t) :
    (XXH32_loop m ps).2.memsize = ps.2.memsize := by
  unfold XXH32_loop
  by_cases h : ps.1 + 16 ≤ m.length
  · rw [if_pos h]
  · rw [if_neg h]

/-- After the block loop fewer than 16 bytes of the chunk are left. -/
theorem XXH32_loop_left (m : List BYTE) (ps : Nat × LZ4_XXH32_state_t) :
    m.length < (XXH32_loop m ps).1 + 16 := by
  unfold XXH32_loop
  by_cases h : ps.1 + 16 ≤ m.length
  · rw [if_pos h]
    simp only
    rw [LZ4_XXH32_blockLoop_eq _ _ _ _ (by simp only; omega) (by simp only; omega),
      iterBlocks_p]
    simp only
    omega
  · rw [if_neg h]; omega

theorem XXH32_rest_memsize (m : List BYTE) (ps : Nat × LZ4_XXH32_state_t)
    (hl : m.length < ps.1 + 16) (hm : ps.2.memsize < 16) :
    (XXH32_rest m ps).memsize < 16 := by
  unfold XXH32_rest
  by_cases h : ps.1 < m.length
  · rw [if_pos h]
    show (m.length - ps.1) % 2 ^ 32 < 16
    omega
  · rw [if_neg h]; exact hm

/-- One update of a state that buffers fewer than 16 bytes buffers fewer than 16 bytes,
whatever else the state holds and whatever the chunk is. -/
theorem LZ4_XXH32_update_memsize (t : Target) (st : LZ4_XXH32_state_t) (c : ConstPtr)
    (h : st.memsize < 16) : (LZ4_XXH32_update t st c c.mem.length).2.memsize < 16 := by
  rw [LZ4_XXH32_update_dispatch]
  obtain ⟨a, m⟩ := c
  by_cases hnull : (t.accept_null_input_pointer && a == 0) = true
  · unfold LZ4_XXH32_update_endian
    rw [if_pos hnull]
    exact h
  · rw [LZ4_XXH32_update_endian_stages t st a m hnull]
    by_cases hs : (st.memsize + m.length) % 2 ^ 64 < 16
    · rw [if_pos hs]
      show (st.memsize + m.length % 2 ^ 32) % 2 ^ 32 < 16
      omega
    · rw [if_neg hs]
      apply XXH32_rest_memsize _ _ (XXH32_loop_left _ _)
      rw [XXH32_loop_memsize, XXH32_fill_memsize]
      decide

theorem LZ4_XXH32_feed_memsize (t : Target) (chunks : List ConstPtr) :
    ∀ st : LZ4_XXH32_state_t, st.memsize < 16 → (LZ4_XXH32_feed t st chunks).memsize < 16 := by
  induction chunks with
  | nil => intro st h; exact h
  | cons c cs ih =>
    intro st h
    exact ih _ (LZ4_XXH32_update_memsize t st c h)

theorem XXH64_fill_memsize (st : LZ4_XXH64_state_t) (m : List BYTE) :
    (XXH64_fill st m).2.memsize = 0 := by
  unfold XXH64_fill
  by_cases h : st.memsize ≠ 0
  · rw [if_pos h]
  · rw [if_neg h]; exact not_not.mp h

theorem XXH64_loop_memsize (m : List BYTE) (ps : Nat × LZ4_XXH64_state_t) :
    (XXH64_loop m ps).2.memsize = ps.2.memsize := by
  unfold XXH64_loop
  by_cases h : ps.1 + 32 ≤ m.length
  · rw [if_pos h]
  · rw [if_neg h]

/-- After the block loop fewer than 32 bytes of the chunk are left. -/
theorem XXH64_loop_left (m : List BYTE) (ps : Nat × LZ4_XXH64_state_t) :
    m.length < (XXH64_loop m ps).1 + 32 := by
  unfold XXH64_loop
  by_cases h : ps.1 + 32 ≤ m.length
  · rw [if_pos h]
    simp only
    rw [LZ4_XXH64_blockLoop_eq _ _ _ _ (by simp only; omega) (by simp only; omega),
      iterBlocks_p]
    simp only
    omega
  · rw [if_neg h]; omega

theorem XXH64_rest_memsize (m : List BYTE) (ps : Nat × LZ4_XXH64_state_t)
    (hl : m.length < ps.1 + 32) (hm : ps.2.memsize < 32) :
    (XXH64_rest m ps).memsize < 32 := by
  unfold XXH64_rest
  by_cases h : ps.1 < m.length
  · rw [if_pos h]
    show (m.length - ps.1) % 2 ^ 32 < 32
    omega
  · rw [if_neg h]; exact hm

/-- One update of a state that buffers fewer than 32 bytes buffers fewer than 32 bytes. -/
theorem LZ4_XXH64_update_memsize (t : Target) (st : LZ4_XXH64_state_t) (c : ConstPtr)
    (h : st.memsize < 32) : (LZ4_XXH64_update t st c c.mem.length).2.memsize < 32 := by
  rw [LZ4_XXH64_update_dispatch]
  obtain ⟨a, m⟩ := c
  by_cases hnull : (t.accept_null_input_pointer && a == 0) = true
  · unfold LZ4_XXH64_update_endian
    rw [if_pos hnull]
    exact h
  · rw [LZ4_XXH64_update_endian_stages t st a m hnull]
    by_cases hs : (st.memsize + m.length) % 2 ^ 64 < 32
    · rw [if_pos hs]
      show (st.memsize + m.length % 2 ^ 32) % 2 ^ 32 < 32
      omega
    · rw [if_neg hs]
      apply XXH64_rest_memsize _ _ (XXH64_loop_left _ _)
      rw [XXH64_loop_memsize, XXH64_fill_memsize]
      decide

theorem LZ4_XXH64_feed_memsize (t : Target) (chunks : List ConstPtr) :
    ∀ st : LZ4_XXH64_state_t, st.memsize < 32 → (LZ4_XXH64_feed t st chunks).memsize < 32 := by
  induction chunks with
  | nil => intro st h; exact h
  | cons c cs ih =>
    intro st h
    exact ih _ (LZ4_XXH64_update_memsize t st c h)

/-- C18: on every target, `LZ4_XXH32_update` applied to any state with `memsize < 16`
(whatever its other fields hold) and any chunk, null or not, returns a state with
`memsize < 16`; hence every state reached from `LZ4_XXH32_reset` by a sequence of updates
has `memsize` in `0..15`. -/
theorem LZ4_XXH32_memsize_invariant (t : Target) :
    (∀ (st : LZ4_XXH32_state_t) (c : ConstPtr), st.memsize < 16 →
        (LZ4_XXH32_update t st c c.mem.length).2.memsize < 16)
      ∧ ∀ (s0 : LZ4_XXH32_state_t) (seed : Nat) (chunks : List ConstPtr),
        (LZ4_XXH32_feed t (LZ4_XXH32_reset s0 seed).2 chunks).memsize < 16 :=
  ⟨fun st c h => LZ4_XXH32_update_memsize t st c h,
    fun s0 seed chunks =>
      LZ4_XXH32_feed_memsize t chunks (LZ4_XXH32_reset s0 seed).2
        (show (0 : Nat) < 16 from by decide)⟩

theorem LZ4_XXH32_memsize_invariant_witness :
    (LZ4_XXH32_update ⟨true, false, false⟩
        ⟨0, 0, 1, 2, 3, 4, List.replicate 16 0, 15⟩ ⟨4096, List.replicate 40 7⟩
        (List.replicate 40 (7 : BYTE)).length).2.memsize < 16 :=
  (LZ4_XXH32_memsize_invariant ⟨true, false, false⟩).1
    ⟨0, 0, 1, 2, 3, 4, List.replicate 16 0, 15⟩ ⟨4096, List.replicate 40 7⟩ (by decide)

/-- C19: on every target, `LZ4_XXH64_update` applied to any state with `memsize < 32`
(whatever its other fields hold) and any chunk, null or not, returns a state with
`memsize < 32`; hence every state reached from `LZ4_XXH64_reset` by a sequence of updates
has `memsize` in `0..31`. -/
theorem LZ4_XXH64_memsize_invariant (t : Target) :
    (∀ (st : LZ4_XXH64_state_t) (c : ConstPtr), st.memsize < 32 →
        (LZ4_XXH64_update t st c c.mem.length).2.memsize < 32)
      ∧ ∀ (s0 : LZ4_XXH64_state_t) (seed : Nat) (chunks : List ConstPtr),
        (LZ4_XXH64_feed t (LZ4_XXH64_reset s0 seed).2 chunks).memsize < 32 :=
  ⟨fun st c h => LZ4_XXH64_update_memsize t st c h,
    fun s0 seed chunks =>
      LZ4_XXH64_feed_memsize t chunks (LZ4_XXH64_reset s0 seed).2
        (show (0 : Nat) < 32 from by decide)⟩

theorem LZ4_XXH64_memsize_invariant_witness :
    (LZ4_XXH64_update ⟨true, false, false⟩
        ⟨0, 1, 2, 3, 4, List.replicate 32 0, 31⟩ ⟨4096, List.replicate 70 7⟩
        (List.replicate 70 (7 : BYTE)).length).2.memsize < 32 :=
  (LZ4_XXH64_memsize_invariant ⟨true, false, false⟩).1
    ⟨0, 1, 2, 3, 4, List.replicate 32 0, 31⟩ ⟨4096, List.replicate 70 7⟩ (by decide)

/-! ## The 32-bit length counter -/

theorem XXH32_fill_total (st : LZ4_XXH32_state_t) (m : List BYTE) :
    (XXH32_fill st m).2.total_len_32 = st.total_len_32 := by
  unfold XXH32_fill
  by_cases h : st.memsize ≠ 0
  · rw [if_pos h]
  · rw [if_neg h]

theorem XXH32_loop_total (m : List BYTE) (ps : Nat × LZ4_XXH32_state_t) :
    (XXH32_loop m ps).2.total_len_32 = ps.2.total_len_32 := by
  unfold XXH32_loop
  by_cases h : ps.1 + 16 ≤ m.length
  · rw [if_pos h]
  · rw [if_neg h]

theorem XXH32_rest_total (m : List BYTE) (ps : Nat × LZ4_XXH32_state_t) :
    (XXH32_rest m ps).total_len_32 = ps.2.total_len_32 := by
  unfold XXH32_rest
  by_cases h : ps.1 < m.length
  · rw [if_pos h]
  · rw [if_neg h]

/-- One update of a well-formed chunk adds its length to the counter modulo `2^32`,
whatever the length is. -/
theorem LZ4_XXH32_update_total (t : Target) (st : LZ4_XXH32_state_t) (c : ConstPtr) (n : Nat)
    (h : st.total_len_32 = n % 2 ^ 32) (hwf : c.wellFormed) :
    (LZ4_XXH32_update t st c c.mem.length).2.total_len_32 = (n + c.mem.length) % 2 ^ 32 := by
  rw [LZ4_XXH32_update_dispatch]
  by_cases hnull : (t.accept_null_input_pointer && c.addr == 0) = true
  · have hc : c.mem = [] :=
      hwf (by simp only [Bool.and_eq_true, beq_iff_eq] at hnull; exact hnull.2)
    unfold LZ4_XXH32_update_endian
    rw [if_pos hnull, hc]
    exact h
  · obtain ⟨a, m⟩ := c
    rw [LZ4_XXH32_update_endian_stages t st a m hnull]
    have hcount : (XXH32_count st m.length).total_len_32 = (n + m.length) % 2 ^ 32 := by
      show (st.total_len_32 + m.length % 2 ^ 32) % 2 ^ 32 = _
      rw [h]
      omega
    by_cases hs : (st.memsize + m.length) % 2 ^ 64 < 16
    · rw [if_pos hs]
      exact hcount
    · rw [if_neg hs]
      rw [XXH32_rest_total, XXH32_loop_total, XXH32_fill_total]
      exact hcount

theorem LZ4_XXH32_feed_total (t : Target) (chunks : List ConstPtr) :
    ∀ (st : LZ4_XXH32_state_t) (n : Nat), st.total_len_32 = n % 2 ^ 32 →
      (∀ c ∈ chunks, c.wellFormed) →
      (LZ4_XXH32_feed t st chunks).total_len_32
        = (n + (chunks.map (fun c => c.mem.length)).sum) % 2 ^ 32 := by
  induction chunks with
  | nil => intro st n h _; exact h
  | cons c cs ih =>
    intro st n h hwf
    have h1 := LZ4_XXH32_update_total t st c n h (hwf c (List.mem_cons_self _ _))
    have h2 := ih _ _ h1 (fun c' hc' => hwf c' (List.mem_cons_of_mem _ hc'))
    rw [List.map_cons, List.sum_cons, ← Nat.add_assoc]
    exact h2

/-- The digest is the finishing block applied to the converged accumulator plus the
counter `total_len_32`. -/
theorem LZ4_XXH32_digest_blocks (t : Target) (st : LZ4_XXH32_state_t) :
    LZ4_XXH32_digest t st
      = XXH32_digest_finish st ((XXH32_digest_converge st + st.total_len_32) % 2 ^ 32) := by
  rw [LZ4_XXH32_digest_dispatch]
  unfold LZ4_XXH32_digest_endian
  simp only [readLE32_eq_le32]
  rfl

/-- C20: on every target, for every seed and every sequence of well-formed chunks, after
`LZ4_XXH32_reset` (from any prior state) and one `LZ4_XXH32_update` per chunk,
`total_len_32` is the sum of the chunk lengths modulo `2^32`; `LZ4_XXH32_digest` adds
exactly this value to the converged accumulator before the tail; and when the chunks
concatenate to a well-formed input of `2^32` bytes or more (and fewer than `2^64`), the
streaming digest equals `LZ4_XXH32` of that input. -/
theorem LZ4_XXH32_total_len_wraps (t : Target) (seed : Nat) (s0 : LZ4_XXH32_state_t)
    (chunks : List ConstPtr) (hchunks : ∀ c ∈ chunks, c.wellFormed) :
    (LZ4_XXH32_feed t (LZ4_XXH32_reset s0 seed).2 chunks).total_len_32
        = (chunks.map (fun c => c.mem.length)).sum % 2 ^ 32
      ∧ LZ4_XXH32_digest t (LZ4_XXH32_feed t (LZ4_XXH32_reset s0 seed).2 chunks)
        = XXH32_digest_finish (LZ4_XXH32_feed t (LZ4_XXH32_reset s0 seed).2 chunks)
            ((XXH32_digest_converge (LZ4_XXH32_feed t (LZ4_XXH32_reset s0 seed).2 chunks)
              + (chunks.map (fun c => c.mem.length)).sum % 2 ^ 32) % 2 ^ 32)
      ∧ ∀ input : ConstPtr, input.wellFormed → chunkBytes chunks = input.mem →
          2 ^ 32 ≤ input.mem.length → input.mem.length < 2 ^ 64 →
          LZ4_XXH32_digest t (LZ4_XXH32_feed t (LZ4_XXH32_reset s0 seed).2 chunks)
            = LZ4_XXH32 t input input.mem.length seed := by
  have htot := LZ4_XXH32_feed_total t chunks (LZ4_XXH32_reset s0 seed).2 0 rfl hchunks
  rw [Nat.zero_add] at htot
  refine ⟨htot, ?_, ?_⟩
  · rw [← htot]
    exact LZ4_XXH32_digest_blocks t _
  · intro input hinput hcat _ hlen
    have h := Tracks32_feed t seed chunks [] _ (Tracks32_reset s0 seed) hchunks
      (by rw [List.nil_append, hcat]; exact hlen)
    rw [List.nil_append, hcat] at h
    rw [LZ4_XXH32_digest_eq_unrolled t seed input.mem _ h,
      LZ4_XXH32_eq_unrolled t input seed hinput]

theorem LZ4_XXH32_total_len_wraps_witness :
    (LZ4_XXH32_feed ⟨true, false, false⟩ (LZ4_XXH32_reset ⟨1, 2, 3, 4, 5, 6, [], 7⟩ 7).2
        [⟨4096, List.replicate (2 ^ 32) 0⟩, ⟨8192, [1, 2, 3]⟩]).total_len_32 = 3
      ∧ LZ4_XXH32_digest ⟨true, false, false⟩
          (LZ4_XXH32_feed ⟨true, false, false⟩ (LZ4_XXH32_reset ⟨1, 2, 3, 4, 5, 6, [], 7⟩ 7).2
            [⟨4096, List.replicate (2 ^ 32) 0⟩, ⟨8192, [1, 2, 3]⟩])
        = LZ4_XXH32 ⟨true, false, false⟩ ⟨4096, List.replicate (2 ^ 32) 0 ++ [1, 2, 3]⟩
            (⟨4096, List.replicate (2 ^ 32) 0 ++ [1, 2, 3]⟩ : ConstPtr).mem.length 7 := by
  have hsum : ∀ (l : List BYTE) (n : Nat), l.length = n →
      (([⟨4096, l⟩, ⟨8192, [1, 2, 3]⟩] : List ConstPtr).map (fun c => c.mem.length)).sum
        % 2 ^ 32 = (n + 3) % 2 ^ 32 := by
    intro l n hl
    subst hl
    simp
  have hlen : ∀ (l : List BYTE) (n : Nat), l.length = n →
      (⟨4096, l ++ [1, 2, 3]⟩ : ConstPtr).mem.length = n + 3 := by
    intro l n hl
    subst hl
    simp
  have h := LZ4_XXH32_total_len_wraps ⟨true, false, false⟩ 7 ⟨1, 2, 3, 4, 5, 6, [], 7⟩
    [⟨4096, List.replicate (2 ^ 32) 0⟩, ⟨8192, [1, 2, 3]⟩]
    (by
      intro c hc
      intro h0
      simp only [List.mem_cons, List.mem_singleton, List.not_mem_nil, or_false] at hc
      rcases hc with rfl | rfl
      · exact absurd h0 (by decide)
      · exact absurd h0 (by decide))
  have hl := hlen (List.replicate (2 ^ 32) 0) (2 ^ 32) (List.length_replicate _ _)
  refine ⟨h.1.trans ((hsum (List.replicate (2 ^ 32) 0) (2 ^ 32)
      (List.length_replicate _ _)).trans (by decide)),
    h.2.2 ⟨4096, List.replicate (2 ^ 32) 0 ++ [1, 2, 3]⟩ ?_ ?_ ?_ ?_⟩
  · intro h0
    exact absurd h0 (by decide)
  · simp only [chunkBytes, List.map_cons, List.map_nil, List.flatten_cons, List.flatten_nil,
      List.append_nil]
  · rw [hl]
    decide
  · rw [hl]
    decide

/-! ## Reset, error code, copy, digest and version -/

theorem LZ4_XXH32_update_endian_null (t : Target) (st : LZ4_XXH32_state_t) (c : ConstPtr)
    (len : Nat) (e : LZ4_XXH_endianess)
    (hnull : (t.accept_null_input_pointer && c.addr == 0) = true) :
    LZ4_XXH32_update_endian t st c len e = (LZ4_XXH_ERROR, st) := by
  unfold LZ4_XXH32_update_endian
  rw [if_pos hnull]

theorem LZ4_XXH64_update_endian_null (t : Target) (st : LZ4_XXH64_state_t) (c : ConstPtr)
    (len : Nat) (e : LZ4_XXH_endianess)
    (hnull : (t.accept_null_input_pointer && c.addr == 0) = true) :
    LZ4_XXH64_update_endian t st c len e = (LZ4_XXH_ERROR, st) := by
  unfold LZ4_XXH64_update_endian
  rw [if_pos hnull]

theorem LZ4_XXH32_update_endian_ok (t : Target) (st : LZ4_XXH32_state_t) (c : ConstPtr)
    (len : Nat) (e : LZ4_XXH_endianess)
    (hnull : ¬ (t.accept_null_input_pointer && c.addr == 0) = true) :
    (LZ4_XXH32_update_endian t st c len e).1 = LZ4_XXH_OK := by
  unfold LZ4_XXH32_update_endian
  rw [if_neg hnull]
  dsimp only
  split <;> rfl

theorem LZ4_XXH64_update_endian_ok (t : Target) (st : LZ4_XXH64_state_t) (c : ConstPtr)
    (len : Nat) (e : LZ4_XXH_endianess)
    (hnull : ¬ (t.accept_null_input_pointer && c.addr == 0) = true) :
    (LZ4_XXH64_update_endian t st c len e).1 = LZ4_XXH_OK := by
  unfold LZ4_XXH64_update_endian
  rw [if_neg hnull]
  dsimp only
  split <;> rfl

theorem null_check_iff (t : Target) (c : ConstPtr) :
    (t.accept_null_input_pointer && c.addr == 0) = true
      ↔ (t.accept_null_input_pointer = true ∧ c.addr = 0) := by
  simp only [Bool.and_eq_true, beq_iff_eq]

theorem LZ4_XXH32_update_error_iff (t : Target) (st : LZ4_XXH32_state_t) (c : ConstPtr)
    (len : Nat) :
    (LZ4_XXH32_update t st c len).1 = LZ4_XXH_ERROR
      ↔ (t.accept_null_input_pointer = true ∧ c.addr = 0) := by
  rw [LZ4_XXH32_update_dispatch, ← null_check_iff]
  by_cases hnull : (t.accept_null_input_pointer && c.addr == 0) = true
  · rw [LZ4_XXH32_update_endian_null t st c len _ hnull]
    exact ⟨fun _ => hnull, fun _ => rfl⟩
  · rw [LZ4_XXH32_update_endian_ok t st c len _ hnull]
    exact ⟨fun h => (by cases h), fun h => absurd h hnull⟩

theorem LZ4_XXH64_update_error_iff (t : Target) (st : LZ4_XXH64_state_t) (c : ConstPtr)
    (len : Nat) :
    (LZ4_XXH64_update t st c len).1 = LZ4_XXH_ERROR
      ↔ (t.accept_null_input_pointer = true ∧ c.addr = 0) := by
  rw [LZ4_XXH64_update_dispatch, ← null_check_iff]
  by_cases hnull : (t.accept_null_input_pointer && c.addr == 0) = true
  · rw [LZ4_XXH64_update_endian_null t st c len _ hnull]
    exact ⟨fun _ => hnull, fun _ => rfl⟩
  · rw [LZ4_XXH64_update_endian_ok t st c len _ hnull]
    exact ⟨fun h => (by cases h), fun h => absurd h hnull⟩

theorem LZ4_XXH32_update_error_state (t : Target) (st : LZ4_XXH32_state_t) (c : ConstPtr)
    (len : Nat) (h : (LZ4_XXH32_update t st c len).1 = LZ4_XXH_ERROR) :
    (LZ4_XXH32_update t st c len).2 = st := by
  have hnull := (null_check_iff t c).mpr ((LZ4_XXH32_update_error_iff t st c len).mp h)
  rw [LZ4_XXH32_update_dispatch, LZ4_XXH32_update_endian_null t st c len _ hnull]

theorem LZ4_XXH64_update_error_state (t : Target) (st : LZ4_XXH64_state_t) (c : ConstPtr)
    (len : Nat) (h : (LZ4_XXH64_update t st c len).1 = LZ4_XXH_ERROR) :
    (LZ4_XXH64_update t st c len).2 = st := by
  have hnull := (null_check_iff t c).mpr ((LZ4_XXH64_update_error_iff t st c len).mp h)
  rw [LZ4_XXH64_update_dispatch, LZ4_XXH64_update_endian_null t st c len _ hnull]

/-- C22: for every prior state and every 32-bit seed, `LZ4_XXH32_reset` returns
`LZ4_XXH_OK` and leaves `v1 = seed + PRIME32_1 + PRIME32_2`, `v2 = seed + PRIME32_2`
(both modulo `2^32`), `v3 = seed`, `v4 = seed - PRIME32_1` modulo `2^32` (the integer
difference reduced to `0 .. 2^32-1`), `total_len_32 = 0`, `large_len = 0`, `memsize = 0`
and 16 zero bytes in the buffer; the result does not depend on the prior state. -/
theorem LZ4_XXH32_reset_post (s0 : LZ4_XXH32_state_t) (seed : Nat) (hseed : seed < 2 ^ 32) :
    (LZ4_XXH32_reset s0 seed).1 = LZ4_XXH_OK
      ∧ (LZ4_XXH32_reset s0 seed).2.v1 = (seed + PRIME32_1 + PRIME32_2) % 2 ^ 32
      ∧ (LZ4_XXH32_reset s0 seed).2.v2 = (seed + PRIME32_2) % 2 ^ 32
      ∧ (LZ4_XXH32_reset s0 seed).2.v3 = seed
      ∧ (((LZ4_XXH32_reset s0 seed).2.v4 : Nat) : Int)
          = ((seed : Int) - (PRIME32_1 : Int)) % 2 ^ 32
      ∧ (LZ4_XXH32_reset s0 seed).2.total_len_32 = 0
      ∧ (LZ4_XXH32_reset s0 seed).2.large_len = 0
      ∧ (LZ4_XXH32_reset s0 seed).2.memsize = 0
      ∧ (LZ4_XXH32_reset s0 seed).2.mem32 = List.replicate 16 0
      ∧ ∀ s1 : LZ4_XXH32_state_t, LZ4_XXH32_reset s1 seed = LZ4_XXH32_reset s0 seed := by
  refine ⟨rfl, rfl, rfl, ?_, ?_, rfl, rfl, rfl, rfl, fun _ => rfl⟩
  · show (seed + 0) % 2 ^ 32 = seed
    omega
  · show (((seed + 2 ^ 32 - PRIME32_1) % 2 ^ 32 : Nat) : Int) = _
    unfold PRIME32_1
    omega

theorem LZ4_XXH32_reset_post_witness :
    (5 : Nat) < 2 ^ 32
      ∧ (LZ4_XXH32_reset ⟨1, 2, 3, 4, 5, 6, [7], 8⟩ 5).2.v3 = 5
      ∧ (LZ4_XXH32_reset ⟨1, 2, 3, 4, 5, 6, [7], 8⟩ 5).2.memsize = 0
      ∧ (LZ4_XXH32_reset ⟨1, 2, 3, 4, 5, 6, [7], 8⟩ 5).2.mem32 = List.replicate 16 0 :=
  have h := LZ4_XXH32_reset_post ⟨1, 2, 3, 4, 5, 6, [7], 8⟩ 5 (by decide)
  ⟨by decide, h.2.2.2.1, h.2.2.2.2.2.2.2.1, h.2.2.2.2.2.2.2.2.1⟩

/-- C23: when `LZ4_XXH_ACCEPT_NULL_INPUT_POINTER` is not defined, or when the input pointer
is not null, `LZ4_XXH32_update` and `LZ4_XXH64_update` return `LZ4_XXH_OK`, for every
state, every chunk and every length argument. -/
theorem LZ4_XXH_update_ok (t : Target) (st32 : LZ4_XXH32_state_t) (st64 : LZ4_XXH64_state_t)
    (c : ConstPtr) (len : Nat) (h : t.accept_null_input_pointer = false ∨ c.addr ≠ 0) :
    (LZ4_XXH32_update t st32 c len).1 = LZ4_XXH_OK
      ∧ (LZ4_XXH64_update t st64 c len).1 = LZ4_XXH_OK := by
  have hnull : ¬ (t.accept_null_input_pointer && c.addr == 0) = true := by
    rw [null_check_iff]
    rintro ⟨h1, h2⟩
    rcases h with h | h
    · rw [h] at h1; cases h1
    · exact h h2
  rw [LZ4_XXH32_update_dispatch, LZ4_XXH64_update_dispatch]
  exact ⟨LZ4_XXH32_update_endian_ok t st32 c len _ hnull,
    LZ4_XXH64_update_endian_ok t st64 c len _ hnull⟩

theorem LZ4_XXH_update_ok_witness :
    (LZ4_XXH32_update ⟨true, false, false⟩ (LZ4_XXH32_reset ⟨1, 2, 3, 4, 5, 6, [], 7⟩ 0).2
        ⟨0, []⟩ 0).1 = LZ4_XXH_OK
      ∧ (LZ4_XXH64_update ⟨true, false, false⟩ (LZ4_XXH64_reset ⟨1, 2, 3, 4, 5, [], 7⟩ 0).2
        ⟨0, []⟩ 0).1 = LZ4_XXH_OK :=
  LZ4_XXH_update_ok ⟨true, false, false⟩ _ _ ⟨0, []⟩ 0 (Or.inl rfl)

/-- C24: `LZ4_XXH32_update` and `LZ4_XXH64_update` return `LZ4_XXH_ERROR` exactly when
`LZ4_XXH_ACCEPT_NULL_INPUT_POINTER` is defined and the input pointer is null; whenever they
do, the state they leave is the state they were given, field for field, so a following
update with any chunk and the digest after it are those of the state before the failed
call. -/
theorem LZ4_XXH_update_error_atomic (t : Target) (st32 : LZ4_XXH32_state_t)
    (st64 : LZ4_XXH64_state_t) (c : ConstPtr) (len : Nat) :
    ((LZ4_XXH32_update t st32 c len).1 = LZ4_XXH_ERROR
        ↔ (t.accept_null_input_pointer = true ∧ c.addr = 0))
      ∧ ((LZ4_XXH64_update t st64 c len).1 = LZ4_XXH_ERROR
        ↔ (t.accept_null_input_pointer = true ∧ c.addr = 0))
      ∧ ((LZ4_XXH32_update t st32 c len).1 = LZ4_XXH_ERROR →
          (LZ4_XXH32_update t st32 c len).2 = st32
            ∧ ∀ (c2 : ConstPtr) (len2 : Nat),
              LZ4_XXH32_update t (LZ4_XXH32_update t st32 c len).2 c2 len2
                  = LZ4_XXH32_update t st32 c2 len2
                ∧ LZ4_XXH32_digest t
                    (LZ4_XXH32_update t (LZ4_XXH32_update t st32 c len).2 c2 len2).2
                  = LZ4_XXH32_digest t (LZ4_XXH32_update t st32 c2 len2).2)
      ∧ ((LZ4_XXH64_update t st64 c len).1 = LZ4_XXH_ERROR →
          (LZ4_XXH64_update t st64 c len).2 = st64
            ∧ ∀ (c2 : ConstPtr) (len2 : Nat),
              LZ4_XXH64_update t (LZ4_XXH64_update t st64 c len).2 c2 len2
                  = LZ4_XXH64_update t st64 c2 len2
                ∧ LZ4_XXH64_digest t
                    (LZ4_XXH64_update t (LZ4_XXH64_update t st64 c len).2 c2 len2).2
                  = LZ4_XXH64_digest t (LZ4_XXH64_update t st64 c2 len2).2) := by
  refine ⟨LZ4_XXH32_update_error_iff t st32 c len, LZ4_XXH64_update_error_iff t st64 c len,
    ?_, ?_⟩
  · intro h
    have e := LZ4_XXH32_update_error_state t st32 c len h
    refine ⟨e, fun c2 len2 => ?_⟩
    rw [e]
    exact ⟨rfl, rfl⟩
  · intro h
    have e := LZ4_XXH64_update_error_state t st64 c len h
    refine ⟨e, fun c2 len2 => ?_⟩
    rw [e]
    exact ⟨rfl, rfl⟩

theorem LZ4_XXH_update_error_atomic_witness :
    (LZ4_XXH32_update ⟨true, false, true⟩ ⟨3, 0, 1, 2, 3, 4, List.replicate 16 5, 3⟩
        ⟨0, [1, 2]⟩ 2).1 = LZ4_XXH_ERROR
      ∧ (LZ4_XXH32_update ⟨true, false, true⟩ ⟨3, 0, 1, 2, 3, 4, List.replicate 16 5, 3⟩
        ⟨0, [1, 2]⟩ 2).2 = ⟨3, 0, 1, 2, 3, 4, List.replicate 16 5, 3⟩
      ∧ (LZ4_XXH64_update ⟨true, false, true⟩ ⟨3, 1, 2, 3, 4, List.replicate 32 5, 3⟩
        ⟨0, [1, 2]⟩ 2).2 = ⟨3, 1, 2, 3, 4, List.replicate 32 5, 3⟩ :=
  have h := LZ4_XXH_update_error_atomic ⟨true, false, true⟩
    ⟨3, 0, 1, 2, 3, 4, List.replicate 16 5, 3⟩ ⟨3, 1, 2, 3, 4, List.replicate 32 5, 3⟩
    ⟨0, [1, 2]⟩ 2
  ⟨by decide, (h.2.2.1 (by decide)).1, (h.2.2.2 (by decide)).1⟩

/-- C25: after `LZ4_XXH32_copyState(dst, src)` (and after `LZ4_XXH64_copyState(dst, src)`)
the destination equals the source in every field and the source is as before, whatever the
destination held; hence the same updates applied to both give equal states and equal
digests. -/
theorem LZ4_XXH_copyState_equiv (t : Target) (dst32 src32 : LZ4_XXH32_state_t)
    (dst64 src64 : LZ4_XXH64_state_t) (chunks : List ConstPtr) :
    LZ4_XXH32_copyState_call dst32 src32 = (src32, src32)
      ∧ LZ4_XXH64_copyState_call dst64 src64 = (src64, src64)
      ∧ LZ4_XXH32_digest t (LZ4_XXH32_feed t (LZ4_XXH32_copyState_call dst32 src32).1 chunks)
        = LZ4_XXH32_digest t
            (LZ4_XXH32_feed t (LZ4_XXH32_copyState_call dst32 src32).2 chunks)
      ∧ LZ4_XXH64_digest t (LZ4_XXH64_feed t (LZ4_XXH64_copyState_call dst64 src64).1 chunks)
        = LZ4_XXH64_digest t
            (LZ4_XXH64_feed t (LZ4_XXH64_copyState_call dst64 src64).2 chunks) :=
  ⟨rfl, rfl, rfl, rfl⟩

/-- C26: the call `LZ4_XXH32_digest(s)` leaves every field of `s` as it was; a second
digest returns the same hash; and for every chunk the update after the digest call and
the digest after that update are those obtained without the earlier digest call. -/
theorem LZ4_XXH32_digest_nondestructive (t : Target) (s : LZ4_XXH32_state_t)
    (c : ConstPtr) (len : Nat) :
    (LZ4_XXH32_digest_call t s).2 = s
      ∧ (LZ4_XXH32_digest_call t (LZ4_XXH32_digest_call t s).2).1
        = (LZ4_XXH32_digest_call t s).1
      ∧ LZ4_XXH32_update t (LZ4_XXH32_digest_call t s).2 c len = LZ4_XXH32_update t s c len
      ∧ (LZ4_XXH32_digest_call t
            (LZ4_XXH32_update t (LZ4_XXH32_digest_call t s).2 c len).2).1
        = (LZ4_XXH32_digest_call t (LZ4_XXH32_update t s c len).2).1 :=
  ⟨rfl, rfl, rfl, rfl⟩

/-- C27: `LZ4_XXH_versionNumber()` returns 602, which is
`LZ4_XXH_VERSION_MAJOR*10000 + LZ4_XXH_VERSION_MINOR*100 + LZ4_XXH_VERSION_RELEASE` for the
version 0.6.2 of the header. -/
theorem LZ4_XXH_versionNumber_eq :
    LZ4_XXH_versionNumber = 602
      ∧ LZ4_XXH_versionNumber
        = LZ4_XXH_VERSION_MAJOR * 10000 + LZ4_XXH_VERSION_MINOR * 100
          + LZ4_XXH_VERSION_RELEASE
      ∧ LZ4_XXH_VERSION_MAJOR = 0 ∧ LZ4_XXH_VERSION_MINOR = 6
      ∧ LZ4_XXH_VERSION_RELEASE = 2 := by
  decide

/-! ## The 32-bit large flag -/

theorem XXH32_fill_large (st : LZ4_XXH32_state_t) (m : List BYTE) :
    (XXH32_fill st m).2.large_len = st.large_len := by
  unfold XXH32_fill
  by_cases h : st.memsize ≠ 0
  · rw [if_pos h]
  · rw [if_neg h]

theorem XXH32_loop_large (m : List BYTE) (ps : Nat × LZ4_XXH32_state_t) :
    (XXH32_loop m ps).2.large_len = ps.2.large_len := by
  unfold XXH32_loop
  by_cases h : ps.1 + 16 ≤ m.length
  · rw [if_pos h]
  · rw [if_neg h]

theorem XXH32_rest_large (m : List BYTE) (ps : Nat × LZ4_XXH32_state_t) :
    (XXH32_rest m ps).large_len = ps.2.large_len := by
  unfold XXH32_rest
  by_cases h : ps.1 < m.length
  · rw [if_pos h]
  · rw [if_neg h]

/-- After an update that is not rejected, the flag is the flag as `XXH32_count` leaves
it. -/
theorem LZ4_XXH32_update_large (t : Target) (st : LZ4_XXH32_state_t) (a : Nat)
    (m : List BYTE) (hnull : ¬ (t.accept_null_input_pointer && a == 0) = true) :
    (LZ4_XXH32_update t st ⟨a, m⟩ m.length).2.large_len
      = (XXH32_count st m.length).large_len := by
  rw [LZ4_XXH32_update_dispatch, LZ4_XXH32_update_endian_stages t st a m hnull]
  by_cases hs : (st.memsize + m.length) % 2 ^ 64 < 16
  · rw [if_pos hs]
    rfl
  · rw [if_neg hs]
    rw [XXH32_rest_large, XXH32_loop_large, XXH32_fill_large]

/-- The flag after counting a chunk of `len` bytes, when the counter holds `n mod 2^32`
and the flag says whether `n` has reached 16: it says whether `n + len` has. -/
theorem XXH32_count_large (st : LZ4_XXH32_state_t) (n len : Nat)
    (htot : st.total_len_32 = n % 2 ^ 32) (hlarge : st.large_len ≠ 0 ↔ 16 ≤ n) :
    (XXH32_count st len).large_len ≠ 0 ↔ 16 ≤ n + len := by
  show st.large_len ||| ((if len ≥ 16 then 1 else 0)
    ||| (if (st.total_len_32 + len % 2 ^ 32) % 2 ^ 32 ≥ 16 then 1 else 0)) ≠ 0 ↔ _
  rw [htot, Ne, lor_eq_zero_iff, lor_eq_zero_iff]
  have e : (n % 2 ^ 32 + len % 2 ^ 32) % 2 ^ 32 = (n + len) % 2 ^ 32 := by omega
  rw [e]
  by_cases h1 : 16 ≤ n
  · have := hlarge.mpr h1
    constructor
    · intro _; omega
    · intro _ hc; exact this hc.1
  · have h0 : st.large_len = 0 := by
      by_contra hc
      exact h1 (hlarge.mp hc)
    by_cases h2 : len ≥ 16
    · simp only [h0, h2, if_true]
      constructor
      · intro _; omega
      · intro _ hc; simp at hc
    · by_cases h3 : (n + len) % 2 ^ 32 ≥ 16
      · simp only [h0, h2, h3, if_true, if_false]
        constructor
        · intro _; omega
        · intro _ hc; simp at hc
      · simp only [h0, h2, h3, if_false]
        constructor
        · intro hc; simp at hc
        · intro hc; omega

/-- One update of a well-formed chunk keeps the counter and the flag in step with the
number of bytes fed, however large that number is. -/
theorem LZ4_XXH32_update_large_iff (t : Target) (st : LZ4_XXH32_state_t) (c : ConstPtr)
    (n : Nat) (htot : st.total_len_32 = n % 2 ^ 32) (hlarge : st.large_len ≠ 0 ↔ 16 ≤ n)
    (hwf : c.wellFormed) :
    (LZ4_XXH32_update t st c c.mem.length).2.large_len ≠ 0 ↔ 16 ≤ n + c.mem.length := by
  by_cases hnull : (t.accept_null_input_pointer && c.addr == 0) = true
  · have hc : c.mem = [] :=
      hwf (by simp only [Bool.and_eq_true, beq_iff_eq] at hnull; exact hnull.2)
    rw [LZ4_XXH32_update_dispatch]
    unfold LZ4_XXH32_update_endian
    rw [if_pos hnull, hc]
    exact hlarge
  · obtain ⟨a, m⟩ := c
    rw [LZ4_XXH32_update_large t st a m hnull]
    exact XXH32_count_large st n m.length htot hlarge

theorem LZ4_XXH32_feed_large_iff (t : Target) (chunks : List ConstPtr) :
    ∀ (st : LZ4_XXH32_state_t) (n : Nat), st.total_len_32 = n % 2 ^ 32 →
      (st.large_len ≠ 0 ↔ 16 ≤ n) → (∀ c ∈ chunks, c.wellFormed) →
      ((LZ4_XXH32_feed t st chunks).large_len ≠ 0
        ↔ 16 ≤ n + (chunks.map (fun c => c.mem.length)).sum) := by
  induction chunks with
  | nil => intro st n _ h _; simpa [LZ4_XXH32_feed] using h
  | cons c cs ih =>
    intro st n htot hlarge hwf
    have hc := hwf c (List.mem_cons_self _ _)
    have h1 := LZ4_XXH32_update_total t st c n htot hc
    have h2 := LZ4_XXH32_update_large_iff t st c n htot hlarge hc
    have h3 := ih _ _ h1 h2 (fun c' hc' => hwf c' (List.mem_cons_of_mem _ hc'))
    rw [List.map_cons, List.sum_cons, ← Nat.add_assoc]
    exact h3

/-- An update never clears the flag. -/
theorem LZ4_XXH32_update_large_mono (t : Target) (st : LZ4_XXH32_state_t) (c : ConstPtr)
    (h : st.large_len ≠ 0) : (LZ4_XXH32_update t st c c.mem.length).2.large_len ≠ 0 := by
  by_cases hnull : (t.accept_null_input_pointer && c.addr == 0) = true
  · rw [LZ4_XXH32_update_dispatch]
    unfold LZ4_XXH32_update_endian
    rw [if_pos hnull]
    exact h
  · obtain ⟨a, m⟩ := c
    rw [LZ4_XXH32_update_large t st a m hnull]
    show st.large_len ||| _ ≠ 0
    rw [Ne, lor_eq_zero_iff]
    exact fun hc => h hc.1

/-- C21: on every target, for every seed and every sequence of well-formed chunks of any
lengths, after `LZ4_XXH32_reset` (from any prior state) and one `LZ4_XXH32_update` per
chunk, `large_len` is non-zero if and only if the sum of the chunk lengths, not reduced
modulo `2^32`, is at least 16; and an update of any state whose `large_len` is non-zero,
with any chunk, leaves it non-zero. -/
theorem LZ4_XXH32_large_len_iff (t : Target) (seed : Nat) (s0 : LZ4_XXH32_state_t)
    (chunks : List ConstPtr) (hchunks : ∀ c ∈ chunks, c.wellFormed) :
    ((LZ4_XXH32_feed t (LZ4_XXH32_reset s0 seed).2 chunks).large_len ≠ 0
        ↔ 16 ≤ (chunks.map (fun c => c.mem.length)).sum)
      ∧ ∀ (st : LZ4_XXH32_state_t) (c : ConstPtr), st.large_len ≠ 0 →
          (LZ4_XXH32_update t st c c.mem.length).2.large_len ≠ 0 := by
  refine ⟨?_, fun st c h => LZ4_XXH32_update_large_mono t st c h⟩
  have h := LZ4_XXH32_feed_large_iff t chunks (LZ4_XXH32_reset s0 seed).2 0 rfl
    (by
      show (0 : Nat) ≠ 0 ↔ 16 ≤ 0
      constructor
      · intro h; exact absurd rfl h
      · intro h; omega) hchunks
  rw [Nat.zero_add] at h
  exact h

theorem LZ4_XXH32_large_len_iff_witness :
    (LZ4_XXH32_feed ⟨true, false, false⟩ (LZ4_XXH32_reset ⟨1, 2, 3, 4, 5, 6, [], 7⟩ 7).2
        [⟨4096, List.replicate (2 ^ 32) 0⟩]).total_len_32 = 0
      ∧ (LZ4_XXH32_feed ⟨true, false, false⟩ (LZ4_XXH32_reset ⟨1, 2, 3, 4, 5, 6, [], 7⟩ 7).2
        [⟨4096, List.replicate (2 ^ 32) 0⟩]).large_len ≠ 0 := by
  have hsum : ∀ (l : List BYTE) (n : Nat), l.length = n →
      (([⟨4096, l⟩] : List ConstPtr).map (fun c => c.mem.length)).sum = n := by
    intro l n hl
    subst hl
    simp
  have hwf : ∀ c ∈ ([⟨4096, List.replicate (2 ^ 32) 0⟩] : List ConstPtr), c.wellFormed := by
    intro c hc h0
    simp only [List.mem_singleton] at hc
    subst hc
    exact absurd h0 (by decide)
  have hs := hsum (List.replicate (2 ^ 32) 0) (2 ^ 32) (List.length_replicate _ _)
  have h := LZ4_XXH32_large_len_iff ⟨true, false, false⟩ 7 ⟨1, 2, 3, 4, 5, 6, [], 7⟩
    [⟨4096, List.replicate (2 ^ 32) 0⟩] hwf
  have ht := LZ4_XXH32_feed_total ⟨true, false, false⟩ [⟨4096, List.replicate (2 ^ 32) 0⟩]
    (LZ4_XXH32_reset ⟨1, 2, 3, 4, 5, 6, [], 7⟩ 7).2 0 rfl hwf
  rw [hs] at ht
  refine ⟨ht.trans (by decide), h.1.mpr ?_⟩
  rw [hs]
  decide

/-! ## The representation invariant for chunks that fit the address space -/

/-- One update keeps the 32-bit representation invariant whenever `memsize + len` does not
wrap, however many bytes were fed before. -/
theorem Tracks32_update_of_fit (t : Target) (seed : Nat) (b : List BYTE)
    (st : LZ4_XXH32_state_t) (c : ConstPtr) (h : Tracks32 seed b st) (hwf : c.wellFormed)
    (hlen : c.mem.length + 16 ≤ 2 ^ 64) :
    Tracks32 seed (b ++ c.mem) (LZ4_XXH32_update t st c c.mem.length).2 := by
  rw [LZ4_XXH32_update_dispatch]
  by_cases hnull : (t.accept_null_input_pointer && c.addr == 0) = true
  · have hc : c.mem = [] :=
      hwf (by simp only [Bool.and_eq_true, beq_iff_eq] at hnull; exact hnull.2)
    unfold LZ4_XXH32_update_endian
    rw [if_pos hnull, hc, List.append_nil]
    exact h
  · obtain ⟨a, m⟩ := c
    rw [LZ4_XXH32_update_endian_stages t st a m hnull]
    have hms := h.memsize
    by_cases hs : (st.memsize + m.length) % 2 ^ 64 < 16
    · rw [if_pos hs]
      exact Tracks32_small seed b m st h (by simp only at hlen; omega)
    · rw [if_neg hs]
      have hmid := Mid32_fill seed b m st h (by simp only at hlen; omega)
      obtain ⟨hmid', hlt⟩ := Mid32_loop seed b m _ hmid
      exact Tracks32_rest seed b m _ hmid' hlt

theorem Tracks32_feed_of_fit (t : Target) (seed : Nat) (chunks : List ConstPtr) :
    ∀ (b : List BYTE) (st : LZ4_XXH32_state_t), Tracks32 seed b st →
      (∀ c ∈ chunks, c.wellFormed) → (∀ c ∈ chunks, c.mem.length + 16 ≤ 2 ^ 64) →
      Tracks32 seed (b ++ chunkBytes chunks) (LZ4_XXH32_feed t st chunks) := by
  induction chunks with
  | nil =>
    intro b st h _ _
    simpa [chunkBytes, LZ4_XXH32_feed] using h
  | cons c cs ih =>
    intro b st h hwf hlen
    have hcb : chunkBytes (c :: cs) = c.mem ++ chunkBytes cs := rfl
    rw [hcb, ← List.append_assoc]
    have h1 := Tracks32_update_of_fit t seed b st c h (hwf c (List.mem_cons_self _ _))
      (hlen c (List.mem_cons_self _ _))
    exact ih (b ++ c.mem) _ h1 (fun c' hc' => hwf c' (List.mem_cons_of_mem _ hc'))
      (fun c' hc' => hlen c' (List.mem_cons_of_mem _ hc'))

/-- The first `k` bytes of a buffer are the last `k` bytes of `b` when they agree byte by
byte. -/
theorem take_eq_drop_of_getD (buf b : List BYTE) (k : Nat) (hk : k ≤ buf.length)
    (hkb : k ≤ b.length)
    (h : ∀ i, i < k → buf.getD i 0 = b.getD (b.length - k + i) 0) :
    buf.take k = b.drop (b.length - k) := by
  apply List.ext_getElem
  · rw [List.length_take, List.length_drop]
    omega
  · intro i h1 h2
    rw [List.length_take] at h1
    have hi : i < k := by omega
    have e := h i hi
    rw [List.getD_eq_getElem _ _ (by omega), List.getD_eq_getElem _ _ (by omega)] at e
    rw [List.getElem_take, List.getElem_drop]
    exact e

/-- C29: on every target, for every seed and every sequence of chunks, each an object
beside the 16-byte buffer of the state, with concatenation `b` and `n = |b|` (of any
size), the state reached from `LZ4_XXH32_reset(seed)` by the updates has
`memsize = n mod 16`, which is also `total_len_32 mod 16`; the first `memsize` bytes of the
buffer are the last `n mod 16` bytes of `b`; and `(v1, v2, v3, v4)` are the
seed-initialised lanes after `round32` over the little-endian words of the first `n / 16`
consecutive 16-byte blocks of `b`. -/
theorem LZ4_XXH32_representation (t : Target) (seed : Nat) (s0 : LZ4_XXH32_state_t)
    (chunks : List ConstPtr) (hobj : ∀ c ∈ chunks, c.isObject 16) :
    (LZ4_XXH32_feed t (LZ4_XXH32_reset s0 seed).2 chunks).memsize
        = (chunkBytes chunks).length % 16
      ∧ (LZ4_XXH32_feed t (LZ4_XXH32_reset s0 seed).2 chunks).memsize
        = (LZ4_XXH32_feed t (LZ4_XXH32_reset s0 seed).2 chunks).total_len_32 % 16
      ∧ (LZ4_XXH32_feed t (LZ4_XXH32_reset s0 seed).2 chunks).mem32.take
          (LZ4_XXH32_feed t (LZ4_XXH32_reset s0 seed).2 chunks).memsize
        = (chunkBytes chunks).drop
            ((chunkBytes chunks).length - (chunkBytes chunks).length % 16)
      ∧ (⟨(LZ4_XXH32_feed t (LZ4_XXH32_reset s0 seed).2 chunks).v1,
          (LZ4_XXH32_feed t (LZ4_XXH32_reset s0 seed).2 chunks).v2,
          (LZ4_XXH32_feed t (LZ4_XXH32_reset s0 seed).2 chunks).v3,
          (LZ4_XXH32_feed t (LZ4_XXH32_reset s0 seed).2 chunks).v4⟩ : Quad)
        = blocks32 ((chunkBytes chunks).length / 16) (initLanes32 seed) (chunkBytes chunks) := by
  have h := Tracks32_feed_of_fit t seed chunks [] _ (Tracks32_reset s0 seed)
    (fun c hc => (hobj c hc).1) (fun c hc => (hobj c hc).2.2)
  rw [List.nil_append] at h
  generalize LZ4_XXH32_feed t (LZ4_XXH32_reset s0 seed).2 chunks = st at h ⊢
  generalize chunkBytes chunks = b at h ⊢
  obtain ⟨htot, -, hms, hbl, hbuf, hlanes⟩ := h
  refine ⟨hms, ?_, ?_, ?_⟩
  · rw [hms, htot]
    omega
  · rw [hms]
    exact take_eq_drop_of_getD st.mem32 b _ (by omega) (Nat.mod_le _ _) hbuf
  · have hb := blocks32_eq b (b.length / 16) (initLanes32 seed) 0 (by omega)
    rw [List.drop_zero] at hb
    rw [hb]
    have e : iterBlocks LZ4_XXH32_round 4 (le32 b) (b.length / 16)
        ⟨0, (initLanes32 seed).v1, (initLanes32 seed).v2, (initLanes32 seed).v3,
          (initLanes32 seed).v4⟩
        = iterBlocks LZ4_XXH32_round 4 (le32 b) (b.length / 16) (XXH32_initLanes seed) := rfl
    rw [e, ← hlanes]

theorem LZ4_XXH32_representation_witness :
    (LZ4_XXH32_feed ⟨false, true, false⟩ (LZ4_XXH32_reset ⟨1, 2, 3, 4, 5, 6, [], 7⟩ 7).2
        [⟨4096, bytes_00_63.take 3⟩, ⟨0, []⟩, ⟨5000, bytes_00_63.drop 3⟩]).memsize = 4
      ∧ (LZ4_XXH32_feed ⟨false, true, false⟩ (LZ4_XXH32_reset ⟨1, 2, 3, 4, 5, 6, [], 7⟩ 7).2
        [⟨4096, bytes_00_63.take 3⟩, ⟨0, []⟩, ⟨5000, bytes_00_63.drop 3⟩]).mem32.take 4
        = [96, 97, 98, 99] := by
  have h := LZ4_XXH32_representation ⟨false, true, false⟩ 7 ⟨1, 2, 3, 4, 5, 6, [], 7⟩
    [⟨4096, bytes_00_63.take 3⟩, ⟨0, []⟩, ⟨5000, bytes_00_63.drop 3⟩] (by decide)
  have h1 := h.1.trans (show _ = 4 by decide)
  refine ⟨h1, ?_⟩
  have h3 := h.2.2.1
  rw [h1] at h3
  exact h3.trans (by decide)

/-- C28: on every target, for every 64-bit seed and every sequence of well-formed chunks
whose total length is below 32, the state reached from `LZ4_XXH64_reset(seed)` by the
updates has `v3 = seed` and `v1`, `v2`, `v4` at their seed-initialised values, and
`total_len` is the total length, below 32; so the digest takes its small-input branch,
whose `v3 + PRIME64_5` is `seed + PRIME64_5`. -/
theorem LZ4_XXH64_small_input_lanes (t : Target) (seed : Nat) (s0 : LZ4_XXH64_state_t)
    (chunks : List ConstPtr) (hseed : seed < 2 ^ 64) (hchunks : ∀ c ∈ chunks, c.wellFormed)
    (hlen : (chunkBytes chunks).length < 32) :
    (LZ4_XXH64_feed t (LZ4_XXH64_reset s0 seed).2 chunks).v3 = seed
      ∧ (LZ4_XXH64_feed t (LZ4_XXH64_reset s0 seed).2 chunks).v1
        = (seed + PRIME64_1 + PRIME64_2) % 2 ^ 64
      ∧ (LZ4_XXH64_feed t (LZ4_XXH64_reset s0 seed).2 chunks).v2
        = (seed + PRIME64_2) % 2 ^ 64
      ∧ (LZ4_XXH64_feed t (LZ4_XXH64_reset s0 seed).2 chunks).v4
        = (seed + 2 ^ 64 - PRIME64_1) % 2 ^ 64
      ∧ (LZ4_XXH64_feed t (LZ4_XXH64_reset s0 seed).2 chunks).total_len
        = (chunkBytes chunks).length
      ∧ ¬ (LZ4_XXH64_feed t (LZ4_XXH64_reset s0 seed).2 chunks).total_len ≥ 32
      ∧ ((LZ4_XXH64_feed t (LZ4_XXH64_reset s0 seed).2 chunks).v3 + PRIME64_5) % 2 ^ 64
        = (seed + PRIME64_5) % 2 ^ 64 := by
  have h := Tracks64_feed t seed chunks [] _ (Tracks64_reset s0 seed) hchunks
    (by rw [List.nil_append]; omega)
  rw [List.nil_append] at h
  generalize LZ4_XXH64_feed t (LZ4_XXH64_reset s0 seed).2 chunks = st at h ⊢
  generalize chunkBytes chunks = b at h hlen ⊢
  obtain ⟨htot, -, -, -, hlanes⟩ := h
  rw [show b.length / 32 = 0 by omega] at hlanes
  have hv1 := congrArg Lanes.v1 hlanes
  have hv2 := congrArg Lanes.v2 hlanes
  have hv3 := congrArg Lanes.v3 hlanes
  have hv4 := congrArg Lanes.v4 hlanes
  have e3 : st.v3 = seed := by
    rw [show st.v3 = (seed + 0) % 2 ^ 64 from hv3]
    omega
  have et : st.total_len = b.length := by rw [htot]; omega
  refine ⟨e3, hv1, hv2, hv4, et, ?_, ?_⟩
  · rw [et]; omega
  · rw [e3]

theorem LZ4_XXH64_small_input_lanes_witness :
    (LZ4_XXH64_feed ⟨true, false, false⟩ (LZ4_XXH64_reset ⟨1, 2, 3, 4, 5, [], 7⟩ 9).2
        [⟨4096, bytes_00_63.take 20⟩, ⟨0, []⟩, ⟨5000, bytes_00_63.take 11⟩]).v3 = 9 :=
  (LZ4_XXH64_small_input_lanes ⟨true, false, false⟩ 9 ⟨1, 2, 3, 4, 5, [], 7⟩
    [⟨4096, bytes_00_63.take 20⟩, ⟨0, []⟩, ⟨5000, bytes_00_63.take 11⟩] (by decide)
    (by simp [ConstPtr.wellFormed]) (by decide)).1

/-! ## The 64-bit update from an arbitrary state -/

/-- The length counter after counting a chunk, from any start. -/
theorem Walks64_count (init : Lanes) (tot0 : Nat) (b m : List BYTE) (st : LZ4_XXH64_state_t)
    (h : Walks64 init tot0 b st) :
    (XXH64_count st m.length).total_len = (tot0 + (b ++ m).length) % 2 ^ 64 := by
  show (st.total_len + m.length) % 2 ^ 64 = _
  rw [h.total, List.length_append]
  omega

/-- The block rounds over `b ++ m` that stay inside `b` are the block rounds over `b`. -/
theorem iterBlocks64_append_of (init : Lanes) (hp : init.p = 0) (b m : List BYTE) (k : Nat)
    (hk : 32 * k ≤ b.length) :
    iterBlocks LZ4_XXH64_round 8 (le64 (b ++ m)) k init
      = iterBlocks LZ4_XXH64_round 8 (le64 b) k init := by
  apply iterBlocks_congr
  intro i hi
  apply le64_congr
  intro j hj
  exact getD_append_left b m _ (by rw [hp]; omega)

/-- The buffer after appending `cnt` bytes of the chunk holds the bytes of `b ++ m` that
follow the last complete block of `b`. -/
theorem Walks64_buf_after_copy (init : Lanes) (tot0 : Nat)
    (b m : List BYTE) (st : LZ4_XXH64_state_t)
    (h : Walks64 init tot0 b st) (cnt : Nat) (hcnt : b.length % 32 + cnt ≤ 32) :
    ∀ x, x < b.length % 32 + cnt →
      (memcpy st.mem64 (b.length % 32) m 0 cnt).getD x 0
        = (b ++ m).getD (b.length - b.length % 32 + x) 0 := by
  obtain ⟨-, -, hbl, hbuf, -⟩ := h
  intro x hx
  rw [getD_memcpy _ _ _ _ _ _ (by omega)]
  by_cases hc : b.length % 32 ≤ x ∧ x < b.length % 32 + cnt
  · rw [if_pos hc, Nat.zero_add, ← getD_append_right b m]
    congr 1
    omega
  · rw [if_neg hc, hbuf x (by omega), getD_append_left b m _ (by omega)]

/-- A chunk that fits into the buffer: the state has walked the longer input. -/
theorem Walks64_small (init : Lanes) (tot0 : Nat) (hp : init.p = 0)
    (b m : List BYTE) (st : LZ4_XXH64_state_t)
    (h : Walks64 init tot0 b st) (hs : b.length % 32 + m.length < 32) :
    Walks64 init tot0 (b ++ m) (XXH64_small (XXH64_count st m.length) m) := by
  have hc1 := Walks64_count init tot0 b m st h
  have hbuf' := Walks64_buf_after_copy init tot0 b m st h m.length (by omega)
  obtain ⟨htot, hms, hbl, hbuf, hlanes⟩ := h
  have hdiv : (b.length + m.length) / 32 = b.length / 32 := by omega
  have hmod : (b.length + m.length) % 32 = b.length % 32 + m.length := by omega
  refine ⟨hc1, ?_, ?_, ?_, ?_⟩
  · show (st.memsize + m.length % 2 ^ 32) % 2 ^ 32 = (b ++ m).length % 32
    rw [List.length_append, hms]
    omega
  · show (memcpy st.mem64 st.memsize m 0 m.length).length = 32
    rw [length_memcpy, hbl]
  · intro i hi
    rw [List.length_append, hmod] at hi
    show (memcpy st.mem64 st.memsize m 0 m.length).getD i 0 = _
    rw [hms, hbuf' i hi, List.length_append, hmod]
    congr 1
    omega
  · show (⟨32 * ((b ++ m).length / 32), st.v1, st.v2, st.v3, st.v4⟩ : Lanes) = _
    rw [List.length_append, hdiv, iterBlocks64_append_of init hp b m _ (by omega)]
    exact hlanes

/-- The buffered block is completed and consumed: the lanes track `b ++ m` up to the end of
that block. -/
theorem WalksMid64_fill (init : Lanes) (tot0 : Nat) (hp : init.p = 0)
    (b m : List BYTE) (st : LZ4_XXH64_state_t)
    (h : Walks64 init tot0 b st) (hs : 32 ≤ b.length % 32 + m.length) :
    WalksMid64 init tot0 b m (XXH64_fill (XXH64_count st m.length) m) := by
  have hc1 := Walks64_count init tot0 b m st h
  have hbuf' := Walks64_buf_after_copy init tot0 b m st h (32 - b.length % 32) (by omega)
  obtain ⟨htot, hms, hbl, hbuf, hlanes⟩ := h
  have hms' : (XXH64_count st m.length).memsize = b.length % 32 := hms
  by_cases h0 : b.length % 32 = 0
  · have hf : XXH64_fill (XXH64_count st m.length) m = (0, XXH64_count st m.length) := by
      unfold XXH64_fill
      rw [if_neg (by rw [hms', h0]; exact fun hc => hc rfl)]
    rw [hf]
    refine ⟨Nat.zero_le _, by simpa using h0, hc1, by rw [hms', h0], hbl, ?_⟩
    show (⟨b.length + 0, st.v1, st.v2, st.v3, st.v4⟩ : Lanes) = _
    rw [Nat.add_zero, iterBlocks64_append_of init hp b m _ (by omega), ← hlanes,
      show 32 * (b.length / 32) = b.length by omega]
  · have hfill : (2 ^ 32 + 32 - (XXH64_count st m.length).memsize) % 2 ^ 32
        = 32 - b.length % 32 := by
      rw [hms']; omega
    have hf : XXH64_fill (XXH64_count st m.length) m
        = ((2 ^ 32 + 32 - (XXH64_count st m.length).memsize) % 2 ^ 32,
            { XXH64_count st m.length with
              mem64 := memcpy st.mem64 (XXH64_count st m.length).memsize m 0
                ((2 ^ 32 + 32 - (XXH64_count st m.length).memsize) % 2 ^ 32)
              v1 := LZ4_XXH64_round st.v1
                (le64 (memcpy st.mem64 (XXH64_count st m.length).memsize m 0
                  ((2 ^ 32 + 32 - (XXH64_count st m.length).memsize) % 2 ^ 32)) 0)
              v2 := LZ4_XXH64_round st.v2
                (le64 (memcpy st.mem64 (XXH64_count st m.length).memsize m 0
                  ((2 ^ 32 + 32 - (XXH64_count st m.length).memsize) % 2 ^ 32)) 8)
              v3 := LZ4_XXH64_round st.v3
                (le64 (memcpy st.mem64 (XXH64_count st m.length).memsize m 0
                  ((2 ^ 32 + 32 - (XXH64_count st m.length).memsize) % 2 ^ 32)) 16)
              v4 := LZ4_XXH64_round st.v4
                (le64 (memcpy st.mem64 (XXH64_count st m.length).memsize m 0
                  ((2 ^ 32 + 32 - (XXH64_count st m.length).memsize) % 2 ^ 32)) 24)
              memsize := 0 }) := by
      unfold XXH64_fill
      rw [if_pos (by rw [hms']; exact h0)]
      rfl
    rw [hf, hfill, hms']
    refine ⟨by show 32 - b.length % 32 ≤ m.length; omega,
      by show (b.length + (32 - b.length % 32)) % 32 = 0; omega, hc1, rfl, ?_, ?_⟩
    · show (memcpy st.mem64 (b.length % 32) m 0 (32 - b.length % 32)).length = 32
      rw [length_memcpy, hbl]
    · have hrd : ∀ q, q + 8 ≤ 32 →
          le64 (memcpy st.mem64 (b.length % 32) m 0 (32 - b.length % 32)) q
            = le64 (b ++ m) (32 * (b.length / 32) + q) := by
        intro q hq
        apply le64_congr
        intro j hj
        rw [hbuf' (q + j) (by omega)]
        congr 1
        omega
      show (⟨b.length + (32 - b.length % 32), _, _, _, _⟩ : Lanes) = _
      rw [show (b.length + (32 - b.length % 32)) / 32 = b.length / 32 + 1 by omega,
        iterBlocks_add, iterBlocks64_append_of init hp b m _ (by omega), ← hlanes,
        iterBlocks_succ]
      simp only [iterBlocks]
      rw [hrd 0 (by omega), hrd 8 (by omega), hrd 16 (by omega), hrd 24 (by omega)]
      simp only [Nat.add_zero, Nat.reduceMul]
      congr 1
      omega

/-- The block loop over the chunk: the lanes track `b ++ m` up to the new offset, and less
than one block of the chunk is left. -/
theorem WalksMid64_loop (init : Lanes) (tot0 : Nat) (b m : List BYTE) (ps : Nat × LZ4_XXH64_state_t)
    (h : WalksMid64 init tot0 b m ps) :
    WalksMid64 init tot0 b m (XXH64_loop m ps) ∧ m.length - (XXH64_loop m ps).1 < 32 := by
  obtain ⟨hle, hal, htot, hms, hbl, hlanes⟩ := h
  by_cases hc : ps.1 + 32 ≤ m.length
  · have hloop := LZ4_XXH64_blockLoop_eq (fun p => le64 m p) (m.length - 32) m.length
      ⟨ps.1, ps.2.v1, ps.2.v2, ps.2.v3, ps.2.v4⟩ (by show ps.1 ≤ m.length - 32; omega)
      (by show (m.length - 32 - ps.1) / 32 + 1 ≤ m.length; omega)
    simp only at hloop
    generalize hj : (m.length - 32 - ps.1) / 32 + 1 = j at hloop
    have hf : XXH64_loop m ps
        = ((iterBlocks LZ4_XXH64_round 8 (fun p => le64 m p) j
              ⟨ps.1, ps.2.v1, ps.2.v2, ps.2.v3, ps.2.v4⟩).p,
            { ps.2 with
              v1 := (iterBlocks LZ4_XXH64_round 8 (fun p => le64 m p) j
                ⟨ps.1, ps.2.v1, ps.2.v2, ps.2.v3, ps.2.v4⟩).v1
              v2 := (iterBlocks LZ4_XXH64_round 8 (fun p => le64 m p) j
                ⟨ps.1, ps.2.v1, ps.2.v2, ps.2.v3, ps.2.v4⟩).v2
              v3 := (iterBlocks LZ4_XXH64_round 8 (fun p => le64 m p) j
                ⟨ps.1, ps.2.v1, ps.2.v2, ps.2.v3, ps.2.v4⟩).v3
              v4 := (iterBlocks LZ4_XXH64_round 8 (fun p => le64 m p) j
                ⟨ps.1, ps.2.v1, ps.2.v2, ps.2.v3, ps.2.v4⟩).v4 }) := by
      unfold XXH64_loop
      rw [if_pos hc]
      simp only [hloop]
    have hp := iterBlocks_p LZ4_XXH64_round 8 (fun p => le64 m p) j
      ⟨ps.1, ps.2.v1, ps.2.v2, ps.2.v3, ps.2.v4⟩
    simp only [Nat.reduceMul] at hp
    have hshift := iterBlocks_shift LZ4_XXH64_round 8 (fun p => le64 m p) (le64 (b ++ m))
      b.length j ⟨ps.1, ps.2.v1, ps.2.v2, ps.2.v3, ps.2.v4⟩ (by
        intro i _
        apply le64_congr
        intro x _
        show (b ++ m).getD (ps.1 + b.length + 8 * i + x) 0 = m.getD (ps.1 + 8 * i + x) 0
        rw [← getD_append_right b m]
        congr 1
        omega)
    simp only at hshift
    rw [hf]
    refine ⟨⟨by show (iterBlocks _ _ _ _ _).p ≤ _; rw [hp]; omega,
      by show (b.length + (iterBlocks _ _ _ _ _).p) % 32 = 0; rw [hp]; omega,
      htot, hms, hbl, ?_⟩, by show _ - (iterBlocks _ _ _ _ _).p < 32; rw [hp]; omega⟩
    show (⟨b.length + (iterBlocks _ _ _ _ _).p, (iterBlocks _ _ _ _ _).v1,
      (iterBlocks _ _ _ _ _).v2, (iterBlocks _ _ _ _ _).v3, (iterBlocks _ _ _ _ _).v4⟩ : Lanes)
      = iterBlocks _ _ _ ((b.length + (iterBlocks _ _ _ _ _).p) / 32) _
    rw [Nat.add_comm b.length, ← hshift, hp,
      show (ps.1 + 32 * j + b.length) / 32 = (b.length + ps.1) / 32 + j by omega,
      iterBlocks_add, ← hlanes, Nat.add_comm ps.1]
  · have hf : XXH64_loop m ps = ps := by
      unfold XXH64_loop
      rw [if_neg hc]
    rw [hf]
    exact ⟨⟨hle, hal, htot, hms, hbl, hlanes⟩, by omega⟩

/-- What is left of the chunk is buffered: the state has walked `b ++ m`. -/
theorem Walks64_rest (init : Lanes) (tot0 : Nat) (b m : List BYTE) (ps : Nat × LZ4_XXH64_state_t)
    (h : WalksMid64 init tot0 b m ps) (hlt : m.length - ps.1 < 32) :
    Walks64 init tot0 (b ++ m) (XXH64_rest m ps) := by
  obtain ⟨hle, hal, htot, hms, hbl, hlanes⟩ := h
  have hlen : (b ++ m).length = b.length + m.length := List.length_append b m
  have hmod : (b.length + m.length) % 32 = m.length - ps.1 := by omega
  have hdiv : (b.length + m.length) / 32 = (b.length + ps.1) / 32 := by omega
  have hbase : 32 * ((b.length + ps.1) / 32) = b.length + ps.1 := by omega
  have hl : (⟨32 * ((b ++ m).length / 32), ps.2.v1, ps.2.v2, ps.2.v3, ps.2.v4⟩ : Lanes)
      = iterBlocks LZ4_XXH64_round 8 (le64 (b ++ m)) ((b ++ m).length / 32)
          init := by
    rw [hlen, hdiv, hbase]
    exact hlanes
  by_cases hc : ps.1 < m.length
  · have hf : XXH64_rest m ps
        = { ps.2 with
            mem64 := memcpy ps.2.mem64 0 m ps.1 (m.length - ps.1)
            memsize := (m.length - ps.1) % 2 ^ 32 } := by
      unfold XXH64_rest
      rw [if_pos hc]
    rw [hf]
    refine ⟨htot, ?_, ?_, ?_, hl⟩
    · show (m.length - ps.1) % 2 ^ 32 = (b ++ m).length % 32
      rw [hlen, hmod]
      omega
    · show (memcpy ps.2.mem64 0 m ps.1 (m.length - ps.1)).length = 32
      rw [length_memcpy, hbl]
    · intro i hi
      rw [hlen, hmod] at hi
      show (memcpy ps.2.mem64 0 m ps.1 (m.length - ps.1)).getD i 0 = _
      rw [getD_memcpy _ _ _ _ _ _ (by omega), if_pos (by omega), hlen, hmod,
        ← getD_append_right b m]
      congr 1
      omega
  · have hf : XXH64_rest m ps = ps.2 := by
      unfold XXH64_rest
      rw [if_neg hc]
    rw [hf]
    refine ⟨htot, ?_, hbl, ?_, hl⟩
    · rw [hms, hlen, hmod]
      omega
    · intro i hi
      rw [hlen, hmod] at hi
      omega

/-- One update with a well-formed chunk, whose length added to the buffered bytes does not
wrap, extends the walk by the chunk. -/
theorem Walks64_update (t : Target) (init : Lanes) (tot0 : Nat) (hp : init.p = 0)
    (b : List BYTE) (st : LZ4_XXH64_state_t)
    (c : ConstPtr) (h : Walks64 init tot0 b st) (hwf : c.wellFormed)
    (hlen : b.length % 32 + c.mem.length < 2 ^ 64) :
    Walks64 init tot0 (b ++ c.mem) (LZ4_XXH64_update t st c c.mem.length).2 := by
  rw [LZ4_XXH64_update_dispatch]
  by_cases hnull : (t.accept_null_input_pointer && c.addr == 0) = true
  · have hc : c.mem = [] :=
      hwf (by simp only [Bool.and_eq_true, beq_iff_eq] at hnull; exact hnull.2)
    unfold LZ4_XXH64_update_endian
    rw [if_pos hnull, hc, List.append_nil]
    exact h
  · obtain ⟨a, m⟩ := c
    rw [LZ4_XXH64_update_endian_stages t st a m hnull]
    have hms := h.memsize
    by_cases hs : (st.memsize + m.length) % 2 ^ 64 < 32
    · rw [if_pos hs]
      exact Walks64_small init tot0 hp b m st h (by simp only at hlen; omega)
    · rw [if_neg hs]
      have hmid := WalksMid64_fill init tot0 hp b m st h (by simp only at hlen; omega)
      obtain ⟨hmid', hlt⟩ := WalksMid64_loop init tot0 b m _ hmid
      exact Walks64_rest init tot0 b m _ hmid' hlt

theorem getD_take (l : List BYTE) (k i : Nat) (hi : i < k) :
    (l.take k).getD i 0 = l.getD i 0 := by
  rw [List.getD_eq_getElem?_getD, List.getD_eq_getElem?_getD, List.getElem?_take_of_lt hi]

/-- Every state with fewer than 32 buffered bytes has walked its own buffered bytes,
starting from its own lanes. -/
theorem Walks64_start (s : LZ4_XXH64_state_t) (hms : s.memsize < 32)
    (hbl : s.mem64.length = 32) (htot : s.total_len < 2 ^ 64) :
    Walks64 (XXH64_lanesOf s) (s.total_len + 2 ^ 64 - s.memsize) (s.mem64.take s.memsize) s := by
  have hl : (s.mem64.take s.memsize).length = s.memsize := by
    rw [List.length_take, hbl]; omega
  refine ⟨?_, ?_, hbl, ?_, ?_⟩
  · rw [hl]; omega
  · rw [hl]; omega
  · intro i hi
    rw [hl] at hi ⊢
    rw [getD_take _ _ _ (by omega)]
    congr 1
    omega
  · rw [hl, show s.memsize / 32 = 0 by omega]
    rfl

/-- Two states that have walked the same bytes from the same start agree on the counter,
the lanes, the number of buffered bytes and the buffered bytes. -/
theorem Walks64_agree (init : Lanes) (tot0 : Nat) (b : List BYTE)
    (st1 st2 : LZ4_XXH64_state_t) (h1 : Walks64 init tot0 b st1)
    (h2 : Walks64 init tot0 b st2) :
    st1.total_len = st2.total_len ∧ st1.v1 = st2.v1 ∧ st1.v2 = st2.v2 ∧ st1.v3 = st2.v3
      ∧ st1.v4 = st2.v4 ∧ st1.memsize = st2.memsize
      ∧ st1.mem64.take st1.memsize = st2.mem64.take st2.memsize := by
  obtain ⟨ht1, hm1, hl1, hb1, hv1⟩ := h1
  obtain ⟨ht2, hm2, hl2, hb2, hv2⟩ := h2
  have hv := hv1.trans hv2.symm
  refine ⟨ht1.trans ht2.symm, congrArg Lanes.v1 hv, congrArg Lanes.v2 hv,
    congrArg Lanes.v3 hv, congrArg Lanes.v4 hv, hm1.trans hm2.symm, ?_⟩
  rw [hm1, hm2]
  have hk : b.length % 32 < 32 := Nat.mod_lt _ (by decide)
  apply List.ext_getElem
  · rw [List.length_take, List.length_take, hl1, hl2]
  · intro i h1 h2
    rw [List.length_take] at h1
    have hi : i < b.length % 32 := by omega
    have e := (hb1 i hi).trans (hb2 i hi).symm
    rw [List.getD_eq_getElem _ _ (by omega), List.getD_eq_getElem _ _ (by omega)] at e
    rw [List.getElem_take, List.getElem_take]
    exact e

theorem iterTail_congr (step : Nat → Nat → Nat) (w : Nat) (rd rd' : Nat → Nat) (k p h : Nat)
    (hrd : ∀ i, i < k → rd' (p + w * i) = rd (p + w * i)) :
    iterTail step w rd' k p h = iterTail step w rd k p h := by
  have := iterTail_shift step w rd rd' 0 k p h (by simpa using hrd)
  simpa using this

/-- The 64-bit digest reads the counter, the lanes, `memsize` and the first `memsize`
bytes of the buffer, and nothing else. -/
theorem LZ4_XXH64_digest_congr (t : Target) (st1 st2 : LZ4_XXH64_state_t)
    (htot : st1.total_len = st2.total_len) (hv1 : st1.v1 = st2.v1) (hv2 : st1.v2 = st2.v2)
    (hv3 : st1.v3 = st2.v3) (hv4 : st1.v4 = st2.v4) (hms : st1.memsize = st2.memsize)
    (hbuf : ∀ i, i < st1.memsize → st1.mem64.getD i 0 = st2.mem64.getD i 0) :
    LZ4_XXH64_digest t st1 = LZ4_XXH64_digest t st2 := by
  rw [LZ4_XXH64_digest_dispatch, LZ4_XXH64_digest_dispatch]
  unfold LZ4_XXH64_digest_endian
  simp only [readLE32_eq_le32, readLE64_eq_le64]
  rw [← htot, ← hv1, ← hv2, ← hv3, ← hv4, ← hms]
  generalize st1.memsize = n at hbuf
  generalize ((if st1.total_len ≥ 32 then LZ4_XXH64_converge st1.v1 st1.v2 st1.v3 st1.v4
      else (st1.v3 + PRIME64_5) % 2 ^ 64) + st1.total_len) % 2 ^ 64 = H0
  rw [LZ4_XXH64_tailWords_eq _ _ _ _ _ (by omega), LZ4_XXH64_tailWords_eq _ _ _ _ _ (by omega)]
  simp only
  rw [LZ4_XXH64_tailWord32_eq, LZ4_XXH64_tailWord32_eq]
  simp only
  rw [LZ4_XXH64_tailBytes_eq _ _ _ _ _ (by split <;> omega),
    LZ4_XXH64_tailBytes_eq _ _ _ _ _ (by split <;> omega)]
  simp only
  have hw : ∀ H, iterTail XXH64_wordStep 8 (fun p => le64 st1.mem64 p) ((n - 0) / 8) 0 H
      = iterTail XXH64_wordStep 8 (fun p => le64 st2.mem64 p) ((n - 0) / 8) 0 H := by
    intro H
    apply iterTail_congr
    intro i hi
    apply le64_congr
    intro j hj
    exact hbuf _ (by omega)
  have hw32 : ∀ H, iterTail XXH64_word32Step 4 (fun p => le32 st1.mem64 p)
        (if 0 + 8 * ((n - 0) / 8) + 4 ≤ n then 1 else 0) (0 + 8 * ((n - 0) / 8)) H
      = iterTail XXH64_word32Step 4 (fun p => le32 st2.mem64 p)
        (if 0 + 8 * ((n - 0) / 8) + 4 ≤ n then 1 else 0) (0 + 8 * ((n - 0) / 8)) H := by
    intro H
    apply iterTail_congr
    intro i hi
    have hi' : i = 0 ∧ 0 + 8 * ((n - 0) / 8) + 4 ≤ n := by
      split at hi <;> omega
    apply le32_congr
    intro j hj
    exact hbuf _ (by omega)
  have hb : ∀ H, iterTail XXH64_byteStep 1 (byteAt st1.mem64)
        (n - (0 + 8 * ((n - 0) / 8) + 4 * if 0 + 8 * ((n - 0) / 8) + 4 ≤ n then 1 else 0))
        (0 + 8 * ((n - 0) / 8) + 4 * if 0 + 8 * ((n - 0) / 8) + 4 ≤ n then 1 else 0) H
      = iterTail XXH64_byteStep 1 (byteAt st2.mem64)
        (n - (0 + 8 * ((n - 0) / 8) + 4 * if 0 + 8 * ((n - 0) / 8) + 4 ≤ n then 1 else 0))
        (0 + 8 * ((n - 0) / 8) + 4 * if 0 + 8 * ((n - 0) / 8) + 4 ≤ n then 1 else 0) H := by
    intro H
    apply iterTail_congr
    intro i hi
    apply byteAt_congr
    refine hbuf _ ?_
    by_cases hc : 0 + 8 * ((n - 0) / 8) + 4 ≤ n
    · rw [if_pos hc] at hi ⊢
      omega
    · rw [if_neg hc] at hi ⊢
      omega
  rw [hw, hw32, hb]

/-- States that agree on the counter, the lanes, `memsize` and the first `memsize` bytes
of the buffer have the same digest. -/
theorem LZ4_XXH64_digest_of_agree (t : Target) (st1 st2 : LZ4_XXH64_state_t)
    (h : st1.total_len = st2.total_len ∧ st1.v1 = st2.v1 ∧ st1.v2 = st2.v2 ∧ st1.v3 = st2.v3
      ∧ st1.v4 = st2.v4 ∧ st1.memsize = st2.memsize
      ∧ st1.mem64.take st1.memsize = st2.mem64.take st2.memsize) :
    LZ4_XXH64_digest t st1 = LZ4_XXH64_digest t st2 := by
  obtain ⟨htot, hv1, hv2, hv3, hv4, hms, htake⟩ := h
  apply LZ4_XXH64_digest_congr t st1 st2 htot hv1 hv2 hv3 hv4 hms
  intro i hi
  rw [← getD_take st1.mem64 st1.memsize i hi, htake, ← hms, getD_take _ _ _ hi]

/-- C30: on every target, for every 64-bit state `s` with `memsize < 32` (its buffer being
the 32 bytes of `mem64` and its counter a 64-bit value) and all chunks `a`, `b` such that
`a`, `b` and `a ++ b` are objects beside that buffer, the states `update(update(s, a), b)`
and `update(s, a ++ b)` agree on `total_len`, `v1..v4`, `memsize` and the first `memsize`
bytes of the buffer, and `LZ4_XXH64_digest` returns the same value on both. -/
theorem LZ4_XXH64_update_append (t : Target) (s : LZ4_XXH64_state_t) (a b ab : ConstPtr)
    (hms : s.memsize < 32) (hbl : s.mem64.length = 32) (htot : s.total_len < 2 ^ 64)
    (ha : a.isObject 32) (hb : b.isObject 32) (hab : ab.isObject 32)
    (hcat : ab.mem = a.mem ++ b.mem) :
    ((LZ4_XXH64_update t (LZ4_XXH64_update t s a a.mem.length).2 b b.mem.length).2.total_len
        = (LZ4_XXH64_update t s ab ab.mem.length).2.total_len
      ∧ (LZ4_XXH64_update t (LZ4_XXH64_update t s a a.mem.length).2 b b.mem.length).2.v1
        = (LZ4_XXH64_update t s ab ab.mem.length).2.v1
      ∧ (LZ4_XXH64_update t (LZ4_XXH64_update t s a a.mem.length).2 b b.mem.length).2.v2
        = (LZ4_XXH64_update t s ab ab.mem.length).2.v2
      ∧ (LZ4_XXH64_update t (LZ4_XXH64_update t s a a.mem.length).2 b b.mem.length).2.v3
        = (LZ4_XXH64_update t s ab ab.mem.length).2.v3
      ∧ (LZ4_XXH64_update t (LZ4_XXH64_update t s a a.mem.length).2 b b.mem.length).2.v4
        = (LZ4_XXH64_update t s ab ab.mem.length).2.v4
      ∧ (LZ4_XXH64_update t (LZ4_XXH64_update t s a a.mem.length).2 b b.mem.length).2.memsize
        = (LZ4_XXH64_update t s ab ab.mem.length).2.memsize
      ∧ (LZ4_XXH64_update t (LZ4_XXH64_update t s a a.mem.length).2 b
            b.mem.length).2.mem64.take
          (LZ4_XXH64_update t (LZ4_XXH64_update t s a a.mem.length).2 b b.mem.length).2.memsize
        = (LZ4_XXH64_update t s ab ab.mem.length).2.mem64.take
            (LZ4_XXH64_update t s ab ab.mem.length).2.memsize)
      ∧ LZ4_XXH64_digest t
          (LZ4_XXH64_update t (LZ4_XXH64_update t s a a.mem.length).2 b b.mem.length).2
        = LZ4_XXH64_digest t (LZ4_XXH64_update t s ab ab.mem.length).2 := by
  have h0 := Walks64_start s hms hbl htot
  have hlen : s.memsize + a.mem.length + b.mem.length < 2 ^ 64 := by
    have h := hab.2.2
    rw [hcat, List.length_append] at h
    omega
  have hl : (s.mem64.take s.memsize).length = s.memsize := by
    rw [List.length_take, hbl]; omega
  have h1 := Walks64_update t _ _ rfl _ s a h0 ha.1 (by
    rw [hl]
    have := Nat.mod_le s.memsize 32
    omega)
  have h2 := Walks64_update t _ _ rfl _ _ b h1 hb.1 (by
    rw [List.length_append, hl]
    have := Nat.mod_le (s.memsize + a.mem.length) 32
    omega)
  have h3 := Walks64_update t _ _ rfl _ s ab h0 hab.1 (by
    rw [hl, hcat, List.length_append]
    have := Nat.mod_le s.memsize 32
    omega)
  have e : s.mem64.take s.memsize ++ ab.mem = s.mem64.take s.memsize ++ a.mem ++ b.mem := by
    rw [hcat, List.append_assoc]
  rw [e] at h3
  have hag := Walks64_agree _ _ _ _ _ h2 h3
  exact ⟨hag, LZ4_XXH64_digest_of_agree t _ _ hag⟩

theorem LZ4_XXH64_update_append_witness :
    LZ4_XXH64_digest ⟨true, false, false⟩
        (LZ4_XXH64_update ⟨true, false, false⟩
          (LZ4_XXH64_update ⟨true, false, false⟩
            ⟨7, 1, 2, 3, 4, bytes_00_63.take 32, 30⟩ ⟨4096, bytes_00_63.take 3⟩
            (bytes_00_63.take 3).length).2
          ⟨5000, bytes_00_63.drop 3⟩ (bytes_00_63.drop 3).length).2
      = LZ4_XXH64_digest ⟨true, false, false⟩
          (LZ4_XXH64_update ⟨true, false, false⟩
            ⟨7, 1, 2, 3, 4, bytes_00_63.take 32, 30⟩ ⟨4096, bytes_00_63⟩
            bytes_00_63.length).2 :=
  (LZ4_XXH64_update_append ⟨true, false, false⟩ ⟨7, 1, 2, 3, 4, bytes_00_63.take 32, 30⟩
    ⟨4096, bytes_00_63.take 3⟩ ⟨5000, bytes_00_63.drop 3⟩ ⟨4096, bytes_00_63⟩
    (by decide) (by decide) (by decide) (by decide) (by decide) (by decide) (by decide)).2

/-! ## The empty chunk -/

theorem LZ4_XXH32_update_total_count (t : Target) (st : LZ4_XXH32_state_t) (a : Nat)
    (m : List BYTE) (hnull : ¬ (t.accept_null_input_pointer && a == 0) = true) :
    (LZ4_XXH32_update t st ⟨a, m⟩ m.length).2.total_len_32
      = (XXH32_count st m.length).total_len_32 := by
  rw [LZ4_XXH32_update_dispatch, LZ4_XXH32_update_endian_stages t st a m hnull]
  by_cases hs : (st.memsize + m.length) % 2 ^ 64 < 16
  · rw [if_pos hs]
    rfl
  · rw [if_neg hs]
    rw [XXH32_rest_total, XXH32_loop_total, XXH32_fill_total]

theorem lor_bit (x y : Nat) (hx : x = 0 ∨ x = 1) (hy : y = 0 ∨ y = 1) :
    x ||| y = 0 ∨ x ||| y = 1 := by
  rcases hx with rfl | rfl <;> rcases hy with rfl | rfl <;> decide

theorem ite_bit (c : Prop) [Decidable c] :
    (if c then 1 else 0 : Nat) = 0 ∨ (if c then 1 else 0 : Nat) = 1 := by
  split
  · exact Or.inr rfl
  · exact Or.inl rfl

theorem Settled32_reset (s0 : LZ4_XXH32_state_t) (seed : Nat) :
    Settled32 (LZ4_XXH32_reset s0 seed).2 :=
  ⟨show (0 : Nat) < 2 ^ 32 by decide, show (0 : Nat) < 16 by decide, Or.inl rfl,
    fun _ => show (0 : Nat) < 16 by decide⟩

/-- Every update keeps `Settled32`, for every chunk, null or not. -/
theorem Settled32_update (t : Target) (st : LZ4_XXH32_state_t) (c : ConstPtr)
    (h : Settled32 st) : Settled32 (LZ4_XXH32_update t st c c.mem.length).2 := by
  by_cases hnull : (t.accept_null_input_pointer && c.addr == 0) = true
  · rw [LZ4_XXH32_update_dispatch]
    unfold LZ4_XXH32_update_endian
    rw [if_pos hnull]
    exact h
  · have hm := LZ4_XXH32_update_memsize t st c h.memsize_lt
    obtain ⟨a, m⟩ := c
    have ht := LZ4_XXH32_update_total_count t st a m hnull
    have hl := LZ4_XXH32_update_large t st a m hnull
    have ht' : (XXH32_count st m.length).total_len_32
        = (st.total_len_32 + m.length % 2 ^ 32) % 2 ^ 32 := rfl
    have hl' : (XXH32_count st m.length).large_len
        = st.large_len ||| ((if m.length ≥ 16 then 1 else 0)
          ||| (if (st.total_len_32 + m.length % 2 ^ 32) % 2 ^ 32 ≥ 16 then 1 else 0)) := rfl
    refine ⟨?_, hm, ?_, ?_⟩
    · rw [ht, ht']
      exact Nat.mod_lt _ (by decide)
    · rw [hl, hl']
      exact lor_bit _ _ h.large_bit (lor_bit _ _ (ite_bit _) (ite_bit _))
    · rw [hl, hl', ht, ht', lor_eq_zero_iff, lor_eq_zero_iff]
      rintro ⟨-, -, h3⟩
      by_contra hc
      rw [if_pos (by omega)] at h3
      exact absurd h3 (by decide)

theorem Settled32_feed (t : Target) (chunks : List ConstPtr) :
    ∀ st : LZ4_XXH32_state_t, Settled32 st → Settled32 (LZ4_XXH32_feed t st chunks) := by
  induction chunks with
  | nil => intro st h; exact h
  | cons c cs ih =>
    intro st h
    exact ih _ (Settled32_update t st c h)

/-- An update with no bytes from a pointer that is not rejected leaves a settled state as
it was. -/
theorem LZ4_XXH32_update_nil (t : Target) (st : LZ4_XXH32_state_t) (a : Nat)
    (h : Settled32 st) (hnull : ¬ (t.accept_null_input_pointer && a == 0) = true) :
    LZ4_XXH32_update t st ⟨a, []⟩ 0 = (LZ4_XXH_OK, st) := by
  obtain ⟨htot, hms, hbit, hzero⟩ := h
  have hst := LZ4_XXH32_update_endian_stages t st a [] hnull
  rw [List.length_nil] at hst
  rw [LZ4_XXH32_update_dispatch, hst, if_pos (by omega)]
  obtain ⟨tl, ll, v1, v2, v3, v4, mem, ms⟩ := st
  simp only at htot hms hbit hzero
  show (LZ4_XXH_OK, (⟨(tl + 0 % 2 ^ 32) % 2 ^ 32,
      ll ||| ((if 0 ≥ 16 then 1 else 0) ||| (if (tl + 0 % 2 ^ 32) % 2 ^ 32 ≥ 16 then 1 else 0)),
      v1, v2, v3, v4, mem, (ms + 0 % 2 ^ 32) % 2 ^ 32⟩ : LZ4_XXH32_state_t)) = _
  have e1 : (tl + 0 % 2 ^ 32) % 2 ^ 32 = tl := by omega
  have e2 : (ms + 0 % 2 ^ 32) % 2 ^ 32 = ms := by omega
  have e3 : ll ||| ((if 0 ≥ 16 then 1 else 0) ||| (if tl ≥ 16 then 1 else 0)) = ll := by
    rcases hbit with rfl | rfl
    · rw [if_neg (by decide), if_neg (by have := hzero rfl; omega)]
      rfl
    · by_cases hc : tl ≥ 16
      · rw [if_neg (by decide), if_pos hc]
        rfl
      · rw [if_neg (by decide), if_neg hc]
        rfl
  rw [e1, e2, e3]

/-- C31 (as amended): on every target, for every state `s` reached from `LZ4_XXH32_reset`
by any sequence of updates, `LZ4_XXH32_update(s, p, 0)` leaves every field of `s`
unchanged; it returns `LZ4_XXH_OK`, except when `LZ4_XXH_ACCEPT_NULL_INPUT_POINTER` is
defined and `p` is null, where it returns `LZ4_XXH_ERROR`. -/
theorem LZ4_XXH32_update_empty (t : Target) (seed : Nat) (s0 : LZ4_XXH32_state_t)
    (chunks : List ConstPtr) (addr : Nat) :
    (LZ4_XXH32_update t (LZ4_XXH32_feed t (LZ4_XXH32_reset s0 seed).2 chunks) ⟨addr, []⟩ 0).2
        = LZ4_XXH32_feed t (LZ4_XXH32_reset s0 seed).2 chunks
      ∧ (LZ4_XXH32_update t (LZ4_XXH32_feed t (LZ4_XXH32_reset s0 seed).2 chunks)
          ⟨addr, []⟩ 0).1
        = if t.accept_null_input_pointer = true ∧ addr = 0 then LZ4_XXH_ERROR
          else LZ4_XXH_OK := by
  have hs := Settled32_feed t chunks _ (Settled32_reset s0 seed)
  generalize LZ4_XXH32_feed t (LZ4_XXH32_reset s0 seed).2 chunks = s at hs ⊢
  by_cases hnull : (t.accept_null_input_pointer && addr == 0) = true
  · have hn : t.accept_null_input_pointer = true ∧ addr = 0 := by
      simpa only [Bool.and_eq_true, beq_iff_eq] using hnull
    rw [if_pos hn, LZ4_XXH32_update_dispatch,
      LZ4_XXH32_update_endian_null t s ⟨addr, []⟩ 0 _ hnull]
    exact ⟨rfl, rfl⟩
  · have hn : ¬ (t.accept_null_input_pointer = true ∧ addr = 0) := by
      simpa only [Bool.and_eq_true, beq_iff_eq] using hnull
    rw [if_neg hn, LZ4_XXH32_update_nil t s addr hs hnull]
    exact ⟨rfl, rfl⟩

/-- C31 as stated fails with `LZ4_XXH_ACCEPT_NULL_INPUT_POINTER` defined: the empty chunk
given by a null pointer is answered with `LZ4_XXH_ERROR`, not `LZ4_XXH_OK`. -/
theorem LZ4_XXH32_update_empty_null_error :
    (LZ4_XXH32_update ⟨true, false, true⟩ (LZ4_XXH32_reset ⟨0, 0, 0, 0, 0, 0, [], 0⟩ 0).2
        ⟨0, []⟩ 0).1 ≠ LZ4_XXH_OK := by
  decide

/-! ## The checked update never leaves its objects -/

theorem memcpy_checked_some (dst : List BYTE) (doff : Nat) (src : List BYTE) (soff n : Nat)
    (hd : doff + n ≤ dst.length) (hs : soff + n ≤ src.length) :
    memcpy_checked dst doff src soff n = some (memcpy dst doff src soff n) :=
  if_pos ⟨hd, hs⟩

theorem LZ4_XXH_readLE32_checked_some (t : Target) (mem : List BYTE) (p : Nat)
    (endian : LZ4_XXH_endianess) (h : p + 4 ≤ mem.length) :
    LZ4_XXH_readLE32_checked t mem p endian = some (LZ4_XXH_readLE32 t mem p endian) :=
  if_pos h

/-- While at least 16 bytes lie between the offset and the end of the chunk, every read of
the block loop is in bounds, the budget suffices, and the checked loop returns what the
loop returns. -/
theorem LZ4_XXH32_blockLoop_checked_some (t : Target) (mem : List BYTE)
    (endian : LZ4_XXH_endianess) (limit : Nat) (hl : limit + 16 ≤ mem.length) :
    ∀ (fuel : Nat) (s : Lanes), s.p ≤ limit → (limit - s.p) / 16 + 1 ≤ fuel →
      LZ4_XXH32_blockLoop_checked (fun p => LZ4_XXH_readLE32_checked t mem p endian) limit
          fuel s
        = some (LZ4_XXH32_blockLoop (fun p => LZ4_XXH_readLE32 t mem p endian) limit fuel s) := by
  intro fuel
  induction fuel with
  | zero => intro s _ h; omega
  | succ fuel ih =>
    intro s hp hf
    rw [LZ4_XXH32_blockLoop_checked, LZ4_XXH32_blockLoop]
    simp only
    rw [LZ4_XXH_readLE32_checked_some t mem s.p endian (by omega),
      LZ4_XXH_readLE32_checked_some t mem (s.p + 4) endian (by omega),
      LZ4_XXH_readLE32_checked_some t mem (s.p + 4 + 4) endian (by omega),
      LZ4_XXH_readLE32_checked_some t mem (s.p + 4 + 4 + 4) endian (by omega)]
    simp only [Option.some_bind]
    by_cases hc : s.p + 4 + 4 + 4 + 4 ≤ limit
    · rw [if_pos hc, if_pos hc]
      exact ih _ hc (by simp only; omega)
    · rw [if_neg hc, if_neg hc]

/-- After the null check, the checked update is the composition of its checked blocks. -/
theorem LZ4_XXH32_update_endian_checked_stages (t : Target) (st : LZ4_XXH32_state_t)
    (a : Nat) (m : List BYTE) (e : LZ4_XXH_endianess)
    (hnull : ¬ (t.accept_null_input_pointer && a == 0) = true) :
    LZ4_XXH32_update_endian_checked t st ⟨a, m⟩ m.length e
      = if (st.memsize + m.length) % 2 ^ 64 < 16 then
          (memcpy_checked st.mem32 st.memsize m 0 m.length).bind fun mem32 =>
          some (LZ4_XXH_OK,
            { XXH32_count st m.length with
              mem32 := mem32, memsize := (st.memsize + m.length % 2 ^ 32) % 2 ^ 32 })
        else
          (XXH32_fill_checked t e (XXH32_count st m.length) m).bind fun ps =>
          (XXH32_loop_checked t e m ps).bind fun ps =>
          (XXH32_rest_checked m ps).bind fun s => some (LZ4_XXH_OK, s) := by
  unfold LZ4_XXH32_update_endian_checked
  rw [if_neg hnull]
  by_cases hs : (st.memsize + m.length) % 2 ^ 64 < 16
  · rw [if_pos hs]
    simp only
    rw [if_pos hs]
    rfl
  · rw [if_neg hs]
    simp only
    rw [if_neg hs]
    rfl

theorem XXH32_fill_checked_some (t : Target) (st : LZ4_XXH32_state_t) (m : List BYTE)
    (hbl : st.mem32.length = 16) (hms : st.memsize < 16) (h16 : 16 ≤ st.memsize + m.length) :
    XXH32_fill_checked t (endian_detected t) st m = some (XXH32_fill st m) := by
  unfold XXH32_fill_checked XXH32_fill
  by_cases h0 : st.memsize ≠ 0
  · rw [if_pos h0, if_pos h0]
    have hn : (2 ^ 32 + 16 - st.memsize) % 2 ^ 32 = 16 - st.memsize := by omega
    rw [hn, memcpy_checked_some _ _ _ _ _ (by rw [hbl]; omega) (by omega)]
    simp only [Option.some_bind]
    rw [LZ4_XXH_readLE32_checked_some t _ 0 _ (by have := hbl; rw [length_memcpy]; omega),
      LZ4_XXH_readLE32_checked_some t _ 4 _ (by have := hbl; rw [length_memcpy]; omega),
      LZ4_XXH_readLE32_checked_some t _ 8 _ (by have := hbl; rw [length_memcpy]; omega),
      LZ4_XXH_readLE32_checked_some t _ 12 _ (by have := hbl; rw [length_memcpy]; omega)]
    simp only [Option.some_bind, readLE32_eq_le32]
  · rw [if_neg h0, if_neg h0]

theorem XXH32_fill_buflen (st : LZ4_XXH32_state_t) (m : List BYTE) :
    (XXH32_fill st m).2.mem32.length = st.mem32.length := by
  unfold XXH32_fill
  by_cases h0 : st.memsize ≠ 0
  · rw [if_pos h0]
    exact length_memcpy _ _ _ _ _
  · rw [if_neg h0]

theorem XXH32_loop_checked_some (t : Target) (m : List BYTE)
    (ps : Nat × LZ4_XXH32_state_t) :
    XXH32_loop_checked t (endian_detected t) m ps = some (XXH32_loop m ps) := by
  unfold XXH32_loop_checked XXH32_loop
  by_cases hc : ps.1 + 16 ≤ m.length
  · rw [if_pos hc, if_pos hc]
    simp only
    rw [LZ4_XXH32_blockLoop_checked_some t m _ (m.length - 16) (by omega) _ _
      (by simp only; omega) (by simp only; omega)]
    simp only [Option.some_bind, readLE32_eq_le32]
  · rw [if_neg hc, if_neg hc]

theorem XXH32_loop_buflen (m : List BYTE) (ps : Nat × LZ4_XXH32_state_t) :
    (XXH32_loop m ps).2.mem32.length = ps.2.mem32.length := by
  unfold XXH32_loop
  by_cases hc : ps.1 + 16 ≤ m.length
  · rw [if_pos hc]
  · rw [if_neg hc]

theorem XXH32_rest_checked_some (m : List BYTE) (ps : Nat × LZ4_XXH32_state_t)
    (hlt : m.length - ps.1 ≤ ps.2.mem32.length) :
    XXH32_rest_checked m ps = some (XXH32_rest m ps) := by
  unfold XXH32_rest_checked XXH32_rest
  by_cases hc : ps.1 < m.length
  · rw [if_pos hc, if_pos hc, memcpy_checked_some _ _ _ _ _ (by omega) (by omega)]
    rfl
  · rw [if_neg hc, if_neg hc]

theorem LZ4_XXH32_update_checked_dispatch (t : Target) (st : LZ4_XXH32_state_t)
    (input : ConstPtr) (len : Nat) :
    LZ4_XXH32_update_checked t st input len
      = LZ4_XXH32_update_endian_checked t st input len (endian_detected t) := by
  unfold LZ4_XXH32_update_checked endian_detected LZ4_XXH_FORCE_NATIVE_FORMAT
  cases t.cpu_little_endian <;> simp

/-- C32: on every target, for every state with `memsize < 16` (its buffer being the 16
bytes of `mem32`) and every chunk of `len` bytes that is an object beside that buffer,
`LZ4_XXH32_update` with every access checked returns the result of `LZ4_XXH32_update`:
every byte it reads from the chunk is at an offset below `len`, every byte it writes to or
reads from the buffer is at an offset below 16, each iteration of the block loop reads the
16 bytes at `p .. p+15` inside the chunk, and the loop ends within its budget. -/
theorem LZ4_XXH32_update_in_bounds (t : Target) (st : LZ4_XXH32_state_t) (c : ConstPtr)
    (hms : st.memsize < 16) (hbl : st.mem32.length = 16) (hobj : c.isObject 16) :
    LZ4_XXH32_update_checked t st c c.mem.length
      = some (LZ4_XXH32_update t st c c.mem.length) := by
  have hfit : st.memsize + c.mem.length < 2 ^ 64 := by
    have h := hobj.2.2
    omega
  clear hobj
  rw [LZ4_XXH32_update_checked_dispatch, LZ4_XXH32_update_dispatch]
  obtain ⟨a, m⟩ := c
  by_cases hnull : (t.accept_null_input_pointer && a == 0) = true
  · unfold LZ4_XXH32_update_endian_checked LZ4_XXH32_update_endian
    rw [if_pos hnull, if_pos hnull]
  · rw [LZ4_XXH32_update_endian_checked_stages t st a m _ hnull,
      LZ4_XXH32_update_endian_stages t st a m hnull]
    simp only at hfit
    by_cases hs : (st.memsize + m.length) % 2 ^ 64 < 16
    · rw [if_pos hs, if_pos hs, memcpy_checked_some _ _ _ _ _ (by rw [hbl]; omega) (by omega)]
      rfl
    · rw [if_neg hs, if_neg hs]
      have h16 : 16 ≤ (XXH32_count st m.length).memsize + m.length := by
        show 16 ≤ st.memsize + m.length
        omega
      rw [XXH32_fill_checked_some t (XXH32_count st m.length) m hbl hms h16]
      simp only [Option.some_bind]
      rw [XXH32_loop_checked_some]
      simp only [Option.some_bind]
      have hleft := XXH32_loop_left m (XXH32_fill (XXH32_count st m.length) m)
      have hb : (XXH32_loop m (XXH32_fill (XXH32_count st m.length) m)).2.mem32.length = 16 := by
        rw [XXH32_loop_buflen, XXH32_fill_buflen]
        exact hbl
      rw [XXH32_rest_checked_some m (XXH32_loop m (XXH32_fill (XXH32_count st m.length) m))
        (by rw [hb]; omega)]
      rfl

theorem LZ4_XXH32_update_in_bounds_witness :
    LZ4_XXH32_update_checked ⟨false, true, false⟩
        ⟨15, 0, 1, 2, 3, 4, List.replicate 16 0, 15⟩ ⟨4096, bytes_00_63⟩ bytes_00_63.length
      = some (LZ4_XXH32_update ⟨false, true, false⟩
          ⟨15, 0, 1, 2, 3, 4, List.replicate 16 0, 15⟩ ⟨4096, bytes_00_63⟩
          bytes_00_63.length) :=
  LZ4_XXH32_update_in_bounds ⟨false, true, false⟩ ⟨15, 0, 1, 2, 3, 4, List.replicate 16 0, 15⟩
    ⟨4096, bytes_00_63⟩ (by decide) (by decide) (by decide)

/-! ## The steps of the hash are bijections of the accumulator -/

/-- Multiplication by an odd constant is injective on `n`-bit words. -/
theorem mul_odd_inj (n P x y : Nat) (hco : Nat.Coprime 2 P) (hx : x < 2 ^ n) (hy : y < 2 ^ n)
    (h : x * P % 2 ^ n = y * P % 2 ^ n) : x = y := by
  have hc : Nat.gcd (2 ^ n) P = 1 := Nat.Coprime.pow_left n hco
  have hm : x ≡ y [MOD 2 ^ n] := Nat.ModEq.cancel_right_of_coprime hc h
  have hm' : x % 2 ^ n = y % 2 ^ n := hm
  rw [Nat.mod_eq_of_lt hx, Nat.mod_eq_of_lt hy] at hm'
  exact hm'

/-- Addition of a constant is injective on `n`-bit words. -/
theorem add_const_inj (n c x y : Nat) (hx : x < 2 ^ n) (hy : y < 2 ^ n)
    (h : (x + c) % 2 ^ n = (y + c) % 2 ^ n) : x = y := by
  have hm : x ≡ y [MOD 2 ^ n] := Nat.ModEq.add_right_cancel' c h
  have hm' : x % 2 ^ n = y % 2 ^ n := hm
  rw [Nat.mod_eq_of_lt hx, Nat.mod_eq_of_lt hy] at hm'
  exact hm'

/-- The step `h ^= h >> k` is injective on `n`-bit words. -/
theorem xorshift_inj (n k x y : Nat) (hk : 0 < k) (hx : x < 2 ^ n) (hy : y < 2 ^ n)
    (h : x ^^^ (x >>> k) = y ^^^ (y >>> k)) : x = y := by
  have key : ∀ d i, n ≤ i + d → x.testBit i = y.testBit i := by
    intro d
    induction d with
    | zero =>
      intro i hi
      have hpow : 2 ^ n ≤ 2 ^ i := Nat.pow_le_pow_right (by decide) (by omega)
      rw [Nat.testBit_lt_two_pow (Nat.lt_of_lt_of_le hx hpow),
        Nat.testBit_lt_two_pow (Nat.lt_of_lt_of_le hy hpow)]
    | succ d ih =>
      intro i hi
      have hb := congrArg (fun z => z.testBit i) h
      simp only [Nat.testBit_xor, Nat.testBit_shiftRight] at hb
      rw [ih (k + i) (by omega)] at hb
      revert hb
      cases x.testBit i <;> cases y.testBit i <;> cases y.testBit (k + i) <;> simp
  exact Nat.eq_of_testBit_eq (fun i => key n i (by omega))

/-- A rotation of an `n`-bit word by `r` bits, as a sum. -/
theorem rotl_eq_add (n r x : Nat) (hr : r ≤ n) (hx : x < 2 ^ n) :
    (x <<< r) % 2 ^ n ||| x >>> (n - r) = (x % 2 ^ (n - r)) * 2 ^ r + x / 2 ^ (n - r) := by
  have hn : 2 ^ n = 2 ^ (n - r) * 2 ^ r := by
    rw [← Nat.pow_add, Nat.sub_add_cancel hr]
  have hq : x / 2 ^ (n - r) < 2 ^ r := Nat.div_lt_of_lt_mul (by rw [← hn]; exact hx)
  rw [Nat.shiftLeft_eq, Nat.shiftRight_eq_div_pow, hn, Nat.mul_mod_mul_right,
    Nat.mul_comm (x % 2 ^ (n - r)) (2 ^ r), Nat.mul_add_lt_is_or hq]

/-- A rotation is injective on `n`-bit words. -/
theorem rotl_inj (n r x y : Nat) (hr : r ≤ n) (hx : x < 2 ^ n) (hy : y < 2 ^ n)
    (h : (x <<< r) % 2 ^ n ||| x >>> (n - r) = (y <<< r) % 2 ^ n ||| y >>> (n - r)) :
    x = y := by
  rw [rotl_eq_add n r x hr hx, rotl_eq_add n r y hr hy] at h
  have hn : 2 ^ n = 2 ^ (n - r) * 2 ^ r := by
    rw [← Nat.pow_add, Nat.sub_add_cancel hr]
  have hpos : 0 < 2 ^ r := Nat.two_pow_pos _
  have hqx : x / 2 ^ (n - r) < 2 ^ r := Nat.div_lt_of_lt_mul (by rw [← hn]; exact hx)
  have hqy : y / 2 ^ (n - r) < 2 ^ r := Nat.div_lt_of_lt_mul (by rw [← hn]; exact hy)
  have hd := congrArg (fun z => z / 2 ^ r) h
  have hm := congrArg (fun z => z % 2 ^ r) h
  simp only at hd hm
  rw [Nat.add_comm, Nat.add_mul_div_right _ _ hpos, Nat.div_eq_of_lt hqx, Nat.zero_add,
    Nat.add_comm, Nat.add_mul_div_right _ _ hpos, Nat.div_eq_of_lt hqy, Nat.zero_add] at hd
  rw [Nat.add_comm, Nat.add_mul_mod_self_right, Nat.mod_eq_of_lt hqx,
    Nat.add_comm, Nat.add_mul_mod_self_right, Nat.mod_eq_of_lt hqy] at hm
  rw [← Nat.div_add_mod x (2 ^ (n - r)), ← Nat.div_add_mod y (2 ^ (n - r)), hd, hm]

theorem rotl_lt (n r x : Nat) (hx : x < 2 ^ n) :
    (x <<< r) % 2 ^ n ||| x >>> (n - r) < 2 ^ n :=
  Nat.or_lt_two_pow (Nat.mod_lt _ (Nat.two_pow_pos _))
    (Nat.lt_of_le_of_lt (by rw [Nat.shiftRight_eq_div_pow]; exact Nat.div_le_self _ _) hx)

/-! ## The 64-bit hash of a short input as a function of the seed -/

theorem xorshift_lt (n k x : Nat) (hx : x < 2 ^ n) : x ^^^ (x >>> k) < 2 ^ n :=
  Nat.xor_lt_two_pow hx
    (Nat.lt_of_le_of_lt (by rw [Nat.shiftRight_eq_div_pow]; exact Nat.div_le_self _ _) hx)

/-- The step `h = rotl(h ^ K, r) * P` is injective on 64-bit accumulators. -/
theorem XXH64_mix_inj (K r P h1 h2 : Nat) (hK : K < 2 ^ 64) (hr : r ≤ 64)
    (hco : Nat.Coprime 2 P) (hh1 : h1 < 2 ^ 64) (hh2 : h2 < 2 ^ 64)
    (h : (LZ4_XXH_rotl64 (h1 ^^^ K) r * P) % 2 ^ 64 = (LZ4_XXH_rotl64 (h2 ^^^ K) r * P) % 2 ^ 64) :
    h1 = h2 := by
  have hx1 : h1 ^^^ K < 2 ^ 64 := Nat.xor_lt_two_pow hh1 hK
  have hx2 : h2 ^^^ K < 2 ^ 64 := Nat.xor_lt_two_pow hh2 hK
  have hr1 := mul_odd_inj 64 P _ _ hco (rotl_lt 64 r _ hx1) (rotl_lt 64 r _ hx2) h
  have hx := rotl_inj 64 r _ _ hr hx1 hx2 hr1
  exact Nat.xor_left_injective hx

theorem XXH64_round_lt (a x : Nat) : LZ4_XXH64_round a x < 2 ^ 64 :=
  Nat.mod_lt _ (by decide)

theorem XXH64_wordStep_inj (x h1 h2 : Nat) (hh1 : h1 < 2 ^ 64) (hh2 : h2 < 2 ^ 64)
    (h : XXH64_wordStep h1 x = XXH64_wordStep h2 x) : h1 = h2 := by
  unfold XXH64_wordStep at h
  have ha := add_const_inj 64 PRIME64_4 _ _ (Nat.mod_lt _ (by decide))
    (Nat.mod_lt _ (by decide)) h
  exact XXH64_mix_inj _ 27 PRIME64_1 h1 h2 (XXH64_round_lt 0 x) (by decide)
    (by unfold PRIME64_1; decide) hh1 hh2 ha

theorem XXH64_word32Step_inj (x h1 h2 : Nat) (hh1 : h1 < 2 ^ 64) (hh2 : h2 < 2 ^ 64)
    (h : XXH64_word32Step h1 x = XXH64_word32Step h2 x) : h1 = h2 := by
  unfold XXH64_word32Step at h
  have ha := add_const_inj 64 PRIME64_3 _ _ (Nat.mod_lt _ (by decide))
    (Nat.mod_lt _ (by decide)) h
  exact XXH64_mix_inj _ 23 PRIME64_2 h1 h2 (Nat.mod_lt _ (by decide)) (by decide)
    (by unfold PRIME64_2; decide) hh1 hh2 ha

theorem XXH64_byteStep_inj (x h1 h2 : Nat) (hh1 : h1 < 2 ^ 64) (hh2 : h2 < 2 ^ 64)
    (h : XXH64_byteStep h1 x = XXH64_byteStep h2 x) : h1 = h2 := by
  unfold XXH64_byteStep at h
  exact XXH64_mix_inj _ 11 PRIME64_1 h1 h2 (Nat.mod_lt _ (by decide)) (by decide)
    (by unfold PRIME64_1; decide) hh1 hh2 h

/-- A tail loop whose body is injective in the accumulator and keeps it a `n`-bit word is
injective in the accumulator. -/
theorem iterTail_inj (n : Nat) (step : Nat → Nat → Nat) (w : Nat) (rd : Nat → Nat)
    (hlt : ∀ h x, step h x < 2 ^ n)
    (hinj : ∀ x h1 h2, h1 < 2 ^ n → h2 < 2 ^ n → step h1 x = step h2 x → h1 = h2) :
    ∀ (k p h1 h2 : Nat), h1 < 2 ^ n → h2 < 2 ^ n →
      iterTail step w rd k p h1 = iterTail step w rd k p h2 → h1 = h2 := by
  intro k
  induction k with
  | zero => intro p h1 h2 _ _ h; exact h
  | succ k ih =>
    intro p h1 h2 hh1 hh2 h
    rw [iterTail_succ, iterTail_succ] at h
    exact hinj _ _ _ hh1 hh2 (ih _ _ _ (hlt _ _) (hlt _ _) h)

theorem iterTail_lt (n : Nat) (step : Nat → Nat → Nat) (w : Nat) (rd : Nat → Nat)
    (hlt : ∀ h x, step h x < 2 ^ n) :
    ∀ (k p h : Nat), h < 2 ^ n → iterTail step w rd k p h < 2 ^ n := by
  intro k
  induction k with
  | zero => intro p h hh; exact hh
  | succ k ih =>
    intro p h _
    rw [iterTail_succ]
    exact ih _ _ (hlt _ _)

theorem XXH64_wordStep_lt (h x : Nat) : XXH64_wordStep h x < 2 ^ 64 :=
  Nat.mod_lt _ (by decide)

theorem XXH64_word32Step_lt (h x : Nat) : XXH64_word32Step h x < 2 ^ 64 :=
  Nat.mod_lt _ (by decide)

theorem XXH64_byteStep_lt (h x : Nat) : XXH64_byteStep h x < 2 ^ 64 :=
  Nat.mod_lt _ (by decide)

/-- The final mix of the 64-bit hash is injective on 64-bit accumulators. -/
theorem LZ4_XXH64_avalanche_inj (h1 h2 : Nat) (hh1 : h1 < 2 ^ 64) (hh2 : h2 < 2 ^ 64)
    (h : LZ4_XXH64_avalanche h1 = LZ4_XXH64_avalanche h2) : h1 = h2 := by
  unfold LZ4_XXH64_avalanche at h
  simp only at h
  have e1 := xorshift_inj 64 32 _ _ (by decide) (Nat.mod_lt _ (by decide))
    (Nat.mod_lt _ (by decide)) h
  have e2 := mul_odd_inj 64 PRIME64_3 _ _ (by unfold PRIME64_3; decide)
    (xorshift_lt 64 29 _ (Nat.mod_lt _ (by decide)))
    (xorshift_lt 64 29 _ (Nat.mod_lt _ (by decide))) e1
  have e3 := xorshift_inj 64 29 _ _ (by decide) (Nat.mod_lt _ (by decide))
    (Nat.mod_lt _ (by decide)) e2
  have e4 := mul_odd_inj 64 PRIME64_2 _ _ (by unfold PRIME64_2; decide)
    (xorshift_lt 64 33 _ hh1) (xorshift_lt 64 33 _ hh2) e3
  exact xorshift_inj 64 33 _ _ (by decide) hh1 hh2 e4

/-- The 64-bit hash of fewer than 32 bytes: the seed plus `PRIME64_5` plus the length, the
three tail loops, the final mix. -/
theorem XXH64_unrolled_short (b : List BYTE) (seed : Nat) (hb : b.length < 32) :
    XXH64_unrolled b seed
      = LZ4_XXH64_avalanche
          (iterTail XXH64_byteStep 1 (byteAt b) (b.length % 4) (b.length - b.length % 4)
            (iterTail XXH64_word32Step 4 (le32 b) (if 4 ≤ b.length % 8 then 1 else 0)
              (b.length - b.length % 8)
              (iterTail XXH64_wordStep 8 (le64 b) (b.length % 32 / 8) (32 * (b.length / 32))
                (((seed + PRIME64_5) % 2 ^ 64 + b.length % 2 ^ 64) % 2 ^ 64)))) := by
  unfold XXH64_unrolled
  simp only
  rw [if_neg (show ¬ 32 ≤ b.length from by omega)]

/-- C33: on every target, for every well-formed input of fewer than 32 bytes and all
64-bit seeds `s1`, `s2`, `LZ4_XXH64(b, |b|, s1) = LZ4_XXH64(b, |b|, s2)` implies
`s1 = s2`. -/
theorem LZ4_XXH64_seed_injective_short (t : Target) (input : ConstPtr) (s1 s2 : Nat)
    (hwf : input.wellFormed) (hlen : input.mem.length < 32) (hs1 : s1 < 2 ^ 64)
    (hs2 : s2 < 2 ^ 64)
    (h : LZ4_XXH64 t input input.mem.length s1 = LZ4_XXH64 t input input.mem.length s2) :
    s1 = s2 := by
  rw [LZ4_XXH64_eq_unrolled t input s1 hwf, LZ4_XXH64_eq_unrolled t input s2 hwf,
    XXH64_unrolled_short _ _ hlen, XXH64_unrolled_short _ _ hlen] at h
  have e1 := LZ4_XXH64_avalanche_inj _ _
    (iterTail_lt 64 _ _ _ XXH64_byteStep_lt _ _ _
      (iterTail_lt 64 _ _ _ XXH64_word32Step_lt _ _ _
        (iterTail_lt 64 _ _ _ XXH64_wordStep_lt _ _ _ (Nat.mod_lt _ (by decide)))))
    (iterTail_lt 64 _ _ _ XXH64_byteStep_lt _ _ _
      (iterTail_lt 64 _ _ _ XXH64_word32Step_lt _ _ _
        (iterTail_lt 64 _ _ _ XXH64_wordStep_lt _ _ _ (Nat.mod_lt _ (by decide))))) h
  have e2 := iterTail_inj 64 _ _ _ XXH64_byteStep_lt XXH64_byteStep_inj _ _ _ _
    (iterTail_lt 64 _ _ _ XXH64_word32Step_lt _ _ _
      (iterTail_lt 64 _ _ _ XXH64_wordStep_lt _ _ _ (Nat.mod_lt _ (by decide))))
    (iterTail_lt 64 _ _ _ XXH64_word32Step_lt _ _ _
      (iterTail_lt 64 _ _ _ XXH64_wordStep_lt _ _ _ (Nat.mod_lt _ (by decide)))) e1
  have e3 := iterTail_inj 64 _ _ _ XXH64_word32Step_lt XXH64_word32Step_inj _ _ _ _
    (iterTail_lt 64 _ _ _ XXH64_wordStep_lt _ _ _ (Nat.mod_lt _ (by decide)))
    (iterTail_lt 64 _ _ _ XXH64_wordStep_lt _ _ _ (Nat.mod_lt _ (by decide))) e2
  have e4 := iterTail_inj 64 _ _ _ XXH64_wordStep_lt XXH64_wordStep_inj _ _ _ _
    (Nat.mod_lt _ (by decide)) (Nat.mod_lt _ (by decide)) e3
  have e5 := add_const_inj 64 _ _ _ (Nat.mod_lt _ (by decide)) (Nat.mod_lt _ (by decide)) e4
  exact add_const_inj 64 _ _ _ hs1 hs2 e5

theorem LZ4_XXH64_seed_injective_short_witness :
    ConstPtr.wellFormed ⟨4096, bytes_00_63.take 31⟩
      ∧ (bytes_00_63.take 31).length < 32
      ∧ LZ4_XXH64 ⟨true, false, false⟩ ⟨4096, bytes_00_63.take 31⟩
          (bytes_00_63.take 31).length 5
        ≠ LZ4_XXH64 ⟨true, false, false⟩ ⟨4096, bytes_00_63.take 31⟩
          (bytes_00_63.take 31).length 6 :=
  ⟨fun h0 => absurd h0 (by decide), by decide,
    fun h => absurd (LZ4_XXH64_seed_injective_short ⟨true, false, false⟩
      ⟨4096, bytes_00_63.take 31⟩ 5 6 (fun h0 => absurd h0 (by decide)) (by decide)
      (by decide) (by decide) h) (by decide)⟩

/-! ## No collisions among 4-byte inputs of the 32-bit hash -/

/-- The word step of the 32-bit tail is injective in the word it consumes. -/
theorem XXH32_wordStep_inj_word (h x1 x2 : Nat) (hx1 : x1 < 2 ^ 32) (hx2 : x2 < 2 ^ 32)
    (e : XXH32_wordStep h x1 = XXH32_wordStep h x2) : x1 = x2 := by
  unfold XXH32_wordStep at e
  have e1 := mul_odd_inj 32 PRIME32_4 _ _ (by unfold PRIME32_4; decide)
    (rotl_lt 32 17 _ (Nat.mod_lt _ (by decide))) (rotl_lt 32 17 _ (Nat.mod_lt _ (by decide))) e
  have e2 := rotl_inj 32 17 _ _ (by decide) (Nat.mod_lt _ (by decide))
    (Nat.mod_lt _ (by decide)) e1
  rw [Nat.add_comm h, Nat.add_comm h] at e2
  have e3 := add_const_inj 32 h _ _ (Nat.mod_lt _ (by decide)) (Nat.mod_lt _ (by decide)) e2
  exact mul_odd_inj 32 PRIME32_3 _ _ (by unfold PRIME32_3; decide) hx1 hx2 e3

/-- The final mix of the 32-bit hash is injective on 32-bit accumulators. -/
theorem LZ4_XXH32_avalanche_inj (h1 h2 : Nat) (hh1 : h1 < 2 ^ 32) (hh2 : h2 < 2 ^ 32)
    (h : LZ4_XXH32_avalanche h1 = LZ4_XXH32_avalanche h2) : h1 = h2 := by
  unfold LZ4_XXH32_avalanche at h
  simp only at h
  have e1 := xorshift_inj 32 16 _ _ (by decide) (Nat.mod_lt _ (by decide))
    (Nat.mod_lt _ (by decide)) h
  have e2 := mul_odd_inj 32 PRIME32_3 _ _ (by unfold PRIME32_3; decide)
    (xorshift_lt 32 13 _ (Nat.mod_lt _ (by decide)))
    (xorshift_lt 32 13 _ (Nat.mod_lt _ (by decide))) e1
  have e3 := xorshift_inj 32 13 _ _ (by decide) (Nat.mod_lt _ (by decide))
    (Nat.mod_lt _ (by decide)) e2
  have e4 := mul_odd_inj 32 PRIME32_2 _ _ (by unfold PRIME32_2; decide)
    (xorshift_lt 32 15 _ hh1) (xorshift_lt 32 15 _ hh2) e3
  exact xorshift_inj 32 15 _ _ (by decide) hh1 hh2 e4

theorem LZ4_XXH32_avalanche_lt (h : Nat) : LZ4_XXH32_avalanche h < 2 ^ 32 := by
  unfold LZ4_XXH32_avalanche
  simp only
  exact xorshift_lt 32 16 _ (Nat.mod_lt _ (by decide))

theorem XXH32_wordStep_lt (h x : Nat) : XXH32_wordStep h x < 2 ^ 32 :=
  Nat.mod_lt _ (by decide)

/-- The 32-bit hash of exactly 4 bytes: one word step on the seed plus `PRIME32_5` plus 4,
then the final mix. -/
theorem XXH32_unrolled_four (b : List BYTE) (seed : Nat) (hb : b.length = 4) :
    XXH32_unrolled b seed
      = LZ4_XXH32_avalanche
          (XXH32_wordStep (((seed + PRIME32_5) % 2 ^ 32 + 4) % 2 ^ 32) (le32 b 0)) := by
  unfold XXH32_unrolled
  simp only
  rw [hb, if_neg (show ¬ 16 ≤ 4 from by decide), show 4 % 16 / 4 = 1 from rfl,
    show 4 % 4 = 0 from rfl, show 16 * (4 / 16) = 0 from rfl, show 4 % 2 ^ 32 = 4 from rfl,
    iterTail_zero, iterTail_succ, iterTail_zero]

theorem le32_lt (b : List BYTE) (p : Nat) : le32 b p < 2 ^ 32 := by
  unfold le32
  have h0 := byteAt_lt b p
  have h1 := byteAt_lt b (p + 1)
  have h2 := byteAt_lt b (p + 2)
  have h3 := byteAt_lt b (p + 3)
  omega

/-- Four bytes are determined by the little-endian word they spell. -/
theorem le32_inj_four (x y : List BYTE) (hx : x.length = 4) (hy : y.length = 4)
    (h : le32 x 0 = le32 y 0) : x = y := by
  match x, hx with
  | [x0, x1, x2, x3], _ =>
    match y, hy with
    | [y0, y1, y2, y3], _ =>
      unfold le32 byteAt at h
      simp only [List.getD_cons_zero, List.getD_cons_succ, Nat.zero_add] at h
      have a0 := x0.isLt
      have a1 := x1.isLt
      have a2 := x2.isLt
      have a3 := x3.isLt
      have b0 := y0.isLt
      have b1 := y1.isLt
      have b2 := y2.isLt
      have b3 := y3.isLt
      have e0 : x0 = y0 := Fin.ext (by omega)
      have e1 : x1 = y1 := Fin.ext (by omega)
      have e2 : x2 = y2 := Fin.ext (by omega)
      have e3 : x3 = y3 := Fin.ext (by omega)
      rw [e0, e1, e2, e3]

/-- The four bytes that spell a 32-bit word in little-endian order. -/
theorem le32_of_bytes (w : Nat) (hw : w < 2 ^ 32) :
    le32 [Fin.ofNat (w % 2 ^ 8), Fin.ofNat (w / 2 ^ 8 % 2 ^ 8), Fin.ofNat (w / 2 ^ 16 % 2 ^ 8),
      Fin.ofNat (w / 2 ^ 24 % 2 ^ 8)] 0 = w := by
  unfold le32 byteAt
  simp only [List.getD_cons_zero, List.getD_cons_succ, Nat.zero_add, val_ofNat]
  omega

/-- Every 32-bit value is the final mix of one word step on some 32-bit word: an injective
map of the 32-bit words into themselves is onto. -/
theorem XXH32_wordStep_avalanche_onto (h d : Nat) (hd : d < 2 ^ 32) :
    ∃ w : Nat, w < 2 ^ 32 ∧ LZ4_XXH32_avalanche (XXH32_wordStep h w) = d := by
  have inj : Function.Injective (fun w : Fin (2 ^ 32) =>
      (⟨LZ4_XXH32_avalanche (XXH32_wordStep h w.val), LZ4_XXH32_avalanche_lt _⟩ :
        Fin (2 ^ 32))) := by
    intro w1 w2 e
    have e0 := congrArg Fin.val e
    simp only at e0
    have e1 := LZ4_XXH32_avalanche_inj _ _ (XXH32_wordStep_lt _ _) (XXH32_wordStep_lt _ _) e0
    exact Fin.ext (XXH32_wordStep_inj_word _ _ _ w1.isLt w2.isLt e1)
  obtain ⟨w, hw⟩ := Finite.injective_iff_surjective.mp inj ⟨d, hd⟩
  exact ⟨w.val, w.isLt, congrArg Fin.val hw⟩

/-- C34: on every target and for every seed, two well-formed 4-byte inputs with the same
`LZ4_XXH32` digest hold the same bytes, every digest is a 32-bit value, and every 32-bit
value is the digest of a 4-byte input. -/
theorem LZ4_XXH32_four_bytes_bijective (t : Target) (seed : Nat) :
    (∀ x y : ConstPtr, x.wellFormed → y.wellFormed → x.mem.length = 4 → y.mem.length = 4 →
        LZ4_XXH32 t x 4 seed = LZ4_XXH32 t y 4 seed → x.mem = y.mem)
      ∧ (∀ x : ConstPtr, x.wellFormed → x.mem.length = 4 → LZ4_XXH32 t x 4 seed < 2 ^ 32)
      ∧ (∀ d : Nat, d < 2 ^ 32 →
          ∃ x : ConstPtr, x.wellFormed ∧ x.mem.length = 4 ∧ LZ4_XXH32 t x 4 seed = d) := by
  have key : ∀ x : ConstPtr, x.wellFormed → x.mem.length = 4 →
      LZ4_XXH32 t x 4 seed = LZ4_XXH32_avalanche
        (XXH32_wordStep (((seed + PRIME32_5) % 2 ^ 32 + 4) % 2 ^ 32) (le32 x.mem 0)) := by
    intro x hwf hx
    have h := LZ4_XXH32_eq_unrolled t x seed hwf
    rw [hx] at h
    rw [h, XXH32_unrolled_four _ _ hx]
  refine ⟨?_, ?_, ?_⟩
  · intro x y hxw hyw hx hy h
    rw [key x hxw hx, key y hyw hy] at h
    have e1 := LZ4_XXH32_avalanche_inj _ _ (XXH32_wordStep_lt _ _) (XXH32_wordStep_lt _ _) h
    have e2 := XXH32_wordStep_inj_word _ _ _ (le32_lt _ _) (le32_lt _ _) e1
    exact le32_inj_four _ _ hx hy e2
  · intro x hxw hx
    rw [key x hxw hx]
    exact LZ4_XXH32_avalanche_lt _
  · intro d hd
    obtain ⟨w, hw, hv⟩ := XXH32_wordStep_avalanche_onto
      (((seed + PRIME32_5) % 2 ^ 32 + 4) % 2 ^ 32) d hd
    have hwf : ConstPtr.wellFormed ⟨4096, [Fin.ofNat (w % 2 ^ 8),
        Fin.ofNat (w / 2 ^ 8 % 2 ^ 8), Fin.ofNat (w / 2 ^ 16 % 2 ^ 8),
        Fin.ofNat (w / 2 ^ 24 % 2 ^ 8)]⟩ := by
      intro h0
      exact absurd h0 (show (4096 : Nat) ≠ 0 from by decide)
    refine ⟨⟨4096, [Fin.ofNat (w % 2 ^ 8), Fin.ofNat (w / 2 ^ 8 % 2 ^ 8),
      Fin.ofNat (w / 2 ^ 16 % 2 ^ 8), Fin.ofNat (w / 2 ^ 24 % 2 ^ 8)]⟩, hwf, rfl, ?_⟩
    rw [key _ hwf rfl]
    simp only
    rw [le32_of_bytes _ hw]
    exact hv

theorem LZ4_XXH32_four_bytes_bijective_witness :
    LZ4_XXH32 ⟨true, false, false⟩ ⟨4096, [1, 2, 3, 4]⟩ 4 7
        ≠ LZ4_XXH32 ⟨true, false, false⟩ ⟨4096, [1, 2, 3, 5]⟩ 4 7
      ∧ LZ4_XXH32 ⟨true, false, false⟩ ⟨4096, [1, 2, 3, 4]⟩ 4 7 < 2 ^ 32
      ∧ ∃ x : ConstPtr, x.wellFormed ∧ x.mem.length = 4
          ∧ LZ4_XXH32 ⟨true, false, false⟩ x 4 7 = 0 :=
  ⟨fun h => absurd
      ((LZ4_XXH32_four_bytes_bijective ⟨true, false, false⟩ 7).1 ⟨4096, [1, 2, 3, 4]⟩
        ⟨4096, [1, 2, 3, 5]⟩ (fun h0 => absurd h0 (by decide))
        (fun h0 => absurd h0 (by decide)) rfl rfl h)
      (by decide),
    (LZ4_XXH32_four_bytes_bijective ⟨true, false, false⟩ 7).2.1 ⟨4096, [1, 2, 3, 4]⟩
      (fun h0 => absurd h0 (by decide)) rfl,
    (LZ4_XXH32_four_bytes_bijective ⟨true, false, false⟩ 7).2.2 0 (by decide)⟩

end XXHash
